import Mathlib

/-!
# Fault decoding in `googleads/errors.go`

A shallow embedding of the fault types of `errors.go` (package `v201809`), of `baseError`
and of `ApiExceptionFault.UnmarshalXML`, `ErrorsType.Error` and `Fault.Error`, together with
the part of the Go packages `encoding/xml`, `strconv`, `strings` and `fmt` these functions
call.

Go values are embedded as follows.

* `string` is `String`; `uint` is a `Nat` below `2 ^ uintBits`; `int64` is an `Int`.
* `error` results are `Option GoError`, `none` being `nil`.
* `[]interface{}` (the field `ApiExceptionFault.Errors`) is a list of `Record`, the sum of the
  record types declared in `errors.go`.
* A `*xml.Decoder` is the sequence of results its `Token` method is going to return: the
  tokens still to come, followed by the error that `Token` reports from then on (`io.EOF` at
  the end of the element being unmarshalled, a `*xml.SyntaxError` on malformed input).
  Every method of the decoder used here reads its input through `Token` only.
* A method with a pointer receiver returns the updated receiver next to its result.
* The `error` stored in a `baseError` is an `Option ErrorValue`; a method call on the `nil`
  interface value is a run-time panic, and a method that can panic returns an `Option`.
-/

namespace Gads

/-! ## `encoding/xml`: names, tokens and the decoder -/

/-- The Go type `xml.Name`. -/
structure Name where
  Space : String
  Local : String
  deriving DecidableEq, Repr, Inhabited

/-- The Go type `xml.Attr`. -/
structure Attr where
  Name : Name
  Value : String
  deriving DecidableEq, Repr, Inhabited

/-- The Go type `xml.StartElement`. -/
structure StartElement where
  Name : Name
  Attr : List Attr
  deriving DecidableEq, Repr, Inhabited

/-- The Go interface `xml.Token` with its six dynamic types. -/
inductive Token where
  | StartElement (start : StartElement)
  | EndElement (name : Name)
  | CharData (data : String)
  | Comment (data : String)
  | ProcInst (target : String) (inst : String)
  | Directive (data : String)
  deriving DecidableEq, Repr, Inhabited

/-- The error values that reach `errors.go`: `io.EOF`, `*xml.SyntaxError`,
`*strconv.NumError` (through `copyValue`) and the values built by `fmt.Errorf`. -/
inductive GoError where
  | EOF
  | SyntaxError (Msg : String) (Line : Nat)
  | NumError (Func : String) (Num : String) (Err : String)
  | Errorf (text : String)
  deriving DecidableEq, Repr, Inhabited

/-- The state of a `*xml.Decoder` as the future of its `Token` method: the tokens it is
going to return, and the error it returns once they are used up. -/
structure Decoder where
  toks : List Token
  err : GoError
  deriving DecidableEq, Repr, Inhabited

/-- The method `Decoder.Token`: the next token, or the error of the stream (which stays). -/
def Decoder.Token (d : Decoder) : Except GoError Token × Decoder :=
  match d.toks with
  | [] => (.error d.err, d)
  | t :: ts => (.ok t, { d with toks := ts })

/-- The loop of `Decoder.Skip`, with its `depth` counter: read tokens up to the end element
that closes the element already entered. -/
def Decoder.skipLoop (err : GoError) : Nat → List Gads.Token → Option GoError × Decoder
  | _, [] => (some err, ⟨[], err⟩)
  | depth, .StartElement _ :: ts => skipLoop err (depth + 1) ts
  | 0, .EndElement _ :: ts => (none, ⟨ts, err⟩)
  | depth + 1, .EndElement _ :: ts => skipLoop err depth ts
  | depth, _ :: ts => skipLoop err depth ts

/-- The method `Decoder.Skip`. -/
def Decoder.Skip (d : Decoder) : Option GoError × Decoder :=
  Decoder.skipLoop d.err 0 d.toks

/-- The token loop of `Decoder.unmarshal` for a destination of a basic kind (`saveData` set,
no struct value): character data directly inside the element is appended to `data`, a child
element is skipped, the end element ends the loop. `none` only when `fuel` runs out. -/
def Decoder.unmarshalData : Nat → String → Decoder → Option (Except GoError String × Decoder)
  | 0, _, _ => none
  | fuel + 1, data, d =>
    match d.Token with
    | (.error err, d) => some (.error err, d)
    | (.ok (.StartElement _), d) =>
      match d.Skip with
      | (some err, d) => some (.error err, d)
      | (none, d) => unmarshalData fuel data d
    | (.ok (.EndElement _), d) => some (.ok data, d)
    | (.ok (.CharData t), d) => unmarshalData fuel (data ++ t) d
    | (.ok _, d) => unmarshalData fuel data d

/-- The data of the element the decoder has entered, read with fuel for every token. -/
def Decoder.readData (d : Decoder) : Except GoError String × Decoder :=
  match Decoder.unmarshalData (d.toks.length + 1) "" d with
  | some r => r
  | none => (.error d.err, d)

/-- The Go function `unicode.IsSpace`. -/
def isSpace (c : Char) : Bool :=
  c = '\t' || c = '\n' || c.toNat = 0x0B || c.toNat = 0x0C || c = '\r' || c = ' ' ||
  c.toNat = 0x85 || c.toNat = 0xA0 || c.toNat = 0x1680 ||
  (0x2000 ≤ c.toNat && c.toNat ≤ 0x200A) ||
  c.toNat = 0x2028 || c.toNat = 0x2029 || c.toNat = 0x202F || c.toNat = 0x205F ||
  c.toNat = 0x3000

/-- The Go function `strings.TrimSpace`. -/
def TrimSpace (s : String) : String :=
  String.mk ((s.data.dropWhile isSpace).reverse.dropWhile isSpace).reverse

/-- The width of the Go type `uint` (a 64-bit platform). -/
def uintBits : Nat := 64

/-- The digit loop of `strconv.ParseUint` in base 10: `none` for `ErrSyntax`, `some none`
for `ErrRange`, `some (some n)` for the value. Every byte that is not a decimal digit is a
syntax error in base 10. -/
def parseUintLoop (bitSize : Nat) : Nat → List Char → Option (Option Nat)
  | n, [] => some (some n)
  | n, c :: cs =>
    if '0' ≤ c ∧ c ≤ '9' then
      if n ≥ (2 ^ 64 - 1) / 10 + 1 then some none
      else
        let n1 := n * 10 + (c.toNat - '0'.toNat)
        if n1 ≥ 2 ^ 64 ∨ n1 > 2 ^ bitSize - 1 then some none
        else parseUintLoop bitSize n1 cs
    else none

/-- The Go function `strconv.ParseUint(s, 10, bitSize)`. -/
def ParseUint (s : String) (bitSize : Nat) : Except GoError Nat :=
  if s = "" then .error (.NumError "ParseUint" s "invalid syntax")
  else
    match parseUintLoop bitSize 0 s.data with
    | none => .error (.NumError "ParseUint" s "invalid syntax")
    | some none => .error (.NumError "ParseUint" s "value out of range")
    | some (some n) => .ok n

/-- The function `copyValue` of `encoding/xml` for a `uint` destination. -/
def copyValueUint (dst : Nat) (src : String) : Option GoError × Nat :=
  if src.length = 0 then (none, 0)
  else
    match ParseUint (TrimSpace src) uintBits with
    | .error err => (some err, dst)
    | .ok utmp => (none, utmp)

/-- The method `Decoder.unmarshal` for a `string` destination: read the data of the element, then
`copyValue` stores it. The destination keeps its value when the tokens fail. -/
def Decoder.unmarshalString (d : Decoder) (val : String) : Option GoError × String × Decoder :=
  match d.readData with
  | (.error err, d) => (some err, val, d)
  | (.ok data, d) => (none, data, d)

/-- The method `Decoder.unmarshal` for a `uint` destination. -/
def Decoder.unmarshalUint (d : Decoder) (val : Nat) : Option GoError × Nat × Decoder :=
  match d.readData with
  | (.error err, d) => (some err, val, d)
  | (.ok data, d) =>
    match copyValueUint val data with
    | (err, v) => (err, v, d)

/-- The token loop of `Decoder.unmarshal` for a struct destination without attribute,
character data or `any` fields. `unmarshalPath` is `Decoder.unmarshalPath` for the
struct type: it reports whether a field took the child element. A child no field takes is
skipped. `none` only when `fuel` runs out. -/
def Decoder.unmarshalStruct {σ : Type}
    (unmarshalPath : σ → StartElement → Decoder → Bool × Option GoError × σ × Decoder) :
    Nat → σ → Decoder → Option (Option GoError × σ × Decoder)
  | 0, _, _ => none
  | fuel + 1, sv, d =>
    match d.Token with
    | (.error err, d) => some (some err, sv, d)
    | (.ok (.StartElement t), d) =>
      match unmarshalPath sv t d with
      | (_, some err, sv, d) => some (some err, sv, d)
      | (true, none, sv, d) => unmarshalStruct unmarshalPath fuel sv d
      | (false, none, sv, d) =>
        match d.Skip with
        | (some err, d) => some (some err, sv, d)
        | (none, d) => unmarshalStruct unmarshalPath fuel sv d
    | (.ok (.EndElement _), d) => some (none, sv, d)
    | (.ok _, d) => unmarshalStruct unmarshalPath fuel sv d

/-! ## The record types of `errors.go` -/

structure OperationError where
  Code : Int
  Details : String
  ErrorCode : String
  Message : String
  deriving DecidableEq, Repr, Inhabited

structure EntityError where
  FieldPath : String
  Trigger : String
  ErrorString : String
  Reason : String
  deriving DecidableEq, Repr, Inhabited

structure BudgetError where
  EntityError : EntityError
  deriving DecidableEq, Repr, Inhabited

structure CriterionError where
  EntityError : EntityError
  deriving DecidableEq, Repr, Inhabited

structure TargetError where
  FieldPath : String
  Trigger : String
  ErrorString : String
  Reason : String
  deriving DecidableEq, Repr, Inhabited

structure AdGroupServiceError where
  FieldPath : String
  Trigger : String
  ErrorString : String
  Reason : String
  deriving DecidableEq, Repr, Inhabited

structure NotEmptyError where
  FieldPath : String
  Trigger : String
  ErrorString : String
  Reason : String
  deriving DecidableEq, Repr, Inhabited

structure AdError where
  FieldPath : String
  Trigger : String
  ErrorString : String
  Reason : String
  deriving DecidableEq, Repr, Inhabited

structure LabelError where
  FieldPath : String
  Trigger : String
  ErrorString : String
  Reason : String
  deriving DecidableEq, Repr, Inhabited

structure UrlError where
  EntityError : EntityError
  deriving DecidableEq, Repr, Inhabited

/-- The quota error of `errors.go`; `RetryAfterSeconds` is a Go `uint`. -/
structure RateExceededError where
  RateName : String
  RateScope : String
  ErrorString : String
  Reason : String
  RetryAfterSeconds : Nat
  deriving DecidableEq, Repr, Inhabited

/-- A value stored in a `[]interface{}`: one of the record types declared in `errors.go`. -/
inductive Record where
  | OperationError (e : OperationError)
  | EntityError (e : EntityError)
  | BudgetError (e : BudgetError)
  | CriterionError (e : CriterionError)
  | TargetError (e : TargetError)
  | AdGroupServiceError (e : AdGroupServiceError)
  | NotEmptyError (e : NotEmptyError)
  | AdError (e : AdError)
  | LabelError (e : LabelError)
  | UrlError (e : UrlError)
  | RateExceededError (e : RateExceededError)
  deriving DecidableEq, Repr, Inhabited

/-- The aggregate of `errors.go`. The Go field `Type` is written `Type_` here, `Type` being
reserved. -/
structure ApiExceptionFault where
  Message : String
  Type_ : String
  ErrorsType : String
  Reason : String
  Errors : List Record
  deriving DecidableEq, Repr, Inhabited

structure ErrorsType where
  ApiExceptionFaults : List ApiExceptionFault
  deriving DecidableEq, Repr, Inhabited

structure Fault where
  XMLName : Name
  FaultCode : String
  FaultString : String
  Errors : ErrorsType
  deriving DecidableEq, Repr, Inhabited

/-! ## Decoding the records -/

/-- The method `Decoder.unmarshalPath` for `EntityError`: the fields are the elements `fieldPath`,
`trigger`, `errorString` and `reason`, in any name space. -/
def EntityError.unmarshalPath (sv : EntityError) (start : StartElement) (d : Decoder) :
    Bool × Option GoError × EntityError × Decoder :=
  if start.Name.Local = "fieldPath" then
    match d.unmarshalString sv.FieldPath with
    | (err, v, d) => (true, err, { sv with FieldPath := v }, d)
  else if start.Name.Local = "trigger" then
    match d.unmarshalString sv.Trigger with
    | (err, v, d) => (true, err, { sv with Trigger := v }, d)
  else if start.Name.Local = "errorString" then
    match d.unmarshalString sv.ErrorString with
    | (err, v, d) => (true, err, { sv with ErrorString := v }, d)
  else if start.Name.Local = "reason" then
    match d.unmarshalString sv.Reason with
    | (err, v, d) => (true, err, { sv with Reason := v }, d)
  else (false, none, sv, d)

/-- The method `Decoder.unmarshalPath` for `RateExceededError`: the fields are the elements
`rateName`, `rateScope`, `errorString`, `reason` and `retryAfterSeconds`. -/
def RateExceededError.unmarshalPath (sv : RateExceededError) (start : StartElement)
    (d : Decoder) : Bool × Option GoError × RateExceededError × Decoder :=
  if start.Name.Local = "rateName" then
    match d.unmarshalString sv.RateName with
    | (err, v, d) => (true, err, { sv with RateName := v }, d)
  else if start.Name.Local = "rateScope" then
    match d.unmarshalString sv.RateScope with
    | (err, v, d) => (true, err, { sv with RateScope := v }, d)
  else if start.Name.Local = "errorString" then
    match d.unmarshalString sv.ErrorString with
    | (err, v, d) => (true, err, { sv with ErrorString := v }, d)
  else if start.Name.Local = "reason" then
    match d.unmarshalString sv.Reason with
    | (err, v, d) => (true, err, { sv with Reason := v }, d)
  else if start.Name.Local = "retryAfterSeconds" then
    match d.unmarshalUint sv.RetryAfterSeconds with
    | (err, v, d) => (true, err, { sv with RetryAfterSeconds := v }, d)
  else (false, none, sv, d)

/-- The call `dec.DecodeElement(&v, &start)` for a `string`: the error, the value of `v` afterwards
and the decoder afterwards. -/
def Decoder.DecodeElementString (d : Decoder) (v : String) (_start : StartElement) :
    Option GoError × String × Decoder :=
  d.unmarshalString v

/-- The call `dec.DecodeElement(&e, &start)` for an `EntityError`, with fuel for every token. -/
def Decoder.DecodeElementEntityError (d : Decoder) (e : EntityError) (_start : StartElement) :
    Option GoError × EntityError × Decoder :=
  match Decoder.unmarshalStruct EntityError.unmarshalPath (d.toks.length + 1) e d with
  | some r => r
  | none => (some d.err, e, d)

/-- The call `dec.DecodeElement(&e, &start)` for a `RateExceededError`, with fuel for every token. -/
def Decoder.DecodeElementRateExceededError (d : Decoder) (e : RateExceededError)
    (_start : StartElement) : Option GoError × RateExceededError × Decoder :=
  match Decoder.unmarshalStruct RateExceededError.unmarshalPath (d.toks.length + 1) e d with
  | some r => r
  | none => (some d.err, e, d)

/-! ## `fmt` -/

/-- The verb `%s` of `fmt` applied to an `xml.Name`: the fields between braces. -/
def Name.fmtS (n : Name) : String :=
  "\x7b" ++ n.Space ++ " " ++ n.Local ++ "\x7d"

/-- The verb `%s` applied to an `xml.Attr`. -/
def Attr.fmtS (a : Attr) : String :=
  "\x7b" ++ a.Name.fmtS ++ " " ++ a.Value ++ "\x7d"

/-- The verb `%s` applied to an `xml.StartElement`: the name, then the attributes between
brackets, separated by blanks. -/
def StartElement.fmtS (start : StartElement) : String :=
  "\x7b" ++ start.Name.fmtS ++ " " ++ "[" ++ " ".intercalate (start.Attr.map Attr.fmtS) ++ "]"
    ++ "\x7d"

/-! ## `ApiExceptionFault.UnmarshalXML` -/

/-- Modelled from the spec: `findAttr`, which `UnmarshalXML` calls, is declared in another
file of the package. It reads the attribute of the given name from the attributes of the
element and returns its value; an absent attribute gives the empty string. -/
def findAttr (attrs : List Attr) (name : Name) : String × Bool :=
  match attrs.find? (fun a => a.Name = name) with
  | some a => (a.Value, true)
  | none => ("", false)

/-- The name of the attribute `type` of the schema-instance name space. -/
def xsiType : Name :=
  { Space := "http://www.w3.org/2001/XMLSchema-instance", Local := "type" }

/-- The outcome of one pass through the `for` loop of `UnmarshalXML`: the function returns
(`ret`, with the returned error), or the loop goes on to its next pass (`next`). Both carry
the receiver and the decoder as the pass leaves them. -/
inductive Step where
  | ret (err : Option GoError) (aes : ApiExceptionFault) (dec : Decoder)
  | next (aes : ApiExceptionFault) (dec : Decoder)
  deriving DecidableEq, Repr, Inhabited

/-- One pass through the `for` loop of `UnmarshalXML`: the call of `dec.Token`, the loop
condition and the loop body. The loop declares its own `token, err`, so the result parameter
`err` of the function (the argument `err` here) is never assigned; when `dec.Token` fails the
loop ends and the `return err` after it returns the result parameter as it was. -/
def ApiExceptionFault.iteration (err : Option GoError) (aes : ApiExceptionFault)
    (dec : Decoder) : Step :=
  match dec.Token with
  | (.error _, dec) => .ret err aes dec
  | (.ok (.StartElement start), dec) =>
    if start.Name.Local = "message" then
      match dec.DecodeElementString aes.Message start with
      | (some err, _, dec) => .ret (some err) aes dec
      | (none, v, dec) => .next { aes with Message := v } dec
    else if start.Name.Local = "ApplicationException.Type" then
      match dec.DecodeElementString aes.Type_ start with
      | (some err, _, dec) => .ret (some err) aes dec
      | (none, v, dec) => .next { aes with Type_ := v } dec
    else if start.Name.Local = "errors" then
      let errorType := (findAttr start.Attr xsiType).1
      let aes := { aes with ErrorsType := errorType }
      if errorType = "RateExceededError" then
        match dec.DecodeElementRateExceededError ⟨"", "", "", "", 0⟩ start with
        | (_, e, dec) =>
          .next { aes with Errors := aes.Errors ++ [Record.RateExceededError e],
                           Reason := e.Reason } dec
      else if errorType = "AuthenticationError" ∨ errorType = "DatabaseError"
          ∨ errorType = "InternalApiError" then
        match dec.DecodeElementEntityError ⟨"", "", "", ""⟩ start with
        | (some _, _, dec) =>
          .ret (some (.Errorf ("Unknown error type -> " ++ start.fmtS))) aes dec
        | (none, e, dec) =>
          .next { aes with Errors := aes.Errors ++ [Record.EntityError e],
                           Reason := e.Reason } dec
      else
        match dec.DecodeElementEntityError ⟨"", "", "", ""⟩ start with
        | (some _, _, dec) =>
          .ret (some (.Errorf ("Unknown error type -> " ++ start.fmtS))) aes dec
        | (none, e, dec) =>
          .next { aes with Errors := aes.Errors ++ [Record.EntityError e] } dec
    else if start.Name.Local = "reason" then
      .next aes dec
    else
      .ret (some (.Errorf ("Unknown error field -> " ++ start.fmtS))) aes dec
  | (.ok _, dec) => .next aes dec

/-- The `for` loop of `UnmarshalXML` and the `return err` after it: passes are made until one
returns. The results are the returned error, the receiver and the decoder; `none` only when
`fuel` runs out. -/
def ApiExceptionFault.unmarshalLoop (err : Option GoError) :
    Nat → ApiExceptionFault → Decoder → Option (Option GoError × ApiExceptionFault × Decoder)
  | 0, _, _ => none
  | fuel + 1, aes, dec =>
    match ApiExceptionFault.iteration err aes dec with
    | .ret e aes dec => some (e, aes, dec)
    | .next aes dec => unmarshalLoop err fuel aes dec

/-- The method `ApiExceptionFault.UnmarshalXML`: the loop, with fuel for every token of the decoder and
the result parameter `err` at its zero value `nil`. Returns the error, the receiver and the
decoder. -/
def ApiExceptionFault.UnmarshalXML (aes : ApiExceptionFault) (dec : Decoder)
    (_start : StartElement) : Option GoError × ApiExceptionFault × Decoder :=
  let err : Option GoError := none
  match ApiExceptionFault.unmarshalLoop err (dec.toks.length + 1) aes dec with
  | some r => r
  | none => (err, aes, dec)

/-! ## Well-formed fault bodies -/

/-- A node of a well-formed document: an element with its children, or one of the other
tokens. -/
inductive Node where
  | element (start : StartElement) (children : List Node)
  | charData (data : String)
  | comment (data : String)
  | procInst (target : String) (inst : String)
  | directive (data : String)
  deriving Repr, Inhabited

mutual
/-- The tokens of a node, in document order. -/
def Node.tokens : Node → List Token
  | .element start children =>
    Token.StartElement start :: (Node.tokensList children ++ [Token.EndElement start.Name])
  | .charData data => [Token.CharData data]
  | .comment data => [Token.Comment data]
  | .procInst target inst => [Token.ProcInst target inst]
  | .directive data => [Token.Directive data]
/-- The tokens of a sequence of nodes. -/
def Node.tokensList : List Node → List Token
  | [] => []
  | n :: ns => Node.tokens n ++ Node.tokensList ns
end

/-- The decoder `UnmarshalXML` receives for a well-formed element `start` with the children
`body`: the tokens of the children, the end element of `start`, and then `io.EOF`. -/
def bodyDecoder (start : StartElement) (body : List Node) : Decoder :=
  { toks := Node.tokensList body ++ [Token.EndElement start.Name], err := GoError.EOF }

/-! ## Rendering: `ErrorsType.Error` and `Fault.Error` -/

/-- The Go function `strings.Join`: nothing for no element, the element itself for one, and otherwise
the first element followed by `sep` and the next element, for each further element. -/
def stringsJoin (elems : List String) (sep : String) : String :=
  match elems with
  | [] => ""
  | [e] => e
  | e :: rest => rest.foldl (fun b s => b ++ sep ++ s) e

/-- The call `fmt.Sprintf("%s", s)` for a string operand. -/
def sprintfS (s : String) : String := s

/-- The method `ErrorsType.Error`: the messages of the aggregates, collected by the `range` loop
and joined by a newline. -/
def ErrorsType.Error (f : ErrorsType) : String :=
  let errors := f.ApiExceptionFaults.foldl (fun errors e => errors ++ [sprintfS e.Message]) []
  stringsJoin errors "\n"

/-- The method `Fault.Error`: the fault string, a dash between blanks, and the rendering
of the detail. -/
def Fault.Error (f : Fault) : String :=
  f.FaultString ++ " - " ++ f.Errors.Error

/-! ## Vocabulary of the properties -/

/-- The record has the dynamic type `RateExceededError`. -/
def Record.isRateExceededError : Record → Bool
  | .RateExceededError _ => true
  | _ => false

/-- The record has the dynamic type `EntityError`. -/
def Record.isEntityError : Record → Bool
  | .EntityError _ => true
  | _ => false

/-- The type discriminator `UnmarshalXML` reads from a start element: the value `findAttr`
gives for the schema-instance attribute `type`. -/
def discriminator (start : StartElement) : String :=
  (findAttr start.Attr xsiType).1

/-- The character data directly inside an element with the given children: the text of the
`charData` children, in order. -/
def Node.text : List Node → String
  | [] => ""
  | .charData data :: ns => data ++ Node.text ns
  | _ :: ns => Node.text ns

/-- The node is an element. -/
def Node.isElement : Node → Bool
  | .element _ _ => true
  | _ => false

/-- Decoding the children of a well-formed element into a struct, node by node: `field`
gives what a child element does to the value (an error ends the decoding), any other node
is passed over. Returns the error, the value, and the children not yet read when the error
arose. -/
def Node.decodeStruct {σ : Type} (field : σ → StartElement → List Node → Option GoError × σ) :
    σ → List Node → Option GoError × σ × List Node
  | sv, [] => (none, sv, [])
  | sv, .element start children :: ns =>
    match field sv start children with
    | (some err, sv) => (some err, sv, ns)
    | (none, sv) => Node.decodeStruct field sv ns
  | sv, _ :: ns => Node.decodeStruct field sv ns

/-- What a child element does to an `EntityError`: a field element stores its text. -/
def EntityError.field (sv : EntityError) (start : StartElement) (children : List Node) :
    Option GoError × EntityError :=
  if start.Name.Local = "fieldPath" then (none, { sv with FieldPath := Node.text children })
  else if start.Name.Local = "trigger" then (none, { sv with Trigger := Node.text children })
  else if start.Name.Local = "errorString" then
    (none, { sv with ErrorString := Node.text children })
  else if start.Name.Local = "reason" then (none, { sv with Reason := Node.text children })
  else (none, sv)

/-- What a child element does to a `RateExceededError`: a field element stores its text,
`retryAfterSeconds` through `copyValue`, which may fail. -/
def RateExceededError.field (sv : RateExceededError) (start : StartElement)
    (children : List Node) : Option GoError × RateExceededError :=
  if start.Name.Local = "rateName" then (none, { sv with RateName := Node.text children })
  else if start.Name.Local = "rateScope" then
    (none, { sv with RateScope := Node.text children })
  else if start.Name.Local = "errorString" then
    (none, { sv with ErrorString := Node.text children })
  else if start.Name.Local = "reason" then (none, { sv with Reason := Node.text children })
  else if start.Name.Local = "retryAfterSeconds" then
    ((copyValueUint sv.RetryAfterSeconds (Node.text children)).1,
      { sv with RetryAfterSeconds :=
          (copyValueUint sv.RetryAfterSeconds (Node.text children)).2 })
  else (none, sv)

/-- The names of the elements `UnmarshalXML` accepts in a fault body. -/
def recognised (name : String) : Bool :=
  name = "message" || name = "ApplicationException.Type" || name = "errors" || name = "reason"

/-- The `errors` elements among the nodes, in document order, each with its children. -/
def topErrors : List Node → List (StartElement × List Node)
  | [] => []
  | .element start children :: ns =>
    if start.Name.Local = "errors" then (start, children) :: topErrors ns else topErrors ns
  | _ :: ns => topErrors ns

/-- The record decoded from an `errors` element standing alone: `DecodeElement` run on the
tokens of the element, into the record type its discriminator selects in `UnmarshalXML`. -/
def recordOf (el : StartElement × List Node) : Record :=
  if discriminator el.1 = "RateExceededError" then
    Record.RateExceededError
      (Decoder.DecodeElementRateExceededError (bodyDecoder el.1 el.2) ⟨"", "", "", "", 0⟩
        el.1).2.1
  else
    Record.EntityError
      (Decoder.DecodeElementEntityError (bodyDecoder el.1 el.2) ⟨"", "", "", ""⟩ el.1).2.1

/-- The node is a `reason` element that has a child element. -/
def Node.reasonWithChild : Node → Bool
  | .element start children => start.Name.Local = "reason" && children.any Node.isElement
  | _ => false

/-- The node is an `errors` element of type `RateExceededError` whose decoding fails. -/
def Node.rateFails : Node → Bool
  | .element start children =>
    start.Name.Local = "errors" && discriminator start = "RateExceededError"
      && (Decoder.DecodeElementRateExceededError (bodyDecoder start children)
            ⟨"", "", "", "", 0⟩ start).1.isSome
  | _ => false

/-- The node is an element whose name `UnmarshalXML` does not accept in a fault body. -/
def Node.unrecognised : Node → Bool
  | .element start _ => !recognised start.Name.Local
  | _ => false

/-- What the loop of `UnmarshalXML` does to the receiver when it reads a node of a fault
body whose name it accepts and that is neither `Node.reasonWithChild` nor `Node.rateFails`. -/
def Node.effect (aes : ApiExceptionFault) : Node → ApiExceptionFault
  | .element start children =>
    if start.Name.Local = "message" then { aes with Message := Node.text children }
    else if start.Name.Local = "ApplicationException.Type" then
      { aes with Type_ := Node.text children }
    else if start.Name.Local = "errors" then
      if discriminator start = "RateExceededError" then
        { aes with
          ErrorsType := discriminator start
          Reason :=
            (Node.decodeStruct RateExceededError.field ⟨"", "", "", "", 0⟩ children).2.1.Reason
          Errors := aes.Errors ++ [Record.RateExceededError
            (Node.decodeStruct RateExceededError.field ⟨"", "", "", "", 0⟩ children).2.1] }
      else
        { aes with
          ErrorsType := discriminator start
          Reason :=
            if discriminator start = "AuthenticationError"
                ∨ discriminator start = "DatabaseError"
                ∨ discriminator start = "InternalApiError" then
              (Node.decodeStruct EntityError.field ⟨"", "", "", ""⟩ children).2.1.Reason
            else aes.Reason
          Errors := aes.Errors ++ [Record.EntityError
            (Node.decodeStruct EntityError.field ⟨"", "", "", ""⟩ children).2.1] }
    else aes
  | _ => aes

/-- The tokens `l`, read by the loop of `UnmarshalXML` at the front of any stream, either end
the call with an error or are used up with the loop still going, and which of the two, with
which error and which receiver, does not depend on what follows them. -/
def Passes (l : List Token) : Prop :=
  ∀ (aes : ApiExceptionFault) (outer : StartElement),
    (∃ e aes1, ∀ rest fin, ∃ d1,
      aes.UnmarshalXML ⟨l ++ rest, fin⟩ outer = (some e, aes1, d1))
    ∨ (∃ aes1 : ApiExceptionFault, ∀ rest fin,
      aes.UnmarshalXML ⟨l ++ rest, fin⟩ outer = aes1.UnmarshalXML ⟨rest, fin⟩ outer)

/-- The text `sub` occurs in the text `s`. -/
def containsText (s sub : String) : Prop :=
  sub.data <:+: s.data

instance (s sub : String) : Decidable (containsText s sub) :=
  inferInstanceAs (Decidable (sub.data <:+: s.data))

/-- The text of the last child element with the local name `name`, and `dflt` when there is
no such child: what a string field of that name holds after the children are decoded. -/
def Node.fieldText (name : String) : String → List Node → String
  | dflt, [] => dflt
  | dflt, .element start children :: ns =>
    Node.fieldText name (if start.Name.Local = name then Node.text children else dflt) ns
  | dflt, _ :: ns => Node.fieldText name dflt ns

/-- The node is a child element with the local name `name`. -/
def Node.isNamed (name : String) : Node → Bool
  | .element start _ => start.Name.Local = name
  | _ => false

/-- The `errors` start element selects a branch of `UnmarshalXML` that assigns `Reason`: its
discriminator is one of the four named in the `switch`. -/
def setsReason (start : StartElement) : Bool :=
  discriminator start = "RateExceededError" || discriminator start = "AuthenticationError"
    || discriminator start = "DatabaseError" || discriminator start = "InternalApiError"

/-- The `Reason` field of a record; an `OperationError` has none. -/
def Record.Reason : Record → String
  | .OperationError _ => ""
  | .EntityError e => e.Reason
  | .BudgetError e => e.EntityError.Reason
  | .CriterionError e => e.EntityError.Reason
  | .TargetError e => e.Reason
  | .AdGroupServiceError e => e.Reason
  | .NotEmptyError e => e.Reason
  | .AdError e => e.Reason
  | .LabelError e => e.Reason
  | .UrlError e => e.EntityError.Reason
  | .RateExceededError e => e.Reason

/-! ## The classification of errors: `baseError` -/

/-- A value of the Go interface type `error` that is not `nil`: a `Fault`, an `ErrorsType`,
a `baseError` (given by its two fields), or an error of any other type, given by the string
its `Error` method returns. -/
inductive ErrorValue where
  | fault (f : Fault)
  | errorsType (e : ErrorsType)
  | base (code : String) (origErr : Option ErrorValue)
  | other (message : String)

/-- The struct `baseError`; `origErr` is an `error`, `none` being `nil`. -/
structure baseError where
  code : String
  origErr : Option ErrorValue

/-- The method `Error` of an error value. Calling a method on a `nil` interface value is a
run-time panic; `none` stands for it. A `baseError` calls `Error` on its `origErr`. -/
def ErrorValue.Error : ErrorValue → Option String
  | .fault f => some f.Error
  | .errorsType e => some e.Error
  | .base _ none => none
  | .base _ (some e) => e.Error
  | .other message => some message

/-- The method `baseError.Error`: the call `b.origErr.Error()`, which panics (`none`) when
`origErr` is `nil`. -/
def baseError.Error (b : baseError) : Option String :=
  match b.origErr with
  | none => none
  | some e => e.Error

/-- The method `baseError.Code`. -/
def baseError.Code (b : baseError) : String :=
  b.code

/-- The method `baseError.OrigErr`. -/
def baseError.OrigErr (b : baseError) : Option ErrorValue :=
  b.origErr

/-- The method `baseError.String`: the result of `b.Error()`. -/
def baseError.String (b : baseError) : Option String :=
  b.Error

/-! # Properties -/

/-! ## Rendering -/

theorem intercalate_go_eq_foldl (sep : String) (rest : List String) (acc : String) :
    String.intercalate.go acc sep rest = rest.foldl (fun b s => b ++ sep ++ s) acc := by
  induction rest generalizing acc with
  | nil => rfl
  | cons a as ih => simp only [String.intercalate.go, List.foldl_cons, ih]

theorem stringsJoin_eq_intercalate (elems : List String) (sep : String) :
    stringsJoin elems sep = sep.intercalate elems := by
  match elems with
  | [] => rfl
  | [e] => rfl
  | e :: f :: rest =>
    simp only [stringsJoin, String.intercalate, intercalate_go_eq_foldl]

theorem foldl_collect_messages (l : List ApiExceptionFault) (acc : List String) :
    l.foldl (fun errors e => errors ++ [sprintfS e.Message]) acc
      = acc ++ l.map (fun e => e.Message) := by
  induction l generalizing acc with
  | nil => simp
  | cons a as ih =>
    rw [List.foldl_cons, ih]
    simp only [sprintfS, List.map_cons, List.append_assoc, List.singleton_append]

/-- C1: `Fault.Error` returns the fault string, then `" - "`, then the messages of the
aggregates in list order with one newline between consecutive messages (nothing for no
aggregate); the two renderings of the specification are instances. -/
theorem Fault_Error_render :
    (∀ f : Fault, f.Error
        = f.FaultString ++ " - "
          ++ "\n".intercalate (f.Errors.ApiExceptionFaults.map (fun e => e.Message)))
    ∧ (∀ xmlName faultCode, Fault.Error ⟨xmlName, faultCode, "", ⟨[]⟩⟩ = " - ")
    ∧ (∀ xmlName faultCode type_ errorsType reason errors,
        Fault.Error ⟨xmlName, faultCode, "Fault occurred",
            ⟨[⟨"Bad request", type_, errorsType, reason, errors⟩]⟩⟩
          = "Fault occurred - Bad request") := by
  refine ⟨fun f => ?_, fun _ _ => rfl, fun _ _ _ _ _ _ => rfl⟩
  simp only [Fault.Error, ErrorsType.Error, foldl_collect_messages,
    stringsJoin_eq_intercalate, List.nil_append]

/-! ## The decoder: tokens are only consumed -/

theorem skipLoop_length (fin : GoError) (ts : List Token) (depth : Nat) :
    (Decoder.skipLoop fin depth ts).2.toks.length ≤ ts.length := by
  induction ts generalizing depth with
  | nil => simp [Decoder.skipLoop]
  | cons t ts ih =>
    cases t with
    | StartElement s =>
      simp only [Decoder.skipLoop, List.length_cons]
      exact Nat.le_succ_of_le (ih _)
    | EndElement n =>
      cases depth with
      | zero => simp [Decoder.skipLoop]
      | succ k =>
        simp only [Decoder.skipLoop, List.length_cons]
        exact Nat.le_succ_of_le (ih _)
    | CharData c =>
      simp only [Decoder.skipLoop, List.length_cons]
      exact Nat.le_succ_of_le (ih _)
    | Comment c =>
      simp only [Decoder.skipLoop, List.length_cons]
      exact Nat.le_succ_of_le (ih _)
    | ProcInst a b =>
      simp only [Decoder.skipLoop, List.length_cons]
      exact Nat.le_succ_of_le (ih _)
    | Directive c =>
      simp only [Decoder.skipLoop, List.length_cons]
      exact Nat.le_succ_of_le (ih _)

theorem Skip_length (d : Decoder) : d.Skip.2.toks.length ≤ d.toks.length :=
  skipLoop_length d.err d.toks 0

theorem Token_length (d : Decoder) (t : Token) (d1 : Decoder)
    (h : d.Token = (.ok t, d1)) : d1.toks.length + 1 = d.toks.length := by
  obtain ⟨toks, fin⟩ := d
  cases toks with
  | nil => simp [Decoder.Token] at h
  | cons a as =>
    simp only [Decoder.Token, Prod.mk.injEq, Except.ok.injEq] at h
    rw [← h.2]
    rfl

theorem Token_error_length (d : Decoder) (e : GoError) (d1 : Decoder)
    (h : d.Token = (.error e, d1)) : d1 = d := by
  obtain ⟨toks, fin⟩ := d
  cases toks with
  | nil =>
    simp only [Decoder.Token, Prod.mk.injEq] at h
    exact h.2.symm
  | cons a as => simp [Decoder.Token] at h

theorem unmarshalData_length (fuel : Nat) (data : String) (d : Decoder)
    (r : Except GoError String) (d1 : Decoder)
    (h : Decoder.unmarshalData fuel data d = some (r, d1)) :
    d1.toks.length ≤ d.toks.length := by
  induction fuel generalizing data d with
  | zero => simp [Decoder.unmarshalData] at h
  | succ n ih =>
    obtain ⟨toks, fin⟩ := d
    cases toks with
    | nil =>
      simp only [Decoder.unmarshalData, Decoder.Token, Option.some.injEq, Prod.mk.injEq] at h
      rw [← h.2]
    | cons t ts =>
      cases t with
      | StartElement s =>
        simp only [Decoder.unmarshalData, Decoder.Token] at h
        have hs := Skip_length ⟨ts, fin⟩
        rcases hsk : Decoder.Skip ⟨ts, fin⟩ with ⟨e, d2⟩
        rw [hsk] at h hs
        cases e with
        | some e =>
          simp only [Option.some.injEq, Prod.mk.injEq] at h
          rw [← h.2]
          exact Nat.le_succ_of_le hs
        | none =>
          simp only at h
          exact Nat.le_trans (ih _ _ h) (Nat.le_succ_of_le hs)
      | EndElement n =>
        simp only [Decoder.unmarshalData, Decoder.Token, Option.some.injEq, Prod.mk.injEq] at h
        rw [← h.2]
        exact Nat.le_succ _
      | CharData c =>
        simp only [Decoder.unmarshalData, Decoder.Token] at h
        exact Nat.le_succ_of_le (ih _ _ h)
      | Comment c =>
        simp only [Decoder.unmarshalData, Decoder.Token] at h
        exact Nat.le_succ_of_le (ih _ _ h)
      | ProcInst a b =>
        simp only [Decoder.unmarshalData, Decoder.Token] at h
        exact Nat.le_succ_of_le (ih _ _ h)
      | Directive c =>
        simp only [Decoder.unmarshalData, Decoder.Token] at h
        exact Nat.le_succ_of_le (ih _ _ h)

theorem unmarshalData_isSome (fuel : Nat) (data : String) (d : Decoder)
    (h : d.toks.length < fuel) : ∃ r, Decoder.unmarshalData fuel data d = some r := by
  induction fuel generalizing data d with
  | zero => exact absurd h (Nat.not_lt_zero _)
  | succ n ih =>
    obtain ⟨toks, fin⟩ := d
    cases toks with
    | nil => exact ⟨_, rfl⟩
    | cons t ts =>
      have hts : ts.length < n := by simpa using h
      cases t with
      | StartElement s =>
        simp only [Decoder.unmarshalData, Decoder.Token]
        have hs := Skip_length ⟨ts, fin⟩
        rcases hsk : Decoder.Skip ⟨ts, fin⟩ with ⟨e, d2⟩
        rw [hsk] at hs
        cases e with
        | some e => exact ⟨_, rfl⟩
        | none => exact ih _ _ (Nat.lt_of_le_of_lt hs hts)
      | EndElement n => exact ⟨_, rfl⟩
      | CharData c =>
        simp only [Decoder.unmarshalData, Decoder.Token]
        exact ih _ _ hts
      | Comment c =>
        simp only [Decoder.unmarshalData, Decoder.Token]
        exact ih _ _ hts
      | ProcInst a b =>
        simp only [Decoder.unmarshalData, Decoder.Token]
        exact ih _ _ hts
      | Directive c =>
        simp only [Decoder.unmarshalData, Decoder.Token]
        exact ih _ _ hts

theorem readData_length (d : Decoder) : d.readData.2.toks.length ≤ d.toks.length := by
  obtain ⟨r, hr⟩ := unmarshalData_isSome (d.toks.length + 1) "" d (Nat.lt_succ_self _)
  have := unmarshalData_length _ _ _ r.1 r.2 hr
  simp only [Decoder.readData, hr]
  exact this

theorem unmarshalString_length (d : Decoder) (v : String) :
    (d.unmarshalString v).2.2.toks.length ≤ d.toks.length := by
  have := readData_length d
  unfold Decoder.unmarshalString
  rcases h : d.readData with ⟨r, d1⟩
  rw [h] at this
  cases r <;> exact this

theorem unmarshalUint_length (d : Decoder) (v : Nat) :
    (d.unmarshalUint v).2.2.toks.length ≤ d.toks.length := by
  have := readData_length d
  unfold Decoder.unmarshalUint
  rcases h : d.readData with ⟨r, d1⟩
  rw [h] at this
  cases r <;> exact this

theorem unmarshalStruct_length {σ : Type}
    (path : σ → StartElement → Decoder → Bool × Option GoError × σ × Decoder)
    (hpath : ∀ sv t d, (path sv t d).2.2.2.toks.length ≤ d.toks.length)
    (fuel : Nat) (sv : σ) (d : Decoder) (r : Option GoError × σ × Decoder)
    (h : Decoder.unmarshalStruct path fuel sv d = some r) :
    r.2.2.toks.length ≤ d.toks.length := by
  induction fuel generalizing sv d with
  | zero => simp [Decoder.unmarshalStruct] at h
  | succ n ih =>
    obtain ⟨toks, fin⟩ := d
    cases toks with
    | nil =>
      simp only [Decoder.unmarshalStruct, Decoder.Token, Option.some.injEq] at h
      rw [← h]
    | cons t ts =>
      cases t with
      | StartElement s =>
        simp only [Decoder.unmarshalStruct, Decoder.Token] at h
        have hp := hpath sv s ⟨ts, fin⟩
        rcases hpe : path sv s ⟨ts, fin⟩ with ⟨c, e, sv1, d1⟩
        rw [hpe] at h hp
        simp only at hp
        cases e with
        | some e =>
          simp only [Option.some.injEq] at h
          rw [← h]
          exact Nat.le_succ_of_le hp
        | none =>
          cases c with
          | true =>
            simp only at h
            exact Nat.le_trans (ih _ _ h) (Nat.le_succ_of_le hp)
          | false =>
            simp only at h
            have hs := Skip_length d1
            rcases hsk : Decoder.Skip d1 with ⟨e2, d2⟩
            rw [hsk] at h hs
            simp only at hs
            cases e2 with
            | some e2 =>
              simp only [Option.some.injEq] at h
              rw [← h]
              exact Nat.le_succ_of_le (Nat.le_trans hs hp)
            | none =>
              simp only at h
              exact Nat.le_trans (ih _ _ h) (Nat.le_succ_of_le (Nat.le_trans hs hp))
      | EndElement n =>
        simp only [Decoder.unmarshalStruct, Decoder.Token, Option.some.injEq] at h
        rw [← h]
        exact Nat.le_succ _
      | CharData c =>
        simp only [Decoder.unmarshalStruct, Decoder.Token] at h
        exact Nat.le_succ_of_le (ih _ _ h)
      | Comment c =>
        simp only [Decoder.unmarshalStruct, Decoder.Token] at h
        exact Nat.le_succ_of_le (ih _ _ h)
      | ProcInst a b =>
        simp only [Decoder.unmarshalStruct, Decoder.Token] at h
        exact Nat.le_succ_of_le (ih _ _ h)
      | Directive c =>
        simp only [Decoder.unmarshalStruct, Decoder.Token] at h
        exact Nat.le_succ_of_le (ih _ _ h)

theorem unmarshalStruct_isSome {σ : Type}
    (path : σ → StartElement → Decoder → Bool × Option GoError × σ × Decoder)
    (hpath : ∀ sv t d, (path sv t d).2.2.2.toks.length ≤ d.toks.length)
    (fuel : Nat) (sv : σ) (d : Decoder) (h : d.toks.length < fuel) :
    ∃ r, Decoder.unmarshalStruct path fuel sv d = some r := by
  induction fuel generalizing sv d with
  | zero => exact absurd h (Nat.not_lt_zero _)
  | succ n ih =>
    obtain ⟨toks, fin⟩ := d
    cases toks with
    | nil => exact ⟨_, rfl⟩
    | cons t ts =>
      have hts : ts.length < n := by simpa using h
      cases t with
      | StartElement s =>
        simp only [Decoder.unmarshalStruct, Decoder.Token]
        have hp := hpath sv s ⟨ts, fin⟩
        rcases hpe : path sv s ⟨ts, fin⟩ with ⟨c, e, sv1, d1⟩
        rw [hpe] at hp
        simp only at hp
        cases e with
        | some e => cases c <;> exact ⟨_, rfl⟩
        | none =>
          cases c with
          | true => exact ih _ _ (Nat.lt_of_le_of_lt hp hts)
          | false =>
            simp only
            have hs := Skip_length d1
            rcases hsk : Decoder.Skip d1 with ⟨e2, d2⟩
            rw [hsk] at hs
            simp only at hs
            cases e2 with
            | some e2 => exact ⟨_, rfl⟩
            | none => exact ih _ _ (Nat.lt_of_le_of_lt (Nat.le_trans hs hp) hts)
      | EndElement n => exact ⟨_, rfl⟩
      | CharData c =>
        simp only [Decoder.unmarshalStruct, Decoder.Token]
        exact ih _ _ hts
      | Comment c =>
        simp only [Decoder.unmarshalStruct, Decoder.Token]
        exact ih _ _ hts
      | ProcInst a b =>
        simp only [Decoder.unmarshalStruct, Decoder.Token]
        exact ih _ _ hts
      | Directive c =>
        simp only [Decoder.unmarshalStruct, Decoder.Token]
        exact ih _ _ hts

theorem EntityError_unmarshalPath_length (sv : EntityError) (t : StartElement) (d : Decoder) :
    (EntityError.unmarshalPath sv t d).2.2.2.toks.length ≤ d.toks.length := by
  unfold EntityError.unmarshalPath
  split_ifs
  · exact unmarshalString_length d _
  · exact unmarshalString_length d _
  · exact unmarshalString_length d _
  · exact unmarshalString_length d _
  · exact Nat.le_refl _

theorem RateExceededError_unmarshalPath_length (sv : RateExceededError) (t : StartElement)
    (d : Decoder) :
    (RateExceededError.unmarshalPath sv t d).2.2.2.toks.length ≤ d.toks.length := by
  unfold RateExceededError.unmarshalPath
  split_ifs
  · exact unmarshalString_length d _
  · exact unmarshalString_length d _
  · exact unmarshalString_length d _
  · exact unmarshalString_length d _
  · exact unmarshalUint_length d _
  · exact Nat.le_refl _

theorem DecodeElementString_length (d : Decoder) (v : String) (start : StartElement) :
    (d.DecodeElementString v start).2.2.toks.length ≤ d.toks.length :=
  unmarshalString_length d v

theorem DecodeElementEntityError_length (d : Decoder) (e : EntityError)
    (start : StartElement) :
    (d.DecodeElementEntityError e start).2.2.toks.length ≤ d.toks.length := by
  obtain ⟨r, hr⟩ := unmarshalStruct_isSome EntityError.unmarshalPath
    EntityError_unmarshalPath_length (d.toks.length + 1) e d (Nat.lt_succ_self _)
  have := unmarshalStruct_length _ EntityError_unmarshalPath_length _ _ _ r hr
  simp only [Decoder.DecodeElementEntityError, hr]
  exact this

theorem DecodeElementRateExceededError_length (d : Decoder) (e : RateExceededError)
    (start : StartElement) :
    (d.DecodeElementRateExceededError e start).2.2.toks.length ≤ d.toks.length := by
  obtain ⟨r, hr⟩ := unmarshalStruct_isSome RateExceededError.unmarshalPath
    RateExceededError_unmarshalPath_length (d.toks.length + 1) e d (Nat.lt_succ_self _)
  have := unmarshalStruct_length _ RateExceededError_unmarshalPath_length _ _ _ r hr
  simp only [Decoder.DecodeElementRateExceededError, hr]
  exact this

/-! ## The loop of `UnmarshalXML` ends -/

theorem iteration_next_length (err : Option GoError) (aes aes1 : ApiExceptionFault)
    (d d1 : Decoder) (h : ApiExceptionFault.iteration err aes d = .next aes1 d1) :
    d1.toks.length < d.toks.length := by
  obtain ⟨toks, fin⟩ := d
  cases toks with
  | nil => simp [ApiExceptionFault.iteration, Decoder.Token] at h
  | cons t ts =>
    cases t with
    | StartElement s =>
      simp only [ApiExceptionFault.iteration, Decoder.Token] at h
      have h1 := fun v => DecodeElementString_length ⟨ts, fin⟩ v s
      have h2 := fun e => DecodeElementEntityError_length ⟨ts, fin⟩ e s
      have h3 := fun e => DecodeElementRateExceededError_length ⟨ts, fin⟩ e s
      simp only [List.length_cons]
      split_ifs at h
      · specialize h1 aes.Message
        rcases hd : Decoder.DecodeElementString ⟨ts, fin⟩ aes.Message s with ⟨e, v, d2⟩
        rw [hd] at h h1
        cases e with
        | some e => simp at h
        | none =>
          simp only [Step.next.injEq] at h
          rw [← h.2]
          exact Nat.lt_succ_of_le h1
      · specialize h1 aes.Type_
        rcases hd : Decoder.DecodeElementString ⟨ts, fin⟩ aes.Type_ s with ⟨e, v, d2⟩
        rw [hd] at h h1
        cases e with
        | some e => simp at h
        | none =>
          simp only [Step.next.injEq] at h
          rw [← h.2]
          exact Nat.lt_succ_of_le h1
      · specialize h3 ⟨"", "", "", "", 0⟩
        rcases hd : Decoder.DecodeElementRateExceededError ⟨ts, fin⟩ ⟨"", "", "", "", 0⟩ s
          with ⟨e, v, d2⟩
        rw [hd] at h h3
        simp only [Step.next.injEq] at h
        rw [← h.2]
        exact Nat.lt_succ_of_le h3
      · specialize h2 ⟨"", "", "", ""⟩
        rcases hd : Decoder.DecodeElementEntityError ⟨ts, fin⟩ ⟨"", "", "", ""⟩ s
          with ⟨e, v, d2⟩
        rw [hd] at h h2
        cases e with
        | some e => simp at h
        | none =>
          simp only [Step.next.injEq] at h
          rw [← h.2]
          exact Nat.lt_succ_of_le h2
      · specialize h2 ⟨"", "", "", ""⟩
        rcases hd : Decoder.DecodeElementEntityError ⟨ts, fin⟩ ⟨"", "", "", ""⟩ s
          with ⟨e, v, d2⟩
        rw [hd] at h h2
        cases e with
        | some e => simp at h
        | none =>
          simp only [Step.next.injEq] at h
          rw [← h.2]
          exact Nat.lt_succ_of_le h2
      · simp only [Step.next.injEq] at h
        rw [← h.2]
        exact Nat.lt_succ_self _
    | EndElement n =>
      simp only [ApiExceptionFault.iteration, Decoder.Token, Step.next.injEq] at h
      rw [← h.2]
      exact Nat.lt_succ_self _
    | CharData c =>
      simp only [ApiExceptionFault.iteration, Decoder.Token, Step.next.injEq] at h
      rw [← h.2]
      exact Nat.lt_succ_self _
    | Comment c =>
      simp only [ApiExceptionFault.iteration, Decoder.Token, Step.next.injEq] at h
      rw [← h.2]
      exact Nat.lt_succ_self _
    | ProcInst a b =>
      simp only [ApiExceptionFault.iteration, Decoder.Token, Step.next.injEq] at h
      rw [← h.2]
      exact Nat.lt_succ_self _
    | Directive c =>
      simp only [ApiExceptionFault.iteration, Decoder.Token, Step.next.injEq] at h
      rw [← h.2]
      exact Nat.lt_succ_self _

theorem unmarshalLoop_isSome (err : Option GoError) (fuel : Nat) (aes : ApiExceptionFault)
    (d : Decoder) (h : d.toks.length < fuel) :
    ∃ r, ApiExceptionFault.unmarshalLoop err fuel aes d = some r := by
  induction fuel generalizing aes d with
  | zero => exact absurd h (Nat.not_lt_zero _)
  | succ n ih =>
    simp only [ApiExceptionFault.unmarshalLoop]
    cases hi : ApiExceptionFault.iteration err aes d with
    | ret e a d1 => exact ⟨_, rfl⟩
    | next a d1 =>
      have := iteration_next_length err aes a d d1 hi
      exact ih a d1 (by omega)

theorem unmarshalLoop_succ (err : Option GoError) (fuel : Nat) (aes : ApiExceptionFault)
    (d : Decoder) (r : Option GoError × ApiExceptionFault × Decoder)
    (h : ApiExceptionFault.unmarshalLoop err fuel aes d = some r) :
    ApiExceptionFault.unmarshalLoop err (fuel + 1) aes d = some r := by
  induction fuel generalizing aes d with
  | zero => simp [ApiExceptionFault.unmarshalLoop] at h
  | succ n ih =>
    rw [ApiExceptionFault.unmarshalLoop] at h ⊢
    cases hi : ApiExceptionFault.iteration err aes d with
    | ret e a d1 =>
      rw [hi] at h
      exact h
    | next a d1 =>
      rw [hi] at h
      exact ih a d1 h

theorem unmarshalLoop_le (err : Option GoError) (n m : Nat) (hnm : n ≤ m)
    (aes : ApiExceptionFault) (d : Decoder)
    (r : Option GoError × ApiExceptionFault × Decoder)
    (h : ApiExceptionFault.unmarshalLoop err n aes d = some r) :
    ApiExceptionFault.unmarshalLoop err m aes d = some r := by
  induction hnm with
  | refl => exact h
  | step _ ih => exact unmarshalLoop_succ err _ aes d r ih

/-- With fuel for every token the loop returns, and its result is that of `UnmarshalXML`. -/
theorem unmarshalLoop_eq_UnmarshalXML (fuel : Nat) (aes : ApiExceptionFault) (d : Decoder)
    (start : StartElement) (h : d.toks.length < fuel) :
    ApiExceptionFault.unmarshalLoop none fuel aes d = some (aes.UnmarshalXML d start) := by
  obtain ⟨r, hr⟩ := unmarshalLoop_isSome none (d.toks.length + 1) aes d (Nat.lt_succ_self _)
  have h1 : aes.UnmarshalXML d start = r := by
    simp only [ApiExceptionFault.UnmarshalXML, hr]
  rw [h1]
  exact unmarshalLoop_le none _ fuel h aes d r hr

/-- The method `UnmarshalXML` is one pass of its loop, followed by `UnmarshalXML` on what is left. -/
theorem UnmarshalXML_iteration (aes : ApiExceptionFault) (d : Decoder) (start : StartElement) :
    aes.UnmarshalXML d start
      = match ApiExceptionFault.iteration none aes d with
        | .ret e a d1 => (e, a, d1)
        | .next a d1 => a.UnmarshalXML d1 start := by
  have h := unmarshalLoop_eq_UnmarshalXML (d.toks.length + 1) aes d start (Nat.lt_succ_self _)
  rw [ApiExceptionFault.unmarshalLoop] at h
  cases hi : ApiExceptionFault.iteration none aes d with
  | ret e a d1 =>
    rw [hi] at h
    simp only [Option.some.injEq] at h
    exact h.symm
  | next a d1 =>
    rw [hi] at h
    simp only
    have hl := iteration_next_length none aes a d d1 hi
    have h2 := unmarshalLoop_eq_UnmarshalXML d.toks.length a d1 start hl
    simp only [h2, Option.some.injEq] at h
    exact h.symm

/-! ## The record list only grows -/

/-- What a pass of the loop does to the record list: nothing when it returns, and at most
one record of the `RateExceededError` or `EntityError` shape at the end when it goes on. -/
theorem iteration_Errors (err : Option GoError) (aes : ApiExceptionFault) (d : Decoder) :
    match ApiExceptionFault.iteration err aes d with
    | .ret _ aes1 _ => aes1.Errors = aes.Errors
    | .next aes1 _ =>
      ∃ new, aes1.Errors = aes.Errors ++ new ∧ new.length ≤ 1
        ∧ ∀ r ∈ new, r.isRateExceededError = true ∨ r.isEntityError = true := by
  obtain ⟨toks, fin⟩ := d
  cases toks with
  | nil => rfl
  | cons t ts =>
    cases t with
    | StartElement s =>
      simp only [ApiExceptionFault.iteration, Decoder.Token]
      split_ifs
      · rcases Decoder.DecodeElementString ⟨ts, fin⟩ aes.Message s with ⟨e, v, d2⟩
        cases e with
        | some e => rfl
        | none => exact ⟨[], by simp, by simp, by simp⟩
      · rcases Decoder.DecodeElementString ⟨ts, fin⟩ aes.Type_ s with ⟨e, v, d2⟩
        cases e with
        | some e => rfl
        | none => exact ⟨[], by simp, by simp, by simp⟩
      · exact ⟨[_], rfl, by simp, by simp [Record.isRateExceededError]⟩
      · rcases Decoder.DecodeElementEntityError ⟨ts, fin⟩ ⟨"", "", "", ""⟩ s with ⟨e, v, d2⟩
        cases e with
        | some e => rfl
        | none => exact ⟨[_], rfl, by simp, by simp [Record.isEntityError]⟩
      · rcases Decoder.DecodeElementEntityError ⟨ts, fin⟩ ⟨"", "", "", ""⟩ s with ⟨e, v, d2⟩
        cases e with
        | some e => rfl
        | none => exact ⟨[_], rfl, by simp, by simp [Record.isEntityError]⟩
      · exact ⟨[], by simp, by simp, by simp⟩
      · rfl
    | EndElement n => exact ⟨[], by simp [ApiExceptionFault.iteration, Decoder.Token], by simp, by simp⟩
    | CharData c => exact ⟨[], by simp [ApiExceptionFault.iteration, Decoder.Token], by simp, by simp⟩
    | Comment c => exact ⟨[], by simp [ApiExceptionFault.iteration, Decoder.Token], by simp, by simp⟩
    | ProcInst a b => exact ⟨[], by simp [ApiExceptionFault.iteration, Decoder.Token], by simp, by simp⟩
    | Directive c => exact ⟨[], by simp [ApiExceptionFault.iteration, Decoder.Token], by simp, by simp⟩

/-- Over a whole call the record list of the receiver is extended at its end, by records of
the `RateExceededError` and `EntityError` shapes only. -/
theorem UnmarshalXML_Errors (start : StartElement) (n : Nat) :
    ∀ (aes : ApiExceptionFault) (d : Decoder), d.toks.length ≤ n →
      ∃ new, (aes.UnmarshalXML d start).2.1.Errors = aes.Errors ++ new
        ∧ ∀ r ∈ new, r.isRateExceededError = true ∨ r.isEntityError = true := by
  induction n with
  | zero =>
    intro aes d hd
    rw [UnmarshalXML_iteration]
    have hi := iteration_Errors none aes d
    cases hiter : ApiExceptionFault.iteration none aes d with
    | ret e a d1 =>
      rw [hiter] at hi
      exact ⟨[], by simpa using hi, by simp⟩
    | next a d1 =>
      have := iteration_next_length none aes a d d1 hiter
      omega
  | succ n ih =>
    intro aes d hd
    rw [UnmarshalXML_iteration]
    have hi := iteration_Errors none aes d
    cases hiter : ApiExceptionFault.iteration none aes d with
    | ret e a d1 =>
      rw [hiter] at hi
      exact ⟨[], by simpa using hi, by simp⟩
    | next a d1 =>
      rw [hiter] at hi
      obtain ⟨new1, h1, _, h3⟩ := hi
      have hl := iteration_next_length none aes a d d1 hiter
      obtain ⟨new2, h4, h5⟩ := ih a d1 (by omega)
      refine ⟨new1 ++ new2, ?_, ?_⟩
      · simp only [h4, h1, List.append_assoc]
      · intro r hr
        rcases List.mem_append.mp hr with h | h
        · exact h3 r h
        · exact h5 r h

/-! ## One `errors` element -/

/-- The shape of the record a pass of the loop appends when it reads an `errors` start
element: a pass that goes on has appended one record, of the `RateExceededError` shape if and
only if the discriminator is `RateExceededError`, and a pass that returns has appended
nothing. -/
theorem iteration_errors_shape (err : Option GoError) (aes : ApiExceptionFault)
    (space : String) (attrs : List Attr) (ts : List Token) (fin : GoError) :
    match ApiExceptionFault.iteration err aes
        ⟨Token.StartElement ⟨⟨space, "errors"⟩, attrs⟩ :: ts, fin⟩ with
    | .next aes1 _ =>
      ∃ r, aes1.Errors = aes.Errors ++ [r]
        ∧ (r.isRateExceededError = true
            ↔ discriminator ⟨⟨space, "errors"⟩, attrs⟩ = "RateExceededError")
        ∧ (r.isEntityError = true
            ↔ discriminator ⟨⟨space, "errors"⟩, attrs⟩ ≠ "RateExceededError")
    | .ret _ aes1 _ => aes1.Errors = aes.Errors := by
  simp only [ApiExceptionFault.iteration, Decoder.Token, discriminator]
  have h1 : ¬ ("errors" = "message") := by decide
  have h2 : ¬ ("errors" = "ApplicationException.Type") := by decide
  simp only [h1, h2, if_false, if_true]
  by_cases hr : (findAttr attrs xsiType).1 = "RateExceededError"
  · simp only [hr, if_true]
    exact ⟨_, rfl, by simp [Record.isRateExceededError], by simp [Record.isEntityError]⟩
  · simp only [hr, if_false]
    split_ifs
    · rcases Decoder.DecodeElementEntityError ⟨ts, fin⟩ ⟨"", "", "", ""⟩
        ⟨⟨space, "errors"⟩, attrs⟩ with ⟨e, v, d2⟩
      cases e with
      | some e => rfl
      | none =>
        exact ⟨_, rfl, by simp [Record.isRateExceededError, hr],
          by simp [Record.isEntityError, hr]⟩
    · rcases Decoder.DecodeElementEntityError ⟨ts, fin⟩ ⟨"", "", "", ""⟩
        ⟨⟨space, "errors"⟩, attrs⟩ with ⟨e, v, d2⟩
      cases e with
      | some e => rfl
      | none =>
        exact ⟨_, rfl, by simp [Record.isRateExceededError, hr],
          by simp [Record.isEntityError, hr]⟩

/-- The pass of the loop that reads an `errors` start element, by discriminator. -/
theorem iteration_errors (err : Option GoError) (aes : ApiExceptionFault)
    (start : StartElement) (ts : List Token) (fin : GoError)
    (hname : start.Name.Local = "errors") :
    ApiExceptionFault.iteration err aes ⟨Token.StartElement start :: ts, fin⟩
      = if discriminator start = "RateExceededError" then
          .next
            { Message := aes.Message, Type_ := aes.Type_, ErrorsType := discriminator start,
              Reason :=
                (Decoder.DecodeElementRateExceededError ⟨ts, fin⟩ ⟨"", "", "", "", 0⟩
                  start).2.1.Reason,
              Errors := aes.Errors ++ [Record.RateExceededError
                (Decoder.DecodeElementRateExceededError ⟨ts, fin⟩ ⟨"", "", "", "", 0⟩
                  start).2.1] }
            (Decoder.DecodeElementRateExceededError ⟨ts, fin⟩ ⟨"", "", "", "", 0⟩ start).2.2
        else
          match Decoder.DecodeElementEntityError ⟨ts, fin⟩ ⟨"", "", "", ""⟩ start with
          | (some _, _, dec) =>
            .ret (some (.Errorf ("Unknown error type -> " ++ start.fmtS)))
              { Message := aes.Message, Type_ := aes.Type_, ErrorsType := discriminator start,
                Reason := aes.Reason, Errors := aes.Errors } dec
          | (none, e, dec) =>
            .next
              { Message := aes.Message, Type_ := aes.Type_, ErrorsType := discriminator start,
                Reason :=
                  if discriminator start = "AuthenticationError"
                      ∨ discriminator start = "DatabaseError"
                      ∨ discriminator start = "InternalApiError" then e.Reason
                  else aes.Reason,
                Errors := aes.Errors ++ [Record.EntityError e] } dec := by
  have h1 : ¬ ("errors" = "message") := by decide
  have h2 : ¬ ("errors" = "ApplicationException.Type") := by decide
  simp only [ApiExceptionFault.iteration, Decoder.Token, hname, h1, h2, if_false, if_true,
    discriminator]
  by_cases hr : (findAttr start.Attr xsiType).1 = "RateExceededError"
  · simp only [hr, if_true]
  · simp only [hr, if_false]
    by_cases h3 : (findAttr start.Attr xsiType).1 = "AuthenticationError"
        ∨ (findAttr start.Attr xsiType).1 = "DatabaseError"
        ∨ (findAttr start.Attr xsiType).1 = "InternalApiError"
    · simp only [h3, if_true]
    · simp only [h3, if_false]

/-- C4: when a pass of the loop reads an `errors` start element whose discriminator is
`RateExceededError`, `AuthenticationError`, `DatabaseError` or `InternalApiError`, the loop
goes on with the decoded record appended and with `Reason` set to the `Reason` field of that
record, whatever `Reason` held before: always for `RateExceededError`, and for the three
other kinds whenever the record decodes. -/
theorem errors_reason_last_write (err : Option GoError) (aes : ApiExceptionFault)
    (start : StartElement) (ts : List Token) (fin : GoError)
    (hname : start.Name.Local = "errors")
    (hdisc : discriminator start = "RateExceededError"
      ∨ discriminator start = "AuthenticationError"
      ∨ discriminator start = "DatabaseError"
      ∨ discriminator start = "InternalApiError") :
    (discriminator start = "RateExceededError"
      ∧ ApiExceptionFault.iteration err aes ⟨Token.StartElement start :: ts, fin⟩
        = .next
            { Message := aes.Message, Type_ := aes.Type_, ErrorsType := discriminator start,
              Reason :=
                (Decoder.DecodeElementRateExceededError ⟨ts, fin⟩ ⟨"", "", "", "", 0⟩
                  start).2.1.Reason,
              Errors := aes.Errors ++ [Record.RateExceededError
                (Decoder.DecodeElementRateExceededError ⟨ts, fin⟩ ⟨"", "", "", "", 0⟩
                  start).2.1] }
            (Decoder.DecodeElementRateExceededError ⟨ts, fin⟩ ⟨"", "", "", "", 0⟩ start).2.2)
    ∨ (discriminator start ≠ "RateExceededError"
      ∧ ((Decoder.DecodeElementEntityError ⟨ts, fin⟩ ⟨"", "", "", ""⟩ start).1 = none →
        ApiExceptionFault.iteration err aes ⟨Token.StartElement start :: ts, fin⟩
        = .next
            { Message := aes.Message, Type_ := aes.Type_, ErrorsType := discriminator start,
              Reason :=
                (Decoder.DecodeElementEntityError ⟨ts, fin⟩ ⟨"", "", "", ""⟩ start).2.1.Reason,
              Errors := aes.Errors ++ [Record.EntityError
                (Decoder.DecodeElementEntityError ⟨ts, fin⟩ ⟨"", "", "", ""⟩ start).2.1] }
            (Decoder.DecodeElementEntityError ⟨ts, fin⟩ ⟨"", "", "", ""⟩ start).2.2)) := by
  rw [iteration_errors err aes start ts fin hname]
  by_cases hr : discriminator start = "RateExceededError"
  · left
    exact ⟨hr, by simp only [hr, if_true]⟩
  · right
    refine ⟨hr, fun hok => ?_⟩
    have h3 : discriminator start = "AuthenticationError"
        ∨ discriminator start = "DatabaseError"
        ∨ discriminator start = "InternalApiError" := by
      rcases hdisc with h | h
      · exact absurd h hr
      · exact h
    rcases hd : Decoder.DecodeElementEntityError ⟨ts, fin⟩ ⟨"", "", "", ""⟩ start
      with ⟨e, v, d2⟩
    rw [hd] at hok
    simp only at hok
    subst hok
    simp only [hr, h3, if_false, if_true]

/-- C4, an instance: an `AuthenticationError` element with the reason `LOGIN` replaces the
earlier reason `old`. -/
theorem errors_reason_last_write_witness :
    ((⟨⟨"", "errors"⟩, [⟨xsiType, "AuthenticationError"⟩]⟩ : StartElement).Name.Local
        = "errors")
    ∧ ApiExceptionFault.iteration none ⟨"m", "t", "", "old", []⟩
        ⟨[Token.StartElement ⟨⟨"", "errors"⟩, [⟨xsiType, "AuthenticationError"⟩]⟩,
          Token.StartElement ⟨⟨"", "reason"⟩, []⟩, Token.CharData "LOGIN",
          Token.EndElement ⟨"", "reason"⟩, Token.EndElement ⟨"", "errors"⟩], GoError.EOF⟩
      = .next ⟨"m", "t", "AuthenticationError", "LOGIN",
          [Record.EntityError ⟨"", "", "", "LOGIN"⟩]⟩ ⟨[], GoError.EOF⟩ := by
  refine ⟨rfl, ?_⟩
  have h := errors_reason_last_write none ⟨"m", "t", "", "old", []⟩
    ⟨⟨"", "errors"⟩, [⟨xsiType, "AuthenticationError"⟩]⟩
    [Token.StartElement ⟨⟨"", "reason"⟩, []⟩, Token.CharData "LOGIN",
      Token.EndElement ⟨"", "reason"⟩, Token.EndElement ⟨"", "errors"⟩] GoError.EOF rfl
    (Or.inr (Or.inl (by decide)))
  rcases h with ⟨h, _⟩ | ⟨_, h⟩
  · exact absurd h (by decide)
  · exact (h (by decide)).trans (by decide)

/-- The discriminator of a start element without the schema-instance attribute `type` is the
empty string. -/
theorem discriminator_absent (start : StartElement)
    (h : ∀ a ∈ start.Attr, a.Name ≠ xsiType) : discriminator start = "" := by
  have hf : start.Attr.find? (fun a => a.Name = xsiType) = none := by
    rw [List.find?_eq_none]
    intro a ha
    simpa using h a ha
  simp only [discriminator, findAttr, hf]

/-- C9: when a pass of the loop reads an `errors` start element whose discriminator is not
`RateExceededError` and decoding it into an `EntityError` fails, the pass returns the error
`Unknown error type -> ` followed by the start element, no record is appended and `Reason`
is unchanged; `UnmarshalXML` returns that error. -/
theorem errors_entity_decode_failure (err : Option GoError) (aes : ApiExceptionFault)
    (start : StartElement) (ts : List Token) (fin : GoError) (e0 : GoError)
    (outer : StartElement) (hname : start.Name.Local = "errors")
    (hdisc : discriminator start ≠ "RateExceededError")
    (hfail : (Decoder.DecodeElementEntityError ⟨ts, fin⟩ ⟨"", "", "", ""⟩ start).1 = some e0) :
    ApiExceptionFault.iteration err aes ⟨Token.StartElement start :: ts, fin⟩
      = .ret (some (.Errorf ("Unknown error type -> " ++ start.fmtS)))
          { Message := aes.Message, Type_ := aes.Type_, ErrorsType := discriminator start,
            Reason := aes.Reason, Errors := aes.Errors }
          (Decoder.DecodeElementEntityError ⟨ts, fin⟩ ⟨"", "", "", ""⟩ start).2.2
    ∧ aes.UnmarshalXML ⟨Token.StartElement start :: ts, fin⟩ outer
      = (some (.Errorf ("Unknown error type -> " ++ start.fmtS)),
          { Message := aes.Message, Type_ := aes.Type_, ErrorsType := discriminator start,
            Reason := aes.Reason, Errors := aes.Errors },
          (Decoder.DecodeElementEntityError ⟨ts, fin⟩ ⟨"", "", "", ""⟩ start).2.2) := by
  have hstep : ∀ err1 : Option GoError,
      ApiExceptionFault.iteration err1 aes ⟨Token.StartElement start :: ts, fin⟩
      = .ret (some (.Errorf ("Unknown error type -> " ++ start.fmtS)))
          { Message := aes.Message, Type_ := aes.Type_, ErrorsType := discriminator start,
            Reason := aes.Reason, Errors := aes.Errors }
          (Decoder.DecodeElementEntityError ⟨ts, fin⟩ ⟨"", "", "", ""⟩ start).2.2 := by
    intro err1
    rw [iteration_errors err1 aes start ts fin hname]
    rcases hdec : Decoder.DecodeElementEntityError ⟨ts, fin⟩ ⟨"", "", "", ""⟩ start
      with ⟨e, v, d2⟩
    rw [hdec] at hfail
    simp only at hfail
    subst hfail
    simp only [hdisc, if_false]
  refine ⟨hstep err, ?_⟩
  rw [UnmarshalXML_iteration, hstep none]

/-- C9, an instance: an `errors` element cut off inside its `fieldPath` child. -/
theorem errors_entity_decode_failure_witness :
    ((⟨⟨"", "errors"⟩, []⟩ : StartElement).Name.Local = "errors")
    ∧ discriminator ⟨⟨"", "errors"⟩, []⟩ ≠ "RateExceededError"
    ∧ ApiExceptionFault.UnmarshalXML ⟨"m", "t", "x", "old", []⟩
        ⟨[Token.StartElement ⟨⟨"", "errors"⟩, []⟩,
          Token.StartElement ⟨⟨"", "fieldPath"⟩, []⟩, Token.CharData "ope"],
          GoError.SyntaxError "unexpected EOF" 1⟩ ⟨⟨"", "ApiExceptionFault"⟩, []⟩
      = (some (.Errorf "Unknown error type -> \x7b\x7b errors\x7d []\x7d"),
          ⟨"m", "t", "", "old", []⟩, ⟨[], GoError.SyntaxError "unexpected EOF" 1⟩) := by
  refine ⟨rfl, by decide, ?_⟩
  exact (errors_entity_decode_failure none ⟨"m", "t", "x", "old", []⟩ ⟨⟨"", "errors"⟩, []⟩
    [Token.StartElement ⟨⟨"", "fieldPath"⟩, []⟩, Token.CharData "ope"]
    (GoError.SyntaxError "unexpected EOF" 1) (GoError.SyntaxError "unexpected EOF" 1)
    ⟨⟨"", "ApiExceptionFault"⟩, []⟩ rfl (by decide) (by decide)).2.trans (by decide)

/-! ## Errors that are not returned -/

/-- C7 (the code departs from it): when `dec.Token` fails, whatever the error, the loop ends
and `UnmarshalXML` returns `nil`, not that error. So for a stream that fails at once, and so
for a body cut off after its `message` element, where `dec.Token` reports the syntax error
`unexpected EOF`. -/
theorem UnmarshalXML_drops_token_error :
    (∀ (aes : ApiExceptionFault) (fin : GoError) (outer : StartElement),
      aes.UnmarshalXML ⟨[], fin⟩ outer = (none, aes, ⟨[], fin⟩))
    ∧ ApiExceptionFault.UnmarshalXML ⟨"", "", "", "", []⟩
        ⟨[Token.StartElement ⟨⟨"", "message"⟩, []⟩, Token.CharData "hi",
          Token.EndElement ⟨"", "message"⟩], GoError.SyntaxError "unexpected EOF" 1⟩
        ⟨⟨"", "ApiExceptionFault"⟩, []⟩
      = (none, ⟨"hi", "", "", "", []⟩, ⟨[], GoError.SyntaxError "unexpected EOF" 1⟩) := by
  refine ⟨fun aes fin outer => ?_, by decide⟩
  rw [UnmarshalXML_iteration]
  rfl

/-- C8 (the code departs from it): a `RateExceededError` element whose `retryAfterSeconds`
is not a number fails to decode, and `UnmarshalXML` still returns `nil`, with the partly
filled record in the list. -/
theorem UnmarshalXML_ignores_rate_decode_error :
    (Decoder.DecodeElementRateExceededError
        ⟨[Token.StartElement ⟨⟨"", "reason"⟩, []⟩, Token.CharData "RATE_EXCEEDED",
          Token.EndElement ⟨"", "reason"⟩,
          Token.StartElement ⟨⟨"", "retryAfterSeconds"⟩, []⟩, Token.CharData "soon",
          Token.EndElement ⟨"", "retryAfterSeconds"⟩,
          Token.EndElement ⟨"", "errors"⟩, Token.EndElement ⟨"", "ApiExceptionFault"⟩],
          GoError.EOF⟩
        ⟨"", "", "", "", 0⟩ ⟨⟨"", "errors"⟩, [⟨xsiType, "RateExceededError"⟩]⟩).1
      = some (GoError.NumError "ParseUint" "soon" "invalid syntax")
    ∧ ApiExceptionFault.UnmarshalXML ⟨"", "", "", "", []⟩
        ⟨[Token.StartElement ⟨⟨"", "errors"⟩, [⟨xsiType, "RateExceededError"⟩]⟩,
          Token.StartElement ⟨⟨"", "reason"⟩, []⟩, Token.CharData "RATE_EXCEEDED",
          Token.EndElement ⟨"", "reason"⟩,
          Token.StartElement ⟨⟨"", "retryAfterSeconds"⟩, []⟩, Token.CharData "soon",
          Token.EndElement ⟨"", "retryAfterSeconds"⟩,
          Token.EndElement ⟨"", "errors"⟩, Token.EndElement ⟨"", "ApiExceptionFault"⟩],
          GoError.EOF⟩
        ⟨⟨"", "ApiExceptionFault"⟩, []⟩
      = (none,
          ⟨"", "", "RateExceededError", "RATE_EXCEEDED",
            [Record.RateExceededError ⟨"", "", "", "RATE_EXCEEDED", 0⟩]⟩,
          ⟨[], GoError.EOF⟩) := by
  refine ⟨by decide, by decide⟩

/-! ## Decoding a well-formed element -/

theorem skipLoop_step_other (fin : GoError) (depth : Nat) (t : Token) (ts : List Token)
    (h1 : ∀ s, t ≠ Token.StartElement s) (h2 : ∀ n, t ≠ Token.EndElement n) :
    Decoder.skipLoop fin depth (t :: ts) = Decoder.skipLoop fin depth ts := by
  cases t with
  | StartElement s => exact absurd rfl (h1 s)
  | EndElement n => exact absurd rfl (h2 n)
  | CharData c => cases depth <;> rfl
  | Comment c => cases depth <;> rfl
  | ProcInst a b => cases depth <;> rfl
  | Directive c => cases depth <;> rfl

mutual
/-- The method `Skip` passes over a whole node without a change of depth. -/
theorem skipLoop_tokens (fin : GoError) :
    ∀ (n : Node) (depth : Nat) (rest : List Token),
      Decoder.skipLoop fin depth (n.tokens ++ rest) = Decoder.skipLoop fin depth rest
  | .element start cs, depth, rest => by
    simp only [Node.tokens, List.cons_append, List.append_assoc, Decoder.skipLoop]
    rw [skipLoop_tokensList fin cs (depth + 1)]
    rfl
  | .charData c, depth, rest => skipLoop_step_other fin depth _ rest (by simp) (by simp)
  | .comment c, depth, rest => skipLoop_step_other fin depth _ rest (by simp) (by simp)
  | .procInst a b, depth, rest => skipLoop_step_other fin depth _ rest (by simp) (by simp)
  | .directive c, depth, rest => skipLoop_step_other fin depth _ rest (by simp) (by simp)
/-- The method `Skip` passes over a sequence of nodes without a change of depth. -/
theorem skipLoop_tokensList (fin : GoError) :
    ∀ (ns : List Node) (depth : Nat) (rest : List Token),
      Decoder.skipLoop fin depth (Node.tokensList ns ++ rest) = Decoder.skipLoop fin depth rest
  | [], depth, rest => by simp [Node.tokensList]
  | n :: ns, depth, rest => by
    simp only [Node.tokensList, List.append_assoc]
    rw [skipLoop_tokens fin n depth, skipLoop_tokensList fin ns depth]
end

/-- The method `Skip` after the start of an element stops behind its end element. -/
theorem Skip_children (cs : List Node) (name : Name) (rest : List Token) (fin : GoError) :
    Decoder.Skip ⟨Node.tokensList cs ++ Token.EndElement name :: rest, fin⟩
      = (none, ⟨rest, fin⟩) := by
  simp only [Decoder.Skip]
  rw [skipLoop_tokensList fin cs 0]
  rfl

theorem tokens_length_pos (n : Node) : 0 < n.tokens.length := by
  cases n <;> simp [Node.tokens]

/-- The data loop on the children of an element collects their text and stops behind the
end element. -/
theorem unmarshalData_children (cs : List Node) :
    ∀ (fuel : Nat) (data : String) (name : Name) (rest : List Token) (fin : GoError),
      (Node.tokensList cs).length < fuel →
      Decoder.unmarshalData fuel data ⟨Node.tokensList cs ++ Token.EndElement name :: rest, fin⟩
        = some (.ok (data ++ Node.text cs), ⟨rest, fin⟩) := by
  induction cs with
  | nil =>
    intro fuel data name rest fin h
    cases fuel with
    | zero => exact absurd h (Nat.not_lt_zero _)
    | succ k =>
      simp [Node.tokensList, Decoder.unmarshalData, Decoder.Token, Node.text]
  | cons c cs ih =>
    intro fuel data name rest fin h
    cases fuel with
    | zero => exact absurd h (Nat.not_lt_zero _)
    | succ k =>
      have hlen : (Node.tokensList cs).length < k := by
        have := tokens_length_pos c
        simp only [Node.tokensList, List.length_append] at h
        omega
      cases c with
      | element start gcs =>
        simp only [Node.tokensList, Node.tokens, List.cons_append, List.append_assoc,
          Decoder.unmarshalData, Decoder.Token, List.nil_append, Node.text]
        rw [Skip_children gcs start.Name]
        simp only
        exact ih k data name rest fin hlen
      | charData c =>
        simp only [Node.tokensList, Node.tokens, List.cons_append, List.nil_append,
          Decoder.unmarshalData, Decoder.Token, Node.text]
        rw [ih k (data ++ c) name rest fin hlen, String.append_assoc]
      | comment c =>
        simp only [Node.tokensList, Node.tokens, List.cons_append, List.nil_append,
          Decoder.unmarshalData, Decoder.Token, Node.text]
        exact ih k data name rest fin hlen
      | procInst a b =>
        simp only [Node.tokensList, Node.tokens, List.cons_append, List.nil_append,
          Decoder.unmarshalData, Decoder.Token, Node.text]
        exact ih k data name rest fin hlen
      | directive c =>
        simp only [Node.tokensList, Node.tokens, List.cons_append, List.nil_append,
          Decoder.unmarshalData, Decoder.Token, Node.text]
        exact ih k data name rest fin hlen

theorem readData_children (cs : List Node) (name : Name) (rest : List Token) (fin : GoError) :
    Decoder.readData ⟨Node.tokensList cs ++ Token.EndElement name :: rest, fin⟩
      = (.ok (Node.text cs), ⟨rest, fin⟩) := by
  have h := unmarshalData_children cs
    ((Node.tokensList cs ++ Token.EndElement name :: rest).length + 1) "" name rest fin
    (by simp only [List.length_append, List.length_cons]; omega)
  simp only [Decoder.readData, h, String.empty_append]

/-- Decoding a well-formed element into a string gives the text of the element. -/
theorem unmarshalString_children (cs : List Node) (name : Name) (rest : List Token)
    (fin : GoError) (v : String) :
    Decoder.unmarshalString ⟨Node.tokensList cs ++ Token.EndElement name :: rest, fin⟩ v
      = (none, Node.text cs, ⟨rest, fin⟩) := by
  simp only [Decoder.unmarshalString, readData_children]

theorem unmarshalUint_children (cs : List Node) (name : Name) (rest : List Token)
    (fin : GoError) (v : Nat) :
    Decoder.unmarshalUint ⟨Node.tokensList cs ++ Token.EndElement name :: rest, fin⟩ v
      = ((copyValueUint v (Node.text cs)).1, (copyValueUint v (Node.text cs)).2,
          ⟨rest, fin⟩) := by
  simp only [Decoder.unmarshalUint, readData_children]

/-- The struct loop on the children of a well-formed element is `Node.decodeStruct`, for a
`unmarshalPath` that reads a child element as `field` does or leaves it alone. After an error
the decoder stands before the children not yet read. -/
theorem unmarshalStruct_children {σ : Type}
    (path : σ → StartElement → Decoder → Bool × Option GoError × σ × Decoder)
    (field : σ → StartElement → List Node → Option GoError × σ)
    (hpath : ∀ sv start gcs rest fin,
      path sv start ⟨Node.tokensList gcs ++ Token.EndElement start.Name :: rest, fin⟩
          = (true, (field sv start gcs).1, (field sv start gcs).2, ⟨rest, fin⟩)
      ∨ (path sv start ⟨Node.tokensList gcs ++ Token.EndElement start.Name :: rest, fin⟩
          = (false, none, sv,
              ⟨Node.tokensList gcs ++ Token.EndElement start.Name :: rest, fin⟩)
        ∧ field sv start gcs = (none, sv)))
    (cs : List Node) :
    ∀ (fuel : Nat) (sv : σ) (name : Name) (rest : List Token) (fin : GoError),
      (Node.tokensList cs).length < fuel →
      Decoder.unmarshalStruct path fuel sv
          ⟨Node.tokensList cs ++ Token.EndElement name :: rest, fin⟩
        = some ((Node.decodeStruct field sv cs).1, (Node.decodeStruct field sv cs).2.1,
            match (Node.decodeStruct field sv cs).1 with
            | none => ⟨rest, fin⟩
            | some _ =>
              ⟨Node.tokensList (Node.decodeStruct field sv cs).2.2
                ++ Token.EndElement name :: rest, fin⟩) := by
  induction cs with
  | nil =>
    intro fuel sv name rest fin h
    cases fuel with
    | zero => exact absurd h (Nat.not_lt_zero _)
    | succ k =>
      simp [Node.tokensList, Decoder.unmarshalStruct, Decoder.Token, Node.decodeStruct]
  | cons c cs ih =>
    intro fuel sv name rest fin h
    cases fuel with
    | zero => exact absurd h (Nat.not_lt_zero _)
    | succ k =>
      have hlen : (Node.tokensList cs).length < k := by
        have := tokens_length_pos c
        simp only [Node.tokensList, List.length_append] at h
        omega
      cases c with
      | element start gcs =>
        simp only [Node.tokensList, Node.tokens, List.cons_append, List.append_assoc,
          Decoder.unmarshalStruct, Decoder.Token, List.nil_append, Node.decodeStruct]
        rcases hpath sv start gcs
          (Node.tokensList cs ++ Token.EndElement name :: rest) fin with hp | ⟨hp, hf⟩
        · rw [hp]
          rcases hfe : field sv start gcs with ⟨e, sv1⟩
          cases e with
          | some e => simp only
          | none =>
            simp only
            exact ih k sv1 name rest fin hlen
        · rw [hp, hf]
          simp only
          rw [Skip_children gcs start.Name]
          simp only
          exact ih k sv name rest fin hlen
      | charData c =>
        simp only [Node.tokensList, Node.tokens, List.cons_append, List.nil_append,
          Decoder.unmarshalStruct, Decoder.Token, Node.decodeStruct]
        exact ih k sv name rest fin hlen
      | comment c =>
        simp only [Node.tokensList, Node.tokens, List.cons_append, List.nil_append,
          Decoder.unmarshalStruct, Decoder.Token, Node.decodeStruct]
        exact ih k sv name rest fin hlen
      | procInst a b =>
        simp only [Node.tokensList, Node.tokens, List.cons_append, List.nil_append,
          Decoder.unmarshalStruct, Decoder.Token, Node.decodeStruct]
        exact ih k sv name rest fin hlen
      | directive c =>
        simp only [Node.tokensList, Node.tokens, List.cons_append, List.nil_append,
          Decoder.unmarshalStruct, Decoder.Token, Node.decodeStruct]
        exact ih k sv name rest fin hlen

theorem EntityError_unmarshalPath_children (sv : EntityError) (start : StartElement)
    (gcs : List Node) (rest : List Token) (fin : GoError) :
    EntityError.unmarshalPath sv start
        ⟨Node.tokensList gcs ++ Token.EndElement start.Name :: rest, fin⟩
      = (true, (EntityError.field sv start gcs).1, (EntityError.field sv start gcs).2,
          ⟨rest, fin⟩)
    ∨ (EntityError.unmarshalPath sv start
          ⟨Node.tokensList gcs ++ Token.EndElement start.Name :: rest, fin⟩
        = (false, none, sv,
            ⟨Node.tokensList gcs ++ Token.EndElement start.Name :: rest, fin⟩)
      ∧ EntityError.field sv start gcs = (none, sv)) := by
  unfold EntityError.unmarshalPath EntityError.field
  simp only [unmarshalString_children]
  split_ifs
  · exact Or.inl rfl
  · exact Or.inl rfl
  · exact Or.inl rfl
  · exact Or.inl rfl
  · exact Or.inr ⟨rfl, rfl⟩

theorem RateExceededError_unmarshalPath_children (sv : RateExceededError)
    (start : StartElement) (gcs : List Node) (rest : List Token) (fin : GoError) :
    RateExceededError.unmarshalPath sv start
        ⟨Node.tokensList gcs ++ Token.EndElement start.Name :: rest, fin⟩
      = (true, (RateExceededError.field sv start gcs).1,
          (RateExceededError.field sv start gcs).2, ⟨rest, fin⟩)
    ∨ (RateExceededError.unmarshalPath sv start
          ⟨Node.tokensList gcs ++ Token.EndElement start.Name :: rest, fin⟩
        = (false, none, sv,
            ⟨Node.tokensList gcs ++ Token.EndElement start.Name :: rest, fin⟩)
      ∧ RateExceededError.field sv start gcs = (none, sv)) := by
  unfold RateExceededError.unmarshalPath RateExceededError.field
  simp only [unmarshalString_children, unmarshalUint_children]
  split_ifs
  · exact Or.inl rfl
  · exact Or.inl rfl
  · exact Or.inl rfl
  · exact Or.inl rfl
  · exact Or.inl rfl
  · exact Or.inr ⟨rfl, rfl⟩

/-- Decoding a well-formed element into an `EntityError`. -/
theorem DecodeElementEntityError_children (cs : List Node) (name : Name) (rest : List Token)
    (fin : GoError) (e : EntityError) (start : StartElement) :
    Decoder.DecodeElementEntityError ⟨Node.tokensList cs ++ Token.EndElement name :: rest, fin⟩
        e start
      = ((Node.decodeStruct EntityError.field e cs).1,
          (Node.decodeStruct EntityError.field e cs).2.1,
          match (Node.decodeStruct EntityError.field e cs).1 with
          | none => ⟨rest, fin⟩
          | some _ =>
            ⟨Node.tokensList (Node.decodeStruct EntityError.field e cs).2.2
              ++ Token.EndElement name :: rest, fin⟩) := by
  have h := unmarshalStruct_children EntityError.unmarshalPath EntityError.field
    EntityError_unmarshalPath_children cs
    ((Node.tokensList cs ++ Token.EndElement name :: rest).length + 1) e name rest fin
    (by simp only [List.length_append, List.length_cons]; omega)
  simp only [Decoder.DecodeElementEntityError, h]

/-- Decoding a well-formed element into a `RateExceededError`. -/
theorem DecodeElementRateExceededError_children (cs : List Node) (name : Name)
    (rest : List Token) (fin : GoError) (e : RateExceededError) (start : StartElement) :
    Decoder.DecodeElementRateExceededError
        ⟨Node.tokensList cs ++ Token.EndElement name :: rest, fin⟩ e start
      = ((Node.decodeStruct RateExceededError.field e cs).1,
          (Node.decodeStruct RateExceededError.field e cs).2.1,
          match (Node.decodeStruct RateExceededError.field e cs).1 with
          | none => ⟨rest, fin⟩
          | some _ =>
            ⟨Node.tokensList (Node.decodeStruct RateExceededError.field e cs).2.2
              ++ Token.EndElement name :: rest, fin⟩) := by
  have h := unmarshalStruct_children RateExceededError.unmarshalPath RateExceededError.field
    RateExceededError_unmarshalPath_children cs
    ((Node.tokensList cs ++ Token.EndElement name :: rest).length + 1) e name rest fin
    (by simp only [List.length_append, List.length_cons]; omega)
  simp only [Decoder.DecodeElementRateExceededError, h]

/-- An `EntityError` always decodes from a well-formed element. -/
theorem decodeStruct_EntityError_ok (cs : List Node) (e : EntityError) :
    (Node.decodeStruct EntityError.field e cs).1 = none := by
  induction cs generalizing e with
  | nil => rfl
  | cons c cs ih =>
    cases c with
    | element start gcs =>
      simp only [Node.decodeStruct]
      have hf : (EntityError.field e start gcs).1 = none := by
        unfold EntityError.field
        split_ifs <;> rfl
      rcases hfe : EntityError.field e start gcs with ⟨x, sv1⟩
      rw [hfe] at hf
      simp only at hf
      subst hf
      exact ih sv1
    | charData c => exact ih e
    | comment c => exact ih e
    | procInst a b => exact ih e
    | directive c => exact ih e

/-- The children left over by `Node.decodeStruct` are a final part of the children. -/
theorem decodeStruct_suffix {σ : Type}
    (field : σ → StartElement → List Node → Option GoError × σ) (cs : List Node) (sv : σ) :
    (Node.decodeStruct field sv cs).2.2 <:+ cs := by
  induction cs generalizing sv with
  | nil => exact List.suffix_refl _
  | cons c cs ih =>
    cases c with
    | element start gcs =>
      simp only [Node.decodeStruct]
      rcases hfe : field sv start gcs with ⟨x, sv1⟩
      cases x with
      | some e => exact List.suffix_cons _ _
      | none => exact (ih sv1).trans (List.suffix_cons _ _)
    | charData c => exact (ih sv).trans (List.suffix_cons _ _)
    | comment c => exact (ih sv).trans (List.suffix_cons _ _)
    | procInst a b => exact (ih sv).trans (List.suffix_cons _ _)
    | directive c => exact (ih sv).trans (List.suffix_cons _ _)

/-! ## `UnmarshalXML` on the nodes of a well-formed body -/

theorem UnmarshalXML_nil (aes : ApiExceptionFault) (fin : GoError) (outer : StartElement) :
    aes.UnmarshalXML ⟨[], fin⟩ outer = (none, aes, ⟨[], fin⟩) := by
  rw [UnmarshalXML_iteration]
  rfl

/-- A token that is not a start element is passed over. -/
theorem UnmarshalXML_skip_token (aes : ApiExceptionFault) (t : Token) (ts : List Token)
    (fin : GoError) (outer : StartElement) (h : ∀ s, t ≠ Token.StartElement s) :
    aes.UnmarshalXML ⟨t :: ts, fin⟩ outer = aes.UnmarshalXML ⟨ts, fin⟩ outer := by
  rw [UnmarshalXML_iteration]
  cases t with
  | StartElement s => exact absurd rfl (h s)
  | EndElement n => rfl
  | CharData c => rfl
  | Comment c => rfl
  | ProcInst a b => rfl
  | Directive c => rfl

/-- Tokens none of which is a start element are passed over. -/
theorem UnmarshalXML_skip_tokens (aes : ApiExceptionFault) (l ts : List Token)
    (fin : GoError) (outer : StartElement) (h : ∀ t ∈ l, ∀ s, t ≠ Token.StartElement s) :
    aes.UnmarshalXML ⟨l ++ ts, fin⟩ outer = aes.UnmarshalXML ⟨ts, fin⟩ outer := by
  induction l with
  | nil => rfl
  | cons t l ih =>
    rw [List.cons_append, UnmarshalXML_skip_token aes t _ fin outer
      (h t (List.mem_cons_self _ _))]
    exact ih (fun t1 ht1 => h t1 (List.mem_cons_of_mem _ ht1))

/-- A `message` element of a well-formed body sets `Message` to its text. -/
theorem UnmarshalXML_message (aes : ApiExceptionFault) (start : StartElement)
    (cs : List Node) (rest : List Token) (fin : GoError) (outer : StartElement)
    (hname : start.Name.Local = "message") :
    aes.UnmarshalXML ⟨(Node.element start cs).tokens ++ rest, fin⟩ outer
      = ApiExceptionFault.UnmarshalXML { aes with Message := Node.text cs } ⟨rest, fin⟩
          outer := by
  rw [UnmarshalXML_iteration]
  simp only [Node.tokens, List.cons_append, List.append_assoc, List.singleton_append, List.nil_append,
    ApiExceptionFault.iteration, Decoder.Token, hname, if_true, Decoder.DecodeElementString,
    unmarshalString_children]

/-- An `ApplicationException.Type` element of a well-formed body sets `Type` to its text. -/
theorem UnmarshalXML_type (aes : ApiExceptionFault) (start : StartElement)
    (cs : List Node) (rest : List Token) (fin : GoError) (outer : StartElement)
    (hname : start.Name.Local = "ApplicationException.Type") :
    aes.UnmarshalXML ⟨(Node.element start cs).tokens ++ rest, fin⟩ outer
      = ApiExceptionFault.UnmarshalXML { aes with Type_ := Node.text cs } ⟨rest, fin⟩
          outer := by
  rw [UnmarshalXML_iteration]
  have h1 : ¬ ("ApplicationException.Type" = "message") := by decide
  simp only [Node.tokens, List.cons_append, List.append_assoc, List.singleton_append, List.nil_append,
    ApiExceptionFault.iteration, Decoder.Token, hname, h1, if_true, if_false,
    Decoder.DecodeElementString, unmarshalString_children]

/-- A `reason` element: the loop goes on inside the element. -/
theorem UnmarshalXML_reason (aes : ApiExceptionFault) (start : StartElement)
    (ts : List Token) (fin : GoError) (outer : StartElement)
    (hname : start.Name.Local = "reason") :
    aes.UnmarshalXML ⟨Token.StartElement start :: ts, fin⟩ outer
      = aes.UnmarshalXML ⟨ts, fin⟩ outer := by
  rw [UnmarshalXML_iteration]
  have h1 : ¬ ("reason" = "message") := by decide
  have h2 : ¬ ("reason" = "ApplicationException.Type") := by decide
  have h3 : ¬ ("reason" = "errors") := by decide
  simp only [ApiExceptionFault.iteration, Decoder.Token, hname, h1, h2, h3, if_true, if_false]

/-- A start element with a name that is not accepted ends the call with an error. -/
theorem UnmarshalXML_unrecognised (aes : ApiExceptionFault) (start : StartElement)
    (ts : List Token) (fin : GoError) (outer : StartElement)
    (hname : recognised start.Name.Local = false) :
    aes.UnmarshalXML ⟨Token.StartElement start :: ts, fin⟩ outer
      = (some (.Errorf ("Unknown error field -> " ++ start.fmtS)), aes, ⟨ts, fin⟩) := by
  rw [UnmarshalXML_iteration]
  simp only [recognised, Bool.or_eq_false_iff, decide_eq_false_iff_not] at hname
  obtain ⟨⟨⟨h1, h2⟩, h3⟩, h4⟩ := hname
  simp only [ApiExceptionFault.iteration, Decoder.Token, h1, h2, h3, h4, if_false]

/-- An `errors` element of a well-formed body that is not of type `RateExceededError`. -/
theorem UnmarshalXML_errors_entity (aes : ApiExceptionFault) (start : StartElement)
    (cs : List Node) (rest : List Token) (fin : GoError) (outer : StartElement)
    (hname : start.Name.Local = "errors")
    (hdisc : discriminator start ≠ "RateExceededError") :
    aes.UnmarshalXML ⟨(Node.element start cs).tokens ++ rest, fin⟩ outer
      = ApiExceptionFault.UnmarshalXML (Node.effect aes (Node.element start cs)) ⟨rest, fin⟩
          outer := by
  rw [UnmarshalXML_iteration]
  simp only [Node.tokens, List.cons_append, List.append_assoc, List.singleton_append,
    List.nil_append]
  rw [iteration_errors none aes start _ fin hname]
  have h1 : ¬ ("errors" = "message") := by decide
  have h2 : ¬ ("errors" = "ApplicationException.Type") := by decide
  simp only [hdisc, if_false, DecodeElementEntityError_children, decodeStruct_EntityError_ok,
    Node.effect, hname, h1, h2, if_true]

/-- An `errors` element of a well-formed body of type `RateExceededError`: the record is
appended whether it decodes or not, and after a failure the loop goes on with the children
that were not read. -/
theorem UnmarshalXML_errors_rate (aes : ApiExceptionFault) (start : StartElement)
    (cs : List Node) (rest : List Token) (fin : GoError) (outer : StartElement)
    (hname : start.Name.Local = "errors")
    (hdisc : discriminator start = "RateExceededError") :
    aes.UnmarshalXML ⟨(Node.element start cs).tokens ++ rest, fin⟩ outer
      = ApiExceptionFault.UnmarshalXML (Node.effect aes (Node.element start cs))
          (match (Node.decodeStruct RateExceededError.field ⟨"", "", "", "", 0⟩ cs).1 with
            | none => ⟨rest, fin⟩
            | some _ =>
              ⟨Node.tokensList
                  (Node.decodeStruct RateExceededError.field ⟨"", "", "", "", 0⟩ cs).2.2
                ++ Token.EndElement start.Name :: rest, fin⟩)
          outer := by
  rw [UnmarshalXML_iteration]
  simp only [Node.tokens, List.cons_append, List.append_assoc, List.singleton_append,
    List.nil_append]
  rw [iteration_errors none aes start _ fin hname]
  have h1 : ¬ ("errors" = "message") := by decide
  have h2 : ¬ ("errors" = "ApplicationException.Type") := by decide
  simp only [hdisc, if_true, DecodeElementRateExceededError_children,
    Node.effect, hname, h1, h2, if_false]

theorem tokensList_append (a b : List Node) :
    Node.tokensList (a ++ b) = Node.tokensList a ++ Node.tokensList b := by
  induction a with
  | nil => rfl
  | cons n ns ih =>
    rw [List.cons_append, Node.tokensList, Node.tokensList, ih, List.append_assoc]

/-- Nodes none of which is an element give no start element token. -/
theorem tokensList_no_start (cs : List Node) (h : cs.any Node.isElement = false) :
    ∀ t ∈ Node.tokensList cs, ∀ s, t ≠ Token.StartElement s := by
  induction cs with
  | nil =>
    intro t ht
    simp [Node.tokensList] at ht
  | cons c cs ih =>
    simp only [List.any_cons, Bool.or_eq_false_iff] at h
    intro t ht
    simp only [Node.tokensList, List.mem_append] at ht
    rcases ht with ht | ht
    · cases c with
      | element start gcs => simp [Node.isElement] at h
      | charData c =>
        simp only [Node.tokens, List.mem_singleton] at ht
        subst ht
        simp
      | comment c =>
        simp only [Node.tokens, List.mem_singleton] at ht
        subst ht
        simp
      | procInst a b =>
        simp only [Node.tokens, List.mem_singleton] at ht
        subst ht
        simp
      | directive c =>
        simp only [Node.tokens, List.mem_singleton] at ht
        subst ht
        simp
    · exact ih h.2 t ht

/-- A `reason` element without child elements is passed over. -/
theorem UnmarshalXML_reason_childless (aes : ApiExceptionFault) (start : StartElement)
    (cs : List Node) (rest : List Token) (fin : GoError) (outer : StartElement)
    (hname : start.Name.Local = "reason") (hcs : cs.any Node.isElement = false) :
    aes.UnmarshalXML ⟨(Node.element start cs).tokens ++ rest, fin⟩ outer
      = aes.UnmarshalXML ⟨rest, fin⟩ outer := by
  simp only [Node.tokens, List.cons_append, List.append_assoc, List.singleton_append,
    List.nil_append]
  rw [UnmarshalXML_reason aes start _ fin outer hname,
    UnmarshalXML_skip_tokens aes _ _ fin outer (tokensList_no_start cs hcs),
    UnmarshalXML_skip_token aes _ _ fin outer (by simp)]

/-- The tree reading of the decoding of a `RateExceededError` element agrees with the
decoding of the element standing alone. -/
theorem rate_decodeStruct_eq (start : StartElement) (cs : List Node) :
    (Decoder.DecodeElementRateExceededError (bodyDecoder start cs) ⟨"", "", "", "", 0⟩ start).1
        = (Node.decodeStruct RateExceededError.field ⟨"", "", "", "", 0⟩ cs).1
    ∧ (Decoder.DecodeElementRateExceededError (bodyDecoder start cs) ⟨"", "", "", "", 0⟩
          start).2.1
        = (Node.decodeStruct RateExceededError.field ⟨"", "", "", "", 0⟩ cs).2.1 := by
  have h := DecodeElementRateExceededError_children cs start.Name [] GoError.EOF
    ⟨"", "", "", "", 0⟩ start
  have hb : bodyDecoder start cs
      = ⟨Node.tokensList cs ++ Token.EndElement start.Name :: [], GoError.EOF⟩ := rfl
  rw [hb, h]
  exact ⟨rfl, rfl⟩

theorem entity_decodeStruct_eq (start : StartElement) (cs : List Node) :
    (Decoder.DecodeElementEntityError (bodyDecoder start cs) ⟨"", "", "", ""⟩ start).2.1
        = (Node.decodeStruct EntityError.field ⟨"", "", "", ""⟩ cs).2.1 := by
  have h := DecodeElementEntityError_children cs start.Name [] GoError.EOF
    ⟨"", "", "", ""⟩ start
  have hb : bodyDecoder start cs
      = ⟨Node.tokensList cs ++ Token.EndElement start.Name :: [], GoError.EOF⟩ := rfl
  rw [hb, h]

/-- A node of a well-formed body that the loop reads as a unit: the loop goes on behind the
node with the receiver `Node.effect` gives. -/
theorem UnmarshalXML_node (aes : ApiExceptionFault) (n : Node) (rest : List Token)
    (fin : GoError) (outer : StartElement) (h1 : n.reasonWithChild = false)
    (h2 : n.rateFails = false) (h3 : n.unrecognised = false) :
    aes.UnmarshalXML ⟨n.tokens ++ rest, fin⟩ outer
      = (Node.effect aes n).UnmarshalXML ⟨rest, fin⟩ outer := by
  cases n with
  | element start cs =>
    simp only [Node.unrecognised, Bool.not_eq_false', recognised, Bool.or_eq_true,
      decide_eq_true_eq] at h3
    rcases h3 with ((hm | ht) | he) | hr
    · rw [UnmarshalXML_message aes start cs rest fin outer hm]
      simp only [Node.effect, hm, if_true]
    · rw [UnmarshalXML_type aes start cs rest fin outer ht]
      have hn : ¬ ("ApplicationException.Type" = "message") := by decide
      simp only [Node.effect, ht, hn, if_true, if_false]
    · by_cases hd : discriminator start = "RateExceededError"
      · rw [UnmarshalXML_errors_rate aes start cs rest fin outer he hd]
        simp only [Node.rateFails, he, hd, decide_True, Bool.true_and,
          (rate_decodeStruct_eq start cs).1] at h2
        rcases hdec : (Node.decodeStruct RateExceededError.field ⟨"", "", "", "", 0⟩ cs).1
          with _ | e
        · rfl
        · rw [hdec] at h2
          simp at h2
      · exact UnmarshalXML_errors_entity aes start cs rest fin outer he hd
    · simp only [Node.reasonWithChild, hr, decide_True, Bool.true_and] at h1
      rw [UnmarshalXML_reason_childless aes start cs rest fin outer hr h1]
      have hn1 : ¬ ("reason" = "message") := by decide
      have hn2 : ¬ ("reason" = "ApplicationException.Type") := by decide
      have hn3 : ¬ ("reason" = "errors") := by decide
      simp only [Node.effect, hr, hn1, hn2, hn3, if_false]
  | charData c => exact UnmarshalXML_skip_token aes _ _ fin outer (by simp)
  | comment c => exact UnmarshalXML_skip_token aes _ _ fin outer (by simp)
  | procInst a b => exact UnmarshalXML_skip_token aes _ _ fin outer (by simp)
  | directive c => exact UnmarshalXML_skip_token aes _ _ fin outer (by simp)

/-- Nodes of a well-formed body that the loop reads as units, one after the other. -/
theorem UnmarshalXML_nodes (ns : List Node) :
    ∀ (aes : ApiExceptionFault) (rest : List Token) (fin : GoError) (outer : StartElement),
      (∀ n ∈ ns, n.reasonWithChild = false ∧ n.rateFails = false ∧ n.unrecognised = false) →
      aes.UnmarshalXML ⟨Node.tokensList ns ++ rest, fin⟩ outer
        = (ns.foldl Node.effect aes).UnmarshalXML ⟨rest, fin⟩ outer := by
  induction ns with
  | nil => intro aes rest fin outer _; rfl
  | cons n ns ih =>
    intro aes rest fin outer h
    obtain ⟨h1, h2, h3⟩ := h n (List.mem_cons_self _ _)
    simp only [Node.tokensList, List.append_assoc, List.foldl_cons]
    rw [UnmarshalXML_node aes n _ fin outer h1 h2 h3]
    exact ih _ rest fin outer (fun m hm => h m (List.mem_cons_of_mem _ hm))

/-! ## Any well-formed body -/

theorem passes_nil : Passes [] := fun aes _ => Or.inr ⟨aes, fun _ _ => rfl⟩

theorem passes_append (l1 l2 : List Token) (h1 : Passes l1) (h2 : Passes l2) :
    Passes (l1 ++ l2) := by
  intro aes outer
  rcases h1 aes outer with ⟨e, a1, h⟩ | ⟨a1, h⟩
  · refine Or.inl ⟨e, a1, fun rest fin => ?_⟩
    rw [List.append_assoc]
    exact h _ fin
  · rcases h2 a1 outer with ⟨e, a2, h'⟩ | ⟨a2, h'⟩
    · refine Or.inl ⟨e, a2, fun rest fin => ?_⟩
      rw [List.append_assoc, h]
      exact h' rest fin
    · refine Or.inr ⟨a2, fun rest fin => ?_⟩
      rw [List.append_assoc, h]
      exact h' rest fin

theorem passes_token (t : Token) (h : ∀ s, t ≠ Token.StartElement s) : Passes [t] :=
  fun aes outer => Or.inr ⟨aes, fun rest fin => UnmarshalXML_skip_token aes t rest fin outer h⟩

theorem passes_cons_token (t : Token) (l : List Token) (h : ∀ s, t ≠ Token.StartElement s)
    (hl : Passes l) : Passes (t :: l) :=
  passes_append [t] l (passes_token t h) hl

/-- The tokens of an element pass when the tokens of every final part of its children do. -/
theorem passes_element (start : StartElement) (cs : List Node)
    (hcs : ∀ s, s <:+ cs → Passes (Node.tokensList s)) :
    Passes (Node.element start cs).tokens := by
  intro aes outer
  by_cases hrec : recognised start.Name.Local = false
  · refine Or.inl ⟨.Errorf ("Unknown error field -> " ++ start.fmtS), aes, fun rest fin =>
      ⟨⟨Node.tokensList cs ++ [Token.EndElement start.Name] ++ rest, fin⟩, ?_⟩⟩
    simp only [Node.tokens, List.cons_append]
    exact UnmarshalXML_unrecognised aes start _ fin outer hrec
  · have hrec' := hrec
    simp only [Bool.not_eq_false, recognised, Bool.or_eq_true, decide_eq_true_eq] at hrec'
    rcases hrec' with ((hm | ht) | he) | hr
    · exact Or.inr ⟨_, fun rest fin => UnmarshalXML_message aes start cs rest fin outer hm⟩
    · exact Or.inr ⟨_, fun rest fin => UnmarshalXML_type aes start cs rest fin outer ht⟩
    · by_cases hd : discriminator start = "RateExceededError"
      · rcases hdec : (Node.decodeStruct RateExceededError.field ⟨"", "", "", "", 0⟩ cs).1
          with _ | e
        · refine Or.inr ⟨Node.effect aes (Node.element start cs), fun rest fin => ?_⟩
          rw [UnmarshalXML_errors_rate aes start cs rest fin outer he hd, hdec]
        · have hp : Passes (Node.tokensList
              (Node.decodeStruct RateExceededError.field ⟨"", "", "", "", 0⟩ cs).2.2
              ++ [Token.EndElement start.Name]) :=
            passes_append _ _ (hcs _ (decodeStruct_suffix _ cs _))
              (passes_token _ (by simp))
          rcases hp (Node.effect aes (Node.element start cs)) outer
            with ⟨e1, a1, h⟩ | ⟨a1, h⟩
          · refine Or.inl ⟨e1, a1, fun rest fin => ?_⟩
            rw [UnmarshalXML_errors_rate aes start cs rest fin outer he hd, hdec]
            have := h rest fin
            simpa only [List.append_assoc, List.singleton_append] using this
          · refine Or.inr ⟨a1, fun rest fin => ?_⟩
            rw [UnmarshalXML_errors_rate aes start cs rest fin outer he hd, hdec]
            have := h rest fin
            simpa only [List.append_assoc, List.singleton_append] using this
      · exact Or.inr ⟨_, fun rest fin =>
          UnmarshalXML_errors_entity aes start cs rest fin outer he hd⟩
    · have hp : Passes (Node.tokensList cs ++ [Token.EndElement start.Name]) :=
        passes_append _ _ (hcs cs (List.suffix_refl _)) (passes_token _ (by simp))
      rcases hp aes outer with ⟨e1, a1, h⟩ | ⟨a1, h⟩
      · refine Or.inl ⟨e1, a1, fun rest fin => ?_⟩
        simp only [Node.tokens, List.cons_append]
        rw [UnmarshalXML_reason aes start _ fin outer hr]
        exact h rest fin
      · refine Or.inr ⟨a1, fun rest fin => ?_⟩
        simp only [Node.tokens, List.cons_append]
        rw [UnmarshalXML_reason aes start _ fin outer hr]
        exact h rest fin

mutual
/-- The tokens of a node pass. -/
theorem passes_node : ∀ n : Node, Passes n.tokens
  | .element start cs => passes_element start cs (passes_suffix cs)
  | .charData c => passes_token _ (by simp)
  | .comment c => passes_token _ (by simp)
  | .procInst a b => passes_token _ (by simp)
  | .directive c => passes_token _ (by simp)
/-- The tokens of every final part of a sequence of nodes pass. -/
theorem passes_suffix : ∀ (ns s : List Node), s <:+ ns → Passes (Node.tokensList s)
  | [], s, h => by
    rw [List.suffix_nil.mp h]
    exact passes_nil
  | n :: ns, s, h => by
    rcases List.suffix_cons_iff.mp h with h1 | h1
    · rw [h1]
      exact passes_append _ _ (passes_node n) (passes_suffix ns ns (List.suffix_refl _))
    · exact passes_suffix ns s h1
end

/-- The nodes of a well-formed body pass. -/
theorem passes_tokensList (ns : List Node) : Passes (Node.tokensList ns) :=
  passes_suffix ns ns (List.suffix_refl _)

/-! ## The records of a fault body -/

/-- The record of an `errors` element standing alone, in the tree reading. -/
theorem recordOf_eq (start : StartElement) (cs : List Node) :
    recordOf (start, cs)
      = if discriminator start = "RateExceededError" then
          Record.RateExceededError
            (Node.decodeStruct RateExceededError.field ⟨"", "", "", "", 0⟩ cs).2.1
        else
          Record.EntityError (Node.decodeStruct EntityError.field ⟨"", "", "", ""⟩ cs).2.1 := by
  simp only [recordOf, (rate_decodeStruct_eq start cs).2, entity_decodeStruct_eq start cs]

/-- The records `Node.effect` appends are those of the `errors` elements, in order. -/
theorem foldl_effect_Errors (ns : List Node) :
    ∀ aes : ApiExceptionFault,
      (ns.foldl Node.effect aes).Errors = aes.Errors ++ (topErrors ns).map recordOf := by
  induction ns with
  | nil => intro aes; simp [topErrors]
  | cons n ns ih =>
    intro aes
    rw [List.foldl_cons, ih]
    cases n with
    | element start cs =>
      by_cases he : start.Name.Local = "errors"
      · have h1 : ¬ ("errors" = "message") := by decide
        have h2 : ¬ ("errors" = "ApplicationException.Type") := by decide
        simp only [topErrors, he, if_true, List.map_cons, recordOf_eq, Node.effect, h1, h2,
          if_false]
        by_cases hd : discriminator start = "RateExceededError"
        · simp only [hd, if_true, List.append_assoc, List.singleton_append]
        · simp only [hd, if_false, List.append_assoc, List.singleton_append]
      · simp only [topErrors, he, if_false, Node.effect]
        split_ifs <;> rfl
    | charData c => rfl
    | comment c => rfl
    | procInst a b => rfl
    | directive c => rfl

/-- On a body without a `reason` element that has a child element and without a failing
`RateExceededError` element, the call ends with an error or treats the nodes one by one as
`Node.effect` says. -/
theorem UnmarshalXML_body (ns : List Node) :
    ∀ (aes : ApiExceptionFault) (rest : List Token) (fin : GoError) (outer : StartElement),
      (∀ n ∈ ns, n.reasonWithChild = false ∧ n.rateFails = false) →
      (∃ e, (aes.UnmarshalXML ⟨Node.tokensList ns ++ rest, fin⟩ outer).1 = some e)
      ∨ aes.UnmarshalXML ⟨Node.tokensList ns ++ rest, fin⟩ outer
          = (ns.foldl Node.effect aes).UnmarshalXML ⟨rest, fin⟩ outer := by
  induction ns with
  | nil => intro aes rest fin outer _; exact Or.inr rfl
  | cons n ns ih =>
    intro aes rest fin outer h
    obtain ⟨h1, h2⟩ := h n (List.mem_cons_self _ _)
    simp only [Node.tokensList, List.append_assoc, List.foldl_cons]
    by_cases h3 : n.unrecognised = false
    · rw [UnmarshalXML_node aes n _ fin outer h1 h2 h3]
      exact ih _ rest fin outer (fun m hm => h m (List.mem_cons_of_mem _ hm))
    · left
      cases n with
      | element start cs =>
        simp only [Node.unrecognised, Bool.not_eq_false, Bool.not_eq_true'] at h3
        simp only [Node.tokens, List.cons_append]
        rw [UnmarshalXML_unrecognised aes start _ fin outer h3]
        exact ⟨_, rfl⟩
      | charData c => simp [Node.unrecognised] at h3
      | comment c => simp [Node.unrecognised] at h3
      | procInst a b => simp [Node.unrecognised] at h3
      | directive c => simp [Node.unrecognised] at h3

/-- C2, as written, fails: the body `<reason><errors/></reason>` decodes without error and
has no top-level `errors` element, and the record list has one entry; and a body of one
`RateExceededError` element whose `retryAfterSeconds` is not a number, followed inside the
element by an `errors` child, decodes without error into two records. -/
theorem nested_errors_element_is_decoded :
    ((ApiExceptionFault.UnmarshalXML ⟨"", "", "", "", []⟩
        (bodyDecoder ⟨⟨"", "ApiExceptionFault"⟩, []⟩
          [Node.element ⟨⟨"", "reason"⟩, []⟩ [Node.element ⟨⟨"", "errors"⟩, []⟩ []]])
        ⟨⟨"", "ApiExceptionFault"⟩, []⟩).1 = none
      ∧ (topErrors
          [Node.element ⟨⟨"", "reason"⟩, []⟩ [Node.element ⟨⟨"", "errors"⟩, []⟩ []]]).length
        = 0
      ∧ (ApiExceptionFault.UnmarshalXML ⟨"", "", "", "", []⟩
          (bodyDecoder ⟨⟨"", "ApiExceptionFault"⟩, []⟩
            [Node.element ⟨⟨"", "reason"⟩, []⟩ [Node.element ⟨⟨"", "errors"⟩, []⟩ []]])
          ⟨⟨"", "ApiExceptionFault"⟩, []⟩).2.1.Errors
        = [Record.EntityError ⟨"", "", "", ""⟩])
    ∧ ((ApiExceptionFault.UnmarshalXML ⟨"", "", "", "", []⟩
        (bodyDecoder ⟨⟨"", "ApiExceptionFault"⟩, []⟩
          [Node.element ⟨⟨"", "errors"⟩, [⟨xsiType, "RateExceededError"⟩]⟩
            [Node.element ⟨⟨"", "retryAfterSeconds"⟩, []⟩ [Node.charData "soon"],
              Node.element ⟨⟨"", "errors"⟩, []⟩ []]])
        ⟨⟨"", "ApiExceptionFault"⟩, []⟩).1 = none
      ∧ (topErrors
          [Node.element ⟨⟨"", "errors"⟩, [⟨xsiType, "RateExceededError"⟩]⟩
            [Node.element ⟨⟨"", "retryAfterSeconds"⟩, []⟩ [Node.charData "soon"],
              Node.element ⟨⟨"", "errors"⟩, []⟩ []]]).length = 1
      ∧ (ApiExceptionFault.UnmarshalXML ⟨"", "", "", "", []⟩
          (bodyDecoder ⟨⟨"", "ApiExceptionFault"⟩, []⟩
            [Node.element ⟨⟨"", "errors"⟩, [⟨xsiType, "RateExceededError"⟩]⟩
              [Node.element ⟨⟨"", "retryAfterSeconds"⟩, []⟩ [Node.charData "soon"],
                Node.element ⟨⟨"", "errors"⟩, []⟩ []]])
          ⟨⟨"", "ApiExceptionFault"⟩, []⟩).2.1.Errors
        = [Record.RateExceededError ⟨"", "", "", "", 0⟩,
            Record.EntityError ⟨"", "", "", ""⟩]) := by
  refine ⟨⟨by decide, by decide, by decide⟩, ⟨by decide, by decide, by decide⟩⟩

/-- C2, amended: for a well-formed fault body in which no top-level `reason` element has a
child element and no top-level `RateExceededError` element fails to decode, a call on a fresh
aggregate that returns `nil` leaves in `Errors` exactly the records decoded from the top-level
`errors` elements, in document order: as many entries as elements, the i-th entry being the
record of the i-th element. -/
theorem Errors_in_document_order (body : List Node) (outer : StartElement)
    (hbody : ∀ n ∈ body, n.reasonWithChild = false ∧ n.rateFails = false)
    (hok : (ApiExceptionFault.UnmarshalXML ⟨"", "", "", "", []⟩ (bodyDecoder outer body)
      outer).1 = none) :
    (ApiExceptionFault.UnmarshalXML ⟨"", "", "", "", []⟩ (bodyDecoder outer body)
        outer).2.1.Errors = (topErrors body).map recordOf
    ∧ (ApiExceptionFault.UnmarshalXML ⟨"", "", "", "", []⟩ (bodyDecoder outer body)
        outer).2.1.Errors.length = (topErrors body).length := by
  have hlist : (ApiExceptionFault.UnmarshalXML ⟨"", "", "", "", []⟩ (bodyDecoder outer body)
        outer).2.1.Errors = (topErrors body).map recordOf := by
    rcases UnmarshalXML_body body ⟨"", "", "", "", []⟩ [Token.EndElement outer.Name]
      GoError.EOF outer hbody with ⟨e, he⟩ | h
    · have hb : bodyDecoder outer body
          = ⟨Node.tokensList body ++ [Token.EndElement outer.Name], GoError.EOF⟩ := rfl
      rw [hb, he] at hok
      exact absurd hok (by simp)
    · have hb : bodyDecoder outer body
          = ⟨Node.tokensList body ++ [Token.EndElement outer.Name], GoError.EOF⟩ := rfl
      rw [hb, h, UnmarshalXML_skip_token _ _ _ _ _ (by simp), UnmarshalXML_nil]
      simp only [foldl_effect_Errors, List.nil_append]
  exact ⟨hlist, by rw [hlist, List.length_map]⟩

/-- C2, amended, an instance: a body with a message, a `RateExceededError` element and an
element without discriminator gives the two records in document order. -/
theorem Errors_in_document_order_witness :
    (∀ n ∈ [Node.element ⟨⟨"", "message"⟩, []⟩ [Node.charData "quota"],
          Node.element ⟨⟨"", "errors"⟩, [⟨xsiType, "RateExceededError"⟩]⟩
            [Node.element ⟨⟨"", "retryAfterSeconds"⟩, []⟩ [Node.charData "30"]],
          Node.element ⟨⟨"", "errors"⟩, []⟩
            [Node.element ⟨⟨"", "trigger"⟩, []⟩ [Node.charData "t"]]],
        n.reasonWithChild = false ∧ n.rateFails = false)
    ∧ (ApiExceptionFault.UnmarshalXML ⟨"", "", "", "", []⟩
        (bodyDecoder ⟨⟨"", "ApiExceptionFault"⟩, []⟩
          [Node.element ⟨⟨"", "message"⟩, []⟩ [Node.charData "quota"],
            Node.element ⟨⟨"", "errors"⟩, [⟨xsiType, "RateExceededError"⟩]⟩
              [Node.element ⟨⟨"", "retryAfterSeconds"⟩, []⟩ [Node.charData "30"]],
            Node.element ⟨⟨"", "errors"⟩, []⟩
              [Node.element ⟨⟨"", "trigger"⟩, []⟩ [Node.charData "t"]]])
        ⟨⟨"", "ApiExceptionFault"⟩, []⟩).2.1.Errors
      = [Record.RateExceededError ⟨"", "", "", "", 30⟩,
          Record.EntityError ⟨"", "t", "", ""⟩] := by
  have hb : ∀ n ∈ [Node.element ⟨⟨"", "message"⟩, []⟩ [Node.charData "quota"],
          Node.element ⟨⟨"", "errors"⟩, [⟨xsiType, "RateExceededError"⟩]⟩
            [Node.element ⟨⟨"", "retryAfterSeconds"⟩, []⟩ [Node.charData "30"]],
          Node.element ⟨⟨"", "errors"⟩, []⟩
            [Node.element ⟨⟨"", "trigger"⟩, []⟩ [Node.charData "t"]]],
        n.reasonWithChild = false ∧ n.rateFails = false := by
    intro n hn
    simp only [List.mem_cons, List.mem_singleton, List.not_mem_nil, or_false] at hn
    rcases hn with h | h | h <;> subst h <;> exact ⟨by decide, by decide⟩
  refine ⟨hb, ?_⟩
  exact (Errors_in_document_order _ ⟨⟨"", "ApiExceptionFault"⟩, []⟩ hb (by decide)).1.trans
    (by decide)

/-! ## Elements with a name that is not accepted -/

/-- The error for a start element that is not accepted contains the local name of it. -/
theorem unknown_field_text_contains_local (start : StartElement) :
    containsText ("Unknown error field -> " ++ start.fmtS) start.Name.Local := by
  refine ⟨("Unknown error field -> " ++ "\x7b" ++ "\x7b" ++ start.Name.Space ++ " ").data,
    ("\x7d" ++ " " ++ "[" ++ " ".intercalate (start.Attr.map Attr.fmtS) ++ "]" ++ "\x7d").data,
    ?_⟩
  simp only [StartElement.fmtS, Name.fmtS, String.data_append, List.append_assoc]

/-- C6, as written, fails: in the body `<alpha/><bogus>x</bogus>` the top-level element
`bogus` has a name that is not accepted, and the error returned names `alpha`, not `bogus`. -/
theorem second_unrecognised_element_not_named :
    recognised "bogus" = false
    ∧ (ApiExceptionFault.UnmarshalXML ⟨"", "", "", "", []⟩
        (bodyDecoder ⟨⟨"", "ApiExceptionFault"⟩, []⟩
          [Node.element ⟨⟨"", "alpha"⟩, []⟩ [],
            Node.element ⟨⟨"", "bogus"⟩, []⟩ [Node.charData "x"]])
        ⟨⟨"", "ApiExceptionFault"⟩, []⟩).1
      = some (GoError.Errorf "Unknown error field -> \x7b\x7b alpha\x7d []\x7d")
    ∧ ¬ containsText "Unknown error field -> \x7b\x7b alpha\x7d []\x7d" "bogus" := by
  refine ⟨by decide, by decide, by decide⟩

/-- C6, amended: for every well-formed fault body in which a top-level element has a name
outside `message`, `ApplicationException.Type`, `errors` and `reason`, `UnmarshalXML` returns
an error, so the decode is never reported as a success; and when every node before that
element is read as a unit (its name is accepted, it is not a `reason` element with a child
element, it is not a `RateExceededError` element that fails to decode), the error is
`Unknown error field -> ` followed by the start element, which contains the local name of
the element. -/
theorem unrecognised_element_fails (aes : ApiExceptionFault) (outer : StartElement)
    (pre post : List Node) (start : StartElement) (cs : List Node)
    (hname : recognised start.Name.Local = false) :
    (∃ e, (aes.UnmarshalXML (bodyDecoder outer (pre ++ Node.element start cs :: post))
        outer).1 = some e)
    ∧ ((∀ n ∈ pre, n.reasonWithChild = false ∧ n.rateFails = false ∧ n.unrecognised = false) →
        (aes.UnmarshalXML (bodyDecoder outer (pre ++ Node.element start cs :: post)) outer).1
          = some (GoError.Errorf ("Unknown error field -> " ++ start.fmtS))
        ∧ containsText ("Unknown error field -> " ++ start.fmtS) start.Name.Local) := by
  have hb : bodyDecoder outer (pre ++ Node.element start cs :: post)
      = ⟨Node.tokensList pre ++ (Token.StartElement start
          :: (Node.tokensList cs ++ [Token.EndElement start.Name] ++ Node.tokensList post
              ++ [Token.EndElement outer.Name])), GoError.EOF⟩ := by
    simp only [bodyDecoder, tokensList_append, Node.tokensList, Node.tokens, List.append_assoc,
      List.cons_append, List.nil_append]
  rw [hb]
  constructor
  · rcases passes_tokensList pre aes outer with ⟨e, a1, h⟩ | ⟨a1, h⟩
    · obtain ⟨d1, hd1⟩ := h (Token.StartElement start
          :: (Node.tokensList cs ++ [Token.EndElement start.Name] ++ Node.tokensList post
              ++ [Token.EndElement outer.Name])) GoError.EOF
      exact ⟨e, by rw [hd1]⟩
    · rw [h, UnmarshalXML_unrecognised a1 start _ _ outer hname]
      exact ⟨_, rfl⟩
  · intro hpre
    rw [UnmarshalXML_nodes pre aes _ _ outer hpre,
      UnmarshalXML_unrecognised _ start _ _ outer hname]
    exact ⟨rfl, unknown_field_text_contains_local start⟩

/-- C6, amended, an instance: `<bogus>x</bogus>` after a `message` element fails with an
error that contains `bogus`. -/
theorem unrecognised_element_fails_witness :
    recognised "bogus" = false
    ∧ (ApiExceptionFault.UnmarshalXML ⟨"", "", "", "", []⟩
        (bodyDecoder ⟨⟨"", "ApiExceptionFault"⟩, []⟩
          ([Node.element ⟨⟨"", "message"⟩, []⟩ [Node.charData "hi"]]
            ++ Node.element ⟨⟨"", "bogus"⟩, []⟩ [Node.charData "x"] :: []))
        ⟨⟨"", "ApiExceptionFault"⟩, []⟩).1
      = some (GoError.Errorf "Unknown error field -> \x7b\x7b bogus\x7d []\x7d")
    ∧ containsText "Unknown error field -> \x7b\x7b bogus\x7d []\x7d" "bogus" := by
  have h := (unrecognised_element_fails ⟨"", "", "", "", []⟩ ⟨⟨"", "ApiExceptionFault"⟩, []⟩
    [Node.element ⟨⟨"", "message"⟩, []⟩ [Node.charData "hi"]] []
    ⟨⟨"", "bogus"⟩, []⟩ [Node.charData "x"] (by decide)).2
    (by
      intro n hn
      simp only [List.mem_singleton] at hn
      subst hn
      exact ⟨by decide, by decide, by decide⟩)
  exact ⟨by decide, h.1.trans (by decide), by decide⟩

/-! ## A `reason` element of the fault body -/

/-- C10, as written, fails: the children of a top-level `reason` element are read as if they
stood in the fault body. `<reason><message>X</message></reason>` sets `Message`, and
`<reason><bogus/></reason>` makes the decode fail, where the body without the `reason`
element leaves `Message` empty and succeeds. -/
theorem reason_children_are_read :
    ((ApiExceptionFault.UnmarshalXML ⟨"", "", "", "", []⟩
        (bodyDecoder ⟨⟨"", "ApiExceptionFault"⟩, []⟩
          [Node.element ⟨⟨"", "reason"⟩, []⟩
            [Node.element ⟨⟨"", "message"⟩, []⟩ [Node.charData "X"]]])
        ⟨⟨"", "ApiExceptionFault"⟩, []⟩).2.1.Message = "X"
      ∧ (ApiExceptionFault.UnmarshalXML ⟨"", "", "", "", []⟩
          (bodyDecoder ⟨⟨"", "ApiExceptionFault"⟩, []⟩ [])
          ⟨⟨"", "ApiExceptionFault"⟩, []⟩).2.1.Message = "")
    ∧ ((ApiExceptionFault.UnmarshalXML ⟨"", "", "", "", []⟩
        (bodyDecoder ⟨⟨"", "ApiExceptionFault"⟩, []⟩
          [Node.element ⟨⟨"", "reason"⟩, []⟩ [Node.element ⟨⟨"", "bogus"⟩, []⟩ []]])
        ⟨⟨"", "ApiExceptionFault"⟩, []⟩).1
        = some (GoError.Errorf "Unknown error field -> \x7b\x7b bogus\x7d []\x7d")
      ∧ (ApiExceptionFault.UnmarshalXML ⟨"", "", "", "", []⟩
          (bodyDecoder ⟨⟨"", "ApiExceptionFault"⟩, []⟩ [])
          ⟨⟨"", "ApiExceptionFault"⟩, []⟩).1 = none) := by
  refine ⟨⟨by decide, by decide⟩, ⟨by decide, by decide⟩⟩

/-- C10, amended: in every well-formed fault body a top-level `reason` element that has no
child element is a no-op: the returned error and every field of the aggregate are the same
as for the body without that element. -/
theorem reason_without_child_element_skipped (aes : ApiExceptionFault)
    (outer : StartElement) (pre post : List Node) (start : StartElement) (cs : List Node)
    (hname : start.Name.Local = "reason") (hcs : cs.any Node.isElement = false) :
    (aes.UnmarshalXML (bodyDecoder outer (pre ++ Node.element start cs :: post)) outer).1
      = (aes.UnmarshalXML (bodyDecoder outer (pre ++ post)) outer).1
    ∧ (aes.UnmarshalXML (bodyDecoder outer (pre ++ Node.element start cs :: post)) outer).2.1
      = (aes.UnmarshalXML (bodyDecoder outer (pre ++ post)) outer).2.1 := by
  have hb1 : bodyDecoder outer (pre ++ Node.element start cs :: post)
      = ⟨Node.tokensList pre ++ ((Node.element start cs).tokens
          ++ (Node.tokensList post ++ [Token.EndElement outer.Name])), GoError.EOF⟩ := by
    simp only [bodyDecoder, tokensList_append, Node.tokensList, List.append_assoc]
  have hb0 : bodyDecoder outer (pre ++ post)
      = ⟨Node.tokensList pre ++ (Node.tokensList post ++ [Token.EndElement outer.Name]),
          GoError.EOF⟩ := by
    simp only [bodyDecoder, tokensList_append, List.append_assoc]
  rw [hb1, hb0]
  rcases passes_tokensList pre aes outer with ⟨e, a1, h⟩ | ⟨a1, h⟩
  · obtain ⟨d1, hd1⟩ := h ((Node.element start cs).tokens
      ++ (Node.tokensList post ++ [Token.EndElement outer.Name])) GoError.EOF
    obtain ⟨d0, hd0⟩ := h (Node.tokensList post ++ [Token.EndElement outer.Name]) GoError.EOF
    rw [hd1, hd0]
    exact ⟨rfl, rfl⟩
  · rw [h, h, UnmarshalXML_reason_childless a1 start cs _ _ outer hname hcs]
    exact ⟨rfl, rfl⟩

/-- C10, amended, an instance: a `reason` element with text between a `message` element
and an `errors` element. -/
theorem reason_without_child_element_skipped_witness :
    ((⟨⟨"", "reason"⟩, []⟩ : StartElement).Name.Local = "reason")
    ∧ ([Node.charData "QUOTA"].any Node.isElement = false)
    ∧ (ApiExceptionFault.UnmarshalXML ⟨"", "", "", "", []⟩
        (bodyDecoder ⟨⟨"", "ApiExceptionFault"⟩, []⟩
          ([Node.element ⟨⟨"", "message"⟩, []⟩ [Node.charData "hi"]]
            ++ Node.element ⟨⟨"", "reason"⟩, []⟩ [Node.charData "QUOTA"]
              :: [Node.element ⟨⟨"", "errors"⟩, []⟩ []]))
        ⟨⟨"", "ApiExceptionFault"⟩, []⟩).2.1
      = ⟨"hi", "", "", "", [Record.EntityError ⟨"", "", "", ""⟩]⟩ := by
  refine ⟨rfl, by decide, ?_⟩
  exact (reason_without_child_element_skipped ⟨"", "", "", "", []⟩
    ⟨⟨"", "ApiExceptionFault"⟩, []⟩ [Node.element ⟨⟨"", "message"⟩, []⟩ [Node.charData "hi"]]
    [Node.element ⟨⟨"", "errors"⟩, []⟩ []] ⟨⟨"", "reason"⟩, []⟩ [Node.charData "QUOTA"]
    rfl (by decide)).2.trans (by decide)

/-! ## The default branch leaves the aggregate alone -/

/-- C5: when a pass of the loop reads an `errors` start element whose discriminator
attribute is absent, or is a string other than `RateExceededError`, `AuthenticationError`,
`DatabaseError` and `InternalApiError`, then, whenever the record decodes, the loop goes on
with the decoded `EntityError` appended and with `Reason`, `Message` and `Type` as they
were, whatever the reason of the record is; and the record of a well-formed element always
decodes. -/
theorem errors_default_frame (err : Option GoError) (aes : ApiExceptionFault)
    (start : StartElement) (ts : List Token) (fin : GoError)
    (hname : start.Name.Local = "errors")
    (hdisc : (∀ a ∈ start.Attr, a.Name ≠ xsiType)
      ∨ (discriminator start ≠ "RateExceededError"
        ∧ discriminator start ≠ "AuthenticationError"
        ∧ discriminator start ≠ "DatabaseError"
        ∧ discriminator start ≠ "InternalApiError")) :
    ((Decoder.DecodeElementEntityError ⟨ts, fin⟩ ⟨"", "", "", ""⟩ start).1 = none →
      ApiExceptionFault.iteration err aes ⟨Token.StartElement start :: ts, fin⟩
        = .next
            { Message := aes.Message, Type_ := aes.Type_, ErrorsType := discriminator start,
              Reason := aes.Reason,
              Errors := aes.Errors ++ [Record.EntityError
                (Decoder.DecodeElementEntityError ⟨ts, fin⟩ ⟨"", "", "", ""⟩ start).2.1] }
            (Decoder.DecodeElementEntityError ⟨ts, fin⟩ ⟨"", "", "", ""⟩ start).2.2)
    ∧ (∀ (cs : List Node) (rest : List Token),
        ts = Node.tokensList cs ++ Token.EndElement start.Name :: rest →
        ApiExceptionFault.iteration err aes ⟨Token.StartElement start :: ts, fin⟩
          = .next
              { Message := aes.Message, Type_ := aes.Type_, ErrorsType := discriminator start,
                Reason := aes.Reason, Errors := aes.Errors ++ [recordOf (start, cs)] }
              ⟨rest, fin⟩) := by
  have hd : discriminator start ≠ "RateExceededError"
      ∧ discriminator start ≠ "AuthenticationError"
      ∧ discriminator start ≠ "DatabaseError"
      ∧ discriminator start ≠ "InternalApiError" := by
    rcases hdisc with h | h
    · rw [discriminator_absent start h]
      decide
    · exact h
  have hstep : ∀ ts1 : List Token,
      (Decoder.DecodeElementEntityError ⟨ts1, fin⟩ ⟨"", "", "", ""⟩ start).1 = none →
      ApiExceptionFault.iteration err aes ⟨Token.StartElement start :: ts1, fin⟩
        = .next
            { Message := aes.Message, Type_ := aes.Type_, ErrorsType := discriminator start,
              Reason := aes.Reason,
              Errors := aes.Errors ++ [Record.EntityError
                (Decoder.DecodeElementEntityError ⟨ts1, fin⟩ ⟨"", "", "", ""⟩ start).2.1] }
            (Decoder.DecodeElementEntityError ⟨ts1, fin⟩ ⟨"", "", "", ""⟩ start).2.2 := by
    intro ts1 hok
    rw [iteration_errors err aes start ts1 fin hname]
    rcases hdec : Decoder.DecodeElementEntityError ⟨ts1, fin⟩ ⟨"", "", "", ""⟩ start
      with ⟨e, v, d2⟩
    rw [hdec] at hok
    simp only at hok
    subst hok
    simp only [hd.1, hd.2.1, hd.2.2.1, hd.2.2.2, or_self, if_false]
  refine ⟨hstep ts, fun cs rest hts => ?_⟩
  subst hts
  have hdec := DecodeElementEntityError_children cs start.Name rest fin ⟨"", "", "", ""⟩ start
  have hok := decodeStruct_EntityError_ok cs ⟨"", "", "", ""⟩
  rw [hok] at hdec
  rw [hstep _ (by rw [hdec]), hdec, recordOf_eq]
  simp only [hd.1, if_false]

/-- C5, an instance: an `errors` element without discriminator whose record carries the
reason `TOO_LOW` leaves the reason `old`, the message and the type of the aggregate alone. -/
theorem errors_default_frame_witness :
    ((⟨⟨"", "errors"⟩, []⟩ : StartElement).Name.Local = "errors")
    ∧ (∀ a ∈ (⟨⟨"", "errors"⟩, []⟩ : StartElement).Attr, a.Name ≠ xsiType)
    ∧ ApiExceptionFault.iteration none ⟨"m", "t", "x", "old", []⟩
        ⟨[Token.StartElement ⟨⟨"", "errors"⟩, []⟩,
          Token.StartElement ⟨⟨"", "reason"⟩, []⟩, Token.CharData "TOO_LOW",
          Token.EndElement ⟨"", "reason"⟩, Token.EndElement ⟨"", "errors"⟩], GoError.EOF⟩
      = .next ⟨"m", "t", "", "old", [Record.EntityError ⟨"", "", "", "TOO_LOW"⟩]⟩
          ⟨[], GoError.EOF⟩ := by
  refine ⟨rfl, fun a ha => absurd ha (List.not_mem_nil a), ?_⟩
  exact ((errors_default_frame none ⟨"m", "t", "x", "old", []⟩ ⟨⟨"", "errors"⟩, []⟩
    [Token.StartElement ⟨⟨"", "reason"⟩, []⟩, Token.CharData "TOO_LOW",
      Token.EndElement ⟨"", "reason"⟩, Token.EndElement ⟨"", "errors"⟩] GoError.EOF rfl
    (Or.inl (fun a ha => absurd ha (List.not_mem_nil a)))).2
    [Node.element ⟨⟨"", "reason"⟩, []⟩ [Node.charData "TOO_LOW"]] [] rfl).trans (by decide)

/-! ## The classification contract -/

/-- C15: a `baseError` with the code `c` and the original error `e` returns `c` from `Code`,
`e` from `OrigErr`, and from `Error` and `String` what `e.Error()` returns; when `e` is a
`Fault` that is the fault string, `" - "` and the messages of the aggregates joined by
newlines. -/
theorem baseError_wraps :
    (∀ (c : String) (e : ErrorValue),
      baseError.Code ⟨c, some e⟩ = c
      ∧ baseError.OrigErr ⟨c, some e⟩ = some e
      ∧ baseError.Error ⟨c, some e⟩ = e.Error
      ∧ baseError.String ⟨c, some e⟩ = e.Error)
    ∧ (∀ (c : String) (f : Fault),
      baseError.Error ⟨c, some (ErrorValue.fault f)⟩
        = some (f.FaultString ++ " - "
            ++ "\n".intercalate (f.Errors.ApiExceptionFaults.map (fun a => a.Message)))
      ∧ baseError.String ⟨c, some (ErrorValue.fault f)⟩
        = some (f.FaultString ++ " - "
            ++ "\n".intercalate (f.Errors.ApiExceptionFaults.map (fun a => a.Message)))
      ∧ baseError.Code ⟨c, some (ErrorValue.fault f)⟩ = c)
    ∧ (∀ (c message : String),
      baseError.Error ⟨c, some (ErrorValue.other message)⟩ = some message) := by
  refine ⟨fun c e => ⟨rfl, rfl, rfl, rfl⟩, fun c f => ?_, fun c message => rfl⟩
  have h : f.Error = f.FaultString ++ " - "
      ++ "\n".intercalate (f.Errors.ApiExceptionFaults.map (fun a => a.Message)) := by
    simp only [Fault.Error, ErrorsType.Error, foldl_collect_messages,
      stringsJoin_eq_intercalate, List.nil_append]
  refine ⟨?_, ?_, rfl⟩
  · simp only [baseError.Error, ErrorValue.Error, h]
  · simp only [baseError.String, baseError.Error, ErrorValue.Error, h]

/-- C16 (the code departs from it): on a `baseError` whose `origErr` is `nil`, `Error` and
`String` call a method on the `nil` interface value and panic instead of returning a string;
`Code` returns the code and `OrigErr` returns `nil`. -/
theorem baseError_Error_nil_origErr :
    (∀ c : String,
      baseError.Error ⟨c, none⟩ = none
      ∧ baseError.String ⟨c, none⟩ = none
      ∧ baseError.Code ⟨c, none⟩ = c
      ∧ baseError.OrigErr ⟨c, none⟩ = none)
    ∧ baseError.Error ⟨"RateExceededError", none⟩ = none := by
  exact ⟨fun c => ⟨rfl, rfl, rfl, rfl⟩, rfl⟩

/-! ## The aggregate after a well-formed body -/

/-- A fold in which the last element that satisfies `p` decides. -/
theorem foldl_last_wins {α β : Type} (p : α → Bool) (f : α → β) (l : List α) (a : β) :
    l.foldl (fun r x => if p x = true then f x else r) a
      = ((l.filter p).getLast?.map f).getD a := by
  induction l using List.reverseRecOn with
  | nil => rfl
  | append_singleton xs x ih =>
    rw [List.foldl_append, List.filter_append]
    simp only [List.foldl_cons, List.foldl_nil, ih]
    by_cases hp : p x = true
    · simp [hp, List.filter_cons]
    · simp [hp, List.filter_cons]

/-- On a body without a `reason` element that has a child element and without a failing
`RateExceededError` element, a call that returns `nil` has treated the nodes one by one as
`Node.effect` says. -/
theorem UnmarshalXML_body_ok (body : List Node) (aes : ApiExceptionFault)
    (outer : StartElement)
    (hbody : ∀ n ∈ body, n.reasonWithChild = false ∧ n.rateFails = false)
    (hok : (aes.UnmarshalXML (bodyDecoder outer body) outer).1 = none) :
    aes.UnmarshalXML (bodyDecoder outer body) outer
      = (none, body.foldl Node.effect aes, ⟨[], GoError.EOF⟩) := by
  have hb : bodyDecoder outer body
      = ⟨Node.tokensList body ++ [Token.EndElement outer.Name], GoError.EOF⟩ := rfl
  rcases UnmarshalXML_body body aes [Token.EndElement outer.Name] GoError.EOF outer hbody
    with ⟨e, he⟩ | h
  · rw [hb, he] at hok
    exact absurd hok (by simp)
  · rw [hb, h, UnmarshalXML_skip_token _ _ _ _ _ (by simp), UnmarshalXML_nil]

/-- On a body of nodes that are read as units the call returns `nil`. -/
theorem UnmarshalXML_plain_ok (body : List Node) (aes : ApiExceptionFault)
    (outer : StartElement)
    (hbody : ∀ n ∈ body,
      n.reasonWithChild = false ∧ n.rateFails = false ∧ n.unrecognised = false) :
    aes.UnmarshalXML (bodyDecoder outer body) outer
      = (none, body.foldl Node.effect aes, ⟨[], GoError.EOF⟩) := by
  have hb : bodyDecoder outer body
      = ⟨Node.tokensList body ++ [Token.EndElement outer.Name], GoError.EOF⟩ := rfl
  rw [hb, UnmarshalXML_nodes body aes _ _ outer hbody,
    UnmarshalXML_skip_token _ _ _ _ _ (by simp), UnmarshalXML_nil]

theorem effect_Message (aes : ApiExceptionFault) (n : Node) :
    (Node.effect aes n).Message = Node.fieldText "message" aes.Message [n] := by
  cases n with
  | element start cs =>
    simp only [Node.effect, Node.fieldText]
    split_ifs <;> rfl
  | charData c => rfl
  | comment c => rfl
  | procInst a b => rfl
  | directive c => rfl

theorem fieldText_cons (name dflt : String) (n : Node) (ns : List Node) :
    Node.fieldText name dflt (n :: ns)
      = Node.fieldText name (Node.fieldText name dflt [n]) ns := by
  cases n <;> rfl

/-- After the nodes, `Message` is the text of the last `message` element. -/
theorem foldl_effect_Message (ns : List Node) :
    ∀ aes : ApiExceptionFault,
      (ns.foldl Node.effect aes).Message = Node.fieldText "message" aes.Message ns := by
  induction ns with
  | nil => intro aes; rfl
  | cons n ns ih =>
    intro aes
    rw [List.foldl_cons, ih, effect_Message, ← fieldText_cons]

theorem effect_Type (aes : ApiExceptionFault) (n : Node) :
    (Node.effect aes n).Type_
      = Node.fieldText "ApplicationException.Type" aes.Type_ [n] := by
  cases n with
  | element start cs =>
    simp only [Node.effect, Node.fieldText]
    by_cases hm : start.Name.Local = "message"
    · have : ¬ ("message" = "ApplicationException.Type") := by decide
      simp only [hm, this, if_true, if_false]
    · simp only [hm, if_false]
      split_ifs <;> rfl
  | charData c => rfl
  | comment c => rfl
  | procInst a b => rfl
  | directive c => rfl

/-- After the nodes, `Type` is the text of the last `ApplicationException.Type` element. -/
theorem foldl_effect_Type (ns : List Node) :
    ∀ aes : ApiExceptionFault,
      (ns.foldl Node.effect aes).Type_
        = Node.fieldText "ApplicationException.Type" aes.Type_ ns := by
  induction ns with
  | nil => intro aes; rfl
  | cons n ns ih =>
    intro aes
    rw [List.foldl_cons, ih, effect_Type, ← fieldText_cons]

/-- A field of the aggregate that only `errors` elements change is a fold over the `errors`
elements of the nodes. -/
theorem foldl_effect_field {β : Type} (g : ApiExceptionFault → β)
    (F : β → StartElement × List Node → β)
    (hF : ∀ aes start cs, start.Name.Local = "errors" →
      g (Node.effect aes (Node.element start cs)) = F (g aes) (start, cs))
    (hO : ∀ aes start cs, start.Name.Local ≠ "errors" →
      g (Node.effect aes (Node.element start cs)) = g aes)
    (ns : List Node) :
    ∀ aes : ApiExceptionFault,
      g (ns.foldl Node.effect aes) = (topErrors ns).foldl F (g aes) := by
  induction ns with
  | nil => intro aes; rfl
  | cons n ns ih =>
    intro aes
    rw [List.foldl_cons, ih]
    cases n with
    | element start cs =>
      by_cases he : start.Name.Local = "errors"
      · simp only [topErrors, he, if_true, List.foldl_cons, hF aes start cs he]
      · simp only [topErrors, he, if_false, hO aes start cs he]
    | charData c => rfl
    | comment c => rfl
    | procInst a b => rfl
    | directive c => rfl

/-- After the nodes, `ErrorsType` is the discriminator of the last `errors` element. -/
theorem foldl_effect_ErrorsType (ns : List Node) (aes : ApiExceptionFault) :
    (ns.foldl Node.effect aes).ErrorsType
      = ((topErrors ns).getLast?.map (fun el => discriminator el.1)).getD aes.ErrorsType := by
  have h := foldl_effect_field (fun a => a.ErrorsType)
    (fun r el => if (fun _ : StartElement × List Node => true) el = true
      then discriminator el.1 else r)
    (by
      intro aes start cs he
      have h1 : ¬ ("errors" = "message") := by decide
      have h2 : ¬ ("errors" = "ApplicationException.Type") := by decide
      simp only [Node.effect, he, h1, h2, if_true, if_false]
      split_ifs <;> rfl)
    (by
      intro aes start cs he
      simp only [Node.effect, he, if_false]
      split_ifs <;> rfl)
    ns aes
  rw [h, foldl_last_wins, List.filter_true]

/-- What an `errors` element does to `Reason`. -/
theorem effect_errors_Reason (aes : ApiExceptionFault) (start : StartElement)
    (cs : List Node) (he : start.Name.Local = "errors") :
    (Node.effect aes (Node.element start cs)).Reason
      = if setsReason start = true then (recordOf (start, cs)).Reason else aes.Reason := by
  have h1 : ¬ ("errors" = "message") := by decide
  have h2 : ¬ ("errors" = "ApplicationException.Type") := by decide
  simp only [Node.effect, he, h1, h2, if_true, if_false, recordOf_eq, setsReason,
    Bool.or_eq_true, decide_eq_true_eq]
  by_cases hr : discriminator start = "RateExceededError"
  · simp only [hr, if_true, true_or, Record.Reason]
  · simp only [hr, if_false, false_or, Record.Reason]
    by_cases h3 : discriminator start = "AuthenticationError"
        ∨ discriminator start = "DatabaseError" ∨ discriminator start = "InternalApiError"
    · have h3' : (discriminator start = "AuthenticationError"
          ∨ discriminator start = "DatabaseError")
          ∨ discriminator start = "InternalApiError" := by
        rcases h3 with h | h | h
        · exact Or.inl (Or.inl h)
        · exact Or.inl (Or.inr h)
        · exact Or.inr h
      simp only [h3, h3', if_true]
    · have h3' : ¬ ((discriminator start = "AuthenticationError"
          ∨ discriminator start = "DatabaseError")
          ∨ discriminator start = "InternalApiError") := by
        intro h
        apply h3
        rcases h with (h | h) | h
        · exact Or.inl h
        · exact Or.inr (Or.inl h)
        · exact Or.inr (Or.inr h)
      simp only [h3, h3', if_false]

/-- After the nodes, `Reason` is the `Reason` of the record of the last `errors` element
whose discriminator is one of the four that assign it. -/
theorem foldl_effect_Reason (ns : List Node) (aes : ApiExceptionFault) :
    (ns.foldl Node.effect aes).Reason
      = ((((topErrors ns).filter (fun el => setsReason el.1)).getLast?).map
          (fun el => (recordOf el).Reason)).getD aes.Reason := by
  have h := foldl_effect_field (fun a => a.Reason)
    (fun r el => if (fun el : StartElement × List Node => setsReason el.1) el = true
      then (recordOf el).Reason else r)
    (by
      intro aes start cs he
      exact effect_errors_Reason aes start cs he)
    (by
      intro aes start cs he
      simp only [Node.effect, he, if_false]
      split_ifs <;> rfl)
    ns aes
  rw [h, foldl_last_wins]

/-! ## `Message` and `Type` -/

/-- C14, as written, fails: the body `<reason><message>X</message></reason>` decodes without
error and has no top-level `message` element, and `Message` is `X`, not empty. -/
theorem nested_message_is_decoded :
    (ApiExceptionFault.UnmarshalXML ⟨"", "", "", "", []⟩
        (bodyDecoder ⟨⟨"", "ApiExceptionFault"⟩, []⟩
          [Node.element ⟨⟨"", "reason"⟩, []⟩
            [Node.element ⟨⟨"", "message"⟩, []⟩ [Node.charData "X"]]])
        ⟨⟨"", "ApiExceptionFault"⟩, []⟩).1 = none
    ∧ ([Node.element ⟨⟨"", "reason"⟩, []⟩
          [Node.element ⟨⟨"", "message"⟩, []⟩ [Node.charData "X"]]].any
        (Node.isNamed "message")) = false
    ∧ (ApiExceptionFault.UnmarshalXML ⟨"", "", "", "", []⟩
        (bodyDecoder ⟨⟨"", "ApiExceptionFault"⟩, []⟩
          [Node.element ⟨⟨"", "reason"⟩, []⟩
            [Node.element ⟨⟨"", "message"⟩, []⟩ [Node.charData "X"]]])
        ⟨⟨"", "ApiExceptionFault"⟩, []⟩).2.1.Message = "X" := by
  refine ⟨by decide, by decide, by decide⟩

/-- C14, amended: for a well-formed fault body in which no top-level `reason` element has a
child element and no top-level `RateExceededError` element fails to decode, a call on a fresh
aggregate that returns `nil` leaves in `Message` the text of the last top-level `message`
element (empty if there is none) and in `Type` the text of the last top-level
`ApplicationException.Type` element (empty if there is none); and a pass of the loop that
reads a `message` or an `ApplicationException.Type` start element changes no other field of
the aggregate. -/
theorem Message_and_Type_last_element (body : List Node) (outer : StartElement)
    (hbody : ∀ n ∈ body, n.reasonWithChild = false ∧ n.rateFails = false)
    (hok : (ApiExceptionFault.UnmarshalXML ⟨"", "", "", "", []⟩ (bodyDecoder outer body)
      outer).1 = none) :
    (ApiExceptionFault.UnmarshalXML ⟨"", "", "", "", []⟩ (bodyDecoder outer body)
        outer).2.1.Message = Node.fieldText "message" "" body
    ∧ (ApiExceptionFault.UnmarshalXML ⟨"", "", "", "", []⟩ (bodyDecoder outer body)
        outer).2.1.Type_ = Node.fieldText "ApplicationException.Type" "" body
    ∧ (∀ (err : Option GoError) (aes : ApiExceptionFault) (start : StartElement)
        (ts : List Token) (fin : GoError), start.Name.Local = "message" →
        match ApiExceptionFault.iteration err aes ⟨Token.StartElement start :: ts, fin⟩ with
        | .next a _ => a = { aes with Message := a.Message }
        | .ret _ a _ => a = aes)
    ∧ (∀ (err : Option GoError) (aes : ApiExceptionFault) (start : StartElement)
        (ts : List Token) (fin : GoError), start.Name.Local = "ApplicationException.Type" →
        match ApiExceptionFault.iteration err aes ⟨Token.StartElement start :: ts, fin⟩ with
        | .next a _ => a = { aes with Type_ := a.Type_ }
        | .ret _ a _ => a = aes) := by
  rw [UnmarshalXML_body_ok body _ outer hbody hok]
  refine ⟨foldl_effect_Message body _, foldl_effect_Type body _, ?_, ?_⟩
  · intro err aes start ts fin hname
    simp only [ApiExceptionFault.iteration, Decoder.Token, hname, if_true]
    rcases Decoder.DecodeElementString ⟨ts, fin⟩ aes.Message start with ⟨e, v, d2⟩
    cases e <;> rfl
  · intro err aes start ts fin hname
    have h1 : ¬ ("ApplicationException.Type" = "message") := by decide
    simp only [ApiExceptionFault.iteration, Decoder.Token, hname, h1, if_true, if_false]
    rcases Decoder.DecodeElementString ⟨ts, fin⟩ aes.Type_ start with ⟨e, v, d2⟩
    cases e <;> rfl

/-- C14, amended, an instance: two `message` elements and one type element. -/
theorem Message_and_Type_last_element_witness :
    (∀ n ∈ [Node.element ⟨⟨"", "message"⟩, []⟩ [Node.charData "first"],
          Node.element ⟨⟨"", "ApplicationException.Type"⟩, []⟩ [Node.charData "ApiException"],
          Node.element ⟨⟨"", "message"⟩, []⟩ [Node.charData "second"]],
        n.reasonWithChild = false ∧ n.rateFails = false)
    ∧ (ApiExceptionFault.UnmarshalXML ⟨"", "", "", "", []⟩
        (bodyDecoder ⟨⟨"", "ApiExceptionFault"⟩, []⟩
          [Node.element ⟨⟨"", "message"⟩, []⟩ [Node.charData "first"],
            Node.element ⟨⟨"", "ApplicationException.Type"⟩, []⟩
              [Node.charData "ApiException"],
            Node.element ⟨⟨"", "message"⟩, []⟩ [Node.charData "second"]])
        ⟨⟨"", "ApiExceptionFault"⟩, []⟩).2.1.Message = "second"
    ∧ (ApiExceptionFault.UnmarshalXML ⟨"", "", "", "", []⟩
        (bodyDecoder ⟨⟨"", "ApiExceptionFault"⟩, []⟩
          [Node.element ⟨⟨"", "message"⟩, []⟩ [Node.charData "first"],
            Node.element ⟨⟨"", "ApplicationException.Type"⟩, []⟩
              [Node.charData "ApiException"],
            Node.element ⟨⟨"", "message"⟩, []⟩ [Node.charData "second"]])
        ⟨⟨"", "ApiExceptionFault"⟩, []⟩).2.1.Type_ = "ApiException" := by
  have hb : ∀ n ∈ [Node.element ⟨⟨"", "message"⟩, []⟩ [Node.charData "first"],
          Node.element ⟨⟨"", "ApplicationException.Type"⟩, []⟩ [Node.charData "ApiException"],
          Node.element ⟨⟨"", "message"⟩, []⟩ [Node.charData "second"]],
        n.reasonWithChild = false ∧ n.rateFails = false := by
    intro n hn
    simp only [List.mem_cons, List.mem_singleton, List.not_mem_nil, or_false] at hn
    rcases hn with h | h | h <;> subst h <;> exact ⟨by decide, by decide⟩
  have h := Message_and_Type_last_element _ ⟨⟨"", "ApiExceptionFault"⟩, []⟩ hb (by decide)
  exact ⟨hb, h.1.trans (by decide), h.2.1.trans (by decide)⟩

/-! ## `ErrorsType` -/

/-- C18, as written, fails: the body `<reason><errors xsi:type="BudgetError"/></reason>`
decodes without error and has no top-level `errors` element, and `ErrorsType` does not keep
its prior value but is `BudgetError`. -/
theorem nested_errors_sets_ErrorsType :
    (ApiExceptionFault.UnmarshalXML ⟨"", "", "prior", "", []⟩
        (bodyDecoder ⟨⟨"", "ApiExceptionFault"⟩, []⟩
          [Node.element ⟨⟨"", "reason"⟩, []⟩
            [Node.element ⟨⟨"", "errors"⟩, [⟨xsiType, "BudgetError"⟩]⟩ []]])
        ⟨⟨"", "ApiExceptionFault"⟩, []⟩).1 = none
    ∧ (topErrors [Node.element ⟨⟨"", "reason"⟩, []⟩
          [Node.element ⟨⟨"", "errors"⟩, [⟨xsiType, "BudgetError"⟩]⟩ []]]).length = 0
    ∧ (ApiExceptionFault.UnmarshalXML ⟨"", "", "prior", "", []⟩
        (bodyDecoder ⟨⟨"", "ApiExceptionFault"⟩, []⟩
          [Node.element ⟨⟨"", "reason"⟩, []⟩
            [Node.element ⟨⟨"", "errors"⟩, [⟨xsiType, "BudgetError"⟩]⟩ []]])
        ⟨⟨"", "ApiExceptionFault"⟩, []⟩).2.1.ErrorsType = "BudgetError" := by
  refine ⟨by decide, by decide, by decide⟩

/-- C18, amended: for a well-formed fault body in which no top-level `reason` element has a
child element and no top-level `RateExceededError` element fails to decode, after a call that
returns `nil` the field `ErrorsType` is the discriminator of the last top-level `errors`
element, and its prior value when the body has no `errors` element; the discriminator is the
empty string when the element has no schema-instance attribute `type`; and every pass of the
loop that reads an `errors` start element assigns the discriminator to `ErrorsType`, the
default branch included. -/
theorem ErrorsType_last_errors_element (body : List Node) (aes : ApiExceptionFault)
    (outer : StartElement)
    (hbody : ∀ n ∈ body, n.reasonWithChild = false ∧ n.rateFails = false)
    (hok : (aes.UnmarshalXML (bodyDecoder outer body) outer).1 = none) :
    (aes.UnmarshalXML (bodyDecoder outer body) outer).2.1.ErrorsType
      = ((topErrors body).getLast?.map (fun el => discriminator el.1)).getD aes.ErrorsType
    ∧ (topErrors body = [] →
        (aes.UnmarshalXML (bodyDecoder outer body) outer).2.1.ErrorsType = aes.ErrorsType)
    ∧ (∀ start : StartElement, (∀ a ∈ start.Attr, a.Name ≠ xsiType) →
        discriminator start = "")
    ∧ (∀ (err : Option GoError) (aes1 : ApiExceptionFault) (start : StartElement)
        (ts : List Token) (fin : GoError), start.Name.Local = "errors" →
        match ApiExceptionFault.iteration err aes1 ⟨Token.StartElement start :: ts, fin⟩ with
        | .next a _ => a.ErrorsType = discriminator start
        | .ret _ a _ => a.ErrorsType = discriminator start) := by
  rw [UnmarshalXML_body_ok body aes outer hbody hok]
  refine ⟨foldl_effect_ErrorsType body aes, fun hnil => ?_, discriminator_absent, ?_⟩
  · simp only [foldl_effect_ErrorsType, hnil, List.getLast?_nil, Option.map_none',
      Option.getD_none]
  · intro err aes1 start ts fin hname
    rw [iteration_errors err aes1 start ts fin hname]
    by_cases hr : discriminator start = "RateExceededError"
    · simp only [hr, if_true]
    · simp only [hr, if_false]
      rcases Decoder.DecodeElementEntityError ⟨ts, fin⟩ ⟨"", "", "", ""⟩ start
        with ⟨e, v, d2⟩
      cases e <;> rfl

/-- C18, amended, an instance: a `RateExceededError` element followed by an `errors` element
without discriminator leaves the empty string in `ErrorsType`. -/
theorem ErrorsType_last_errors_element_witness :
    (∀ n ∈ [Node.element ⟨⟨"", "errors"⟩, [⟨xsiType, "RateExceededError"⟩]⟩ [],
          Node.element ⟨⟨"", "errors"⟩, []⟩ []],
        n.reasonWithChild = false ∧ n.rateFails = false)
    ∧ (ApiExceptionFault.UnmarshalXML ⟨"", "", "prior", "", []⟩
        (bodyDecoder ⟨⟨"", "ApiExceptionFault"⟩, []⟩
          [Node.element ⟨⟨"", "errors"⟩, [⟨xsiType, "RateExceededError"⟩]⟩ [],
            Node.element ⟨⟨"", "errors"⟩, []⟩ []])
        ⟨⟨"", "ApiExceptionFault"⟩, []⟩).2.1.ErrorsType = "" := by
  have hb : ∀ n ∈ [Node.element ⟨⟨"", "errors"⟩, [⟨xsiType, "RateExceededError"⟩]⟩ [],
          Node.element ⟨⟨"", "errors"⟩, []⟩ []],
        n.reasonWithChild = false ∧ n.rateFails = false := by
    intro n hn
    simp only [List.mem_cons, List.mem_singleton, List.not_mem_nil, or_false] at hn
    rcases hn with h | h <;> subst h <;> exact ⟨by decide, by decide⟩
  have h := ErrorsType_last_errors_element _ ⟨"", "", "prior", "", []⟩
    ⟨⟨"", "ApiExceptionFault"⟩, []⟩ hb (by decide)
  exact ⟨hb, h.1.trans (by decide)⟩

/-! ## `Reason` -/

/-- C11, as written, fails: an `errors` element without discriminator whose record has the
reason `TOO_LOW` decodes without error, and `Reason` is empty although the last record with a
reason of its own has the reason `TOO_LOW`; and an `AuthenticationError` record with the
reason `LOGIN` followed by a `DatabaseError` record without reason leaves `Reason` empty
although the last record with a reason of its own has the reason `LOGIN`. -/
theorem Reason_not_last_nonempty_reason :
    ((ApiExceptionFault.UnmarshalXML ⟨"", "", "", "", []⟩
        (bodyDecoder ⟨⟨"", "ApiExceptionFault"⟩, []⟩
          [Node.element ⟨⟨"", "errors"⟩, []⟩
            [Node.element ⟨⟨"", "reason"⟩, []⟩ [Node.charData "TOO_LOW"]]])
        ⟨⟨"", "ApiExceptionFault"⟩, []⟩)
      = (none, ⟨"", "", "", "", [Record.EntityError ⟨"", "", "", "TOO_LOW"⟩]⟩,
          ⟨[], GoError.EOF⟩)
      ∧ (([Record.EntityError ⟨"", "", "", "TOO_LOW"⟩].filter
            (fun r => r.Reason != "")).getLast?.map Record.Reason) = some "TOO_LOW")
    ∧ ((ApiExceptionFault.UnmarshalXML ⟨"", "", "", "", []⟩
        (bodyDecoder ⟨⟨"", "ApiExceptionFault"⟩, []⟩
          [Node.element ⟨⟨"", "errors"⟩, [⟨xsiType, "AuthenticationError"⟩]⟩
            [Node.element ⟨⟨"", "reason"⟩, []⟩ [Node.charData "LOGIN"]],
            Node.element ⟨⟨"", "errors"⟩, [⟨xsiType, "DatabaseError"⟩]⟩ []])
        ⟨⟨"", "ApiExceptionFault"⟩, []⟩)
      = (none, ⟨"", "", "DatabaseError", "",
            [Record.EntityError ⟨"", "", "", "LOGIN"⟩, Record.EntityError ⟨"", "", "", ""⟩]⟩,
          ⟨[], GoError.EOF⟩)
      ∧ (([Record.EntityError ⟨"", "", "", "LOGIN"⟩, Record.EntityError ⟨"", "", "", ""⟩].filter
            (fun r => r.Reason != "")).getLast?.map Record.Reason) = some "LOGIN") := by
  refine ⟨⟨by decide, by decide⟩, ⟨by decide, by decide⟩⟩

/-- C11, amended: for a well-formed fault body in which no top-level `reason` element has a
child element and no top-level `RateExceededError` element fails to decode, after a call on a
fresh aggregate that returns `nil` the field `Reason` is the `Reason` field of the record
decoded from the last top-level `errors` element whose discriminator is `RateExceededError`,
`AuthenticationError`, `DatabaseError` or `InternalApiError`, empty or not, and it is empty
when the body has no such element. -/
theorem Reason_last_assigning_element (body : List Node) (outer : StartElement)
    (hbody : ∀ n ∈ body, n.reasonWithChild = false ∧ n.rateFails = false)
    (hok : (ApiExceptionFault.UnmarshalXML ⟨"", "", "", "", []⟩ (bodyDecoder outer body)
      outer).1 = none) :
    (ApiExceptionFault.UnmarshalXML ⟨"", "", "", "", []⟩ (bodyDecoder outer body)
        outer).2.1.Reason
      = ((((topErrors body).filter (fun el => setsReason el.1)).getLast?).map
          (fun el => (recordOf el).Reason)).getD ""
    ∧ ((topErrors body).filter (fun el => setsReason el.1) = [] →
        (ApiExceptionFault.UnmarshalXML ⟨"", "", "", "", []⟩ (bodyDecoder outer body)
          outer).2.1.Reason = "") := by
  rw [UnmarshalXML_body_ok body _ outer hbody hok]
  refine ⟨foldl_effect_Reason body _, fun hnil => ?_⟩
  simp only [foldl_effect_Reason, hnil, List.getLast?_nil, Option.map_none',
    Option.getD_none]

/-- C11, amended, an instance: a `RateExceededError` record with the reason `RATE` followed
by a record of the default branch with the reason `TOO_LOW` leaves `RATE` in `Reason`. -/
theorem Reason_last_assigning_element_witness :
    (∀ n ∈ [Node.element ⟨⟨"", "errors"⟩, [⟨xsiType, "RateExceededError"⟩]⟩
            [Node.element ⟨⟨"", "reason"⟩, []⟩ [Node.charData "RATE"]],
          Node.element ⟨⟨"", "errors"⟩, []⟩
            [Node.element ⟨⟨"", "reason"⟩, []⟩ [Node.charData "TOO_LOW"]]],
        n.reasonWithChild = false ∧ n.rateFails = false)
    ∧ (ApiExceptionFault.UnmarshalXML ⟨"", "", "", "", []⟩
        (bodyDecoder ⟨⟨"", "ApiExceptionFault"⟩, []⟩
          [Node.element ⟨⟨"", "errors"⟩, [⟨xsiType, "RateExceededError"⟩]⟩
            [Node.element ⟨⟨"", "reason"⟩, []⟩ [Node.charData "RATE"]],
            Node.element ⟨⟨"", "errors"⟩, []⟩
              [Node.element ⟨⟨"", "reason"⟩, []⟩ [Node.charData "TOO_LOW"]]])
        ⟨⟨"", "ApiExceptionFault"⟩, []⟩).2.1.Reason = "RATE" := by
  have hb : ∀ n ∈ [Node.element ⟨⟨"", "errors"⟩, [⟨xsiType, "RateExceededError"⟩]⟩
            [Node.element ⟨⟨"", "reason"⟩, []⟩ [Node.charData "RATE"]],
          Node.element ⟨⟨"", "errors"⟩, []⟩
            [Node.element ⟨⟨"", "reason"⟩, []⟩ [Node.charData "TOO_LOW"]]],
        n.reasonWithChild = false ∧ n.rateFails = false := by
    intro n hn
    simp only [List.mem_cons, List.mem_singleton, List.not_mem_nil, or_false] at hn
    rcases hn with h | h <;> subst h <;> exact ⟨by decide, by decide⟩
  have h := Reason_last_assigning_element _ ⟨⟨"", "ApiExceptionFault"⟩, []⟩ hb (by decide)
  exact ⟨hb, h.1.trans (by decide)⟩

/-! ## The fields of a decoded record -/

theorem fieldText_absent (name : String) (cs : List Node) :
    ∀ dflt : String, cs.any (Node.isNamed name) = false →
      Node.fieldText name dflt cs = dflt := by
  induction cs with
  | nil => intro dflt _; rfl
  | cons c cs ih =>
    intro dflt h
    simp only [List.any_cons, Bool.or_eq_false_iff] at h
    cases c with
    | element start gcs =>
      have hn : ¬ (start.Name.Local = name) := by simpa [Node.isNamed] using h.1
      simp only [Node.fieldText, hn, if_false]
      exact ih dflt h.2
    | charData c => exact ih dflt h.2
    | comment c => exact ih dflt h.2
    | procInst a b => exact ih dflt h.2
    | directive c => exact ih dflt h.2

/-- An `EntityError` decoded from a well-formed element: each field holds the text of the
last child element of its name, and keeps its value when there is none. -/
theorem decodeStruct_EntityError_fields (cs : List Node) :
    ∀ e : EntityError,
      (Node.decodeStruct EntityError.field e cs).2.1
        = ⟨Node.fieldText "fieldPath" e.FieldPath cs, Node.fieldText "trigger" e.Trigger cs,
            Node.fieldText "errorString" e.ErrorString cs,
            Node.fieldText "reason" e.Reason cs⟩ := by
  induction cs with
  | nil => intro e; rfl
  | cons c cs ih =>
    intro e
    cases c with
    | element start gcs =>
      simp only [Node.decodeStruct, Node.fieldText]
      by_cases h1 : start.Name.Local = "fieldPath"
      · have a1 : ¬ ("fieldPath" = "trigger") := by decide
        have a2 : ¬ ("fieldPath" = "errorString") := by decide
        have a3 : ¬ ("fieldPath" = "reason") := by decide
        simp only [EntityError.field, h1, a1, a2, a3, if_true, if_false, ih]
      · by_cases h2 : start.Name.Local = "trigger"
        · have a1 : ¬ ("trigger" = "fieldPath") := by decide
          have a2 : ¬ ("trigger" = "errorString") := by decide
          have a3 : ¬ ("trigger" = "reason") := by decide
          simp only [EntityError.field, h2, a1, a2, a3, if_true, if_false, ih]
        · by_cases h3 : start.Name.Local = "errorString"
          · have a1 : ¬ ("errorString" = "fieldPath") := by decide
            have a2 : ¬ ("errorString" = "trigger") := by decide
            have a3 : ¬ ("errorString" = "reason") := by decide
            simp only [EntityError.field, h3, a1, a2, a3, if_true, if_false, ih]
          · by_cases h4 : start.Name.Local = "reason"
            · have a1 : ¬ ("reason" = "fieldPath") := by decide
              have a2 : ¬ ("reason" = "trigger") := by decide
              have a3 : ¬ ("reason" = "errorString") := by decide
              simp only [EntityError.field, h4, a1, a2, a3, if_true, if_false, ih]
            · simp only [EntityError.field, h1, h2, h3, h4, if_false, ih]
    | charData c => exact ih e
    | comment c => exact ih e
    | procInst a b => exact ih e
    | directive c => exact ih e

/-- A `RateExceededError` decoded without error from a well-formed element: each string field
holds the text of the last child element of its name, and keeps its value when there is
none. -/
theorem decodeStruct_RateExceededError_fields (cs : List Node) :
    ∀ e : RateExceededError,
      (Node.decodeStruct RateExceededError.field e cs).1 = none →
      (Node.decodeStruct RateExceededError.field e cs).2.1.RateName
          = Node.fieldText "rateName" e.RateName cs
      ∧ (Node.decodeStruct RateExceededError.field e cs).2.1.RateScope
          = Node.fieldText "rateScope" e.RateScope cs
      ∧ (Node.decodeStruct RateExceededError.field e cs).2.1.ErrorString
          = Node.fieldText "errorString" e.ErrorString cs
      ∧ (Node.decodeStruct RateExceededError.field e cs).2.1.Reason
          = Node.fieldText "reason" e.Reason cs := by
  induction cs with
  | nil => intro e _; exact ⟨rfl, rfl, rfl, rfl⟩
  | cons c cs ih =>
    intro e
    cases c with
    | element start gcs =>
      simp only [Node.decodeStruct, Node.fieldText]
      by_cases h1 : start.Name.Local = "rateName"
      · have a1 : ¬ ("rateName" = "rateScope") := by decide
        have a2 : ¬ ("rateName" = "errorString") := by decide
        have a3 : ¬ ("rateName" = "reason") := by decide
        simp only [RateExceededError.field, h1, a1, a2, a3, if_true, if_false]
        exact ih _
      · by_cases h2 : start.Name.Local = "rateScope"
        · have a1 : ¬ ("rateScope" = "rateName") := by decide
          have a2 : ¬ ("rateScope" = "errorString") := by decide
          have a3 : ¬ ("rateScope" = "reason") := by decide
          simp only [RateExceededError.field, h2, a1, a2, a3, if_true, if_false]
          exact ih _
        · by_cases h3 : start.Name.Local = "errorString"
          · have a1 : ¬ ("errorString" = "rateName") := by decide
            have a2 : ¬ ("errorString" = "rateScope") := by decide
            have a3 : ¬ ("errorString" = "reason") := by decide
            simp only [RateExceededError.field, h3, a1, a2, a3, if_true, if_false]
            exact ih _
          · by_cases h4 : start.Name.Local = "reason"
            · have a1 : ¬ ("reason" = "rateName") := by decide
              have a2 : ¬ ("reason" = "rateScope") := by decide
              have a3 : ¬ ("reason" = "errorString") := by decide
              simp only [RateExceededError.field, h4, a1, a2, a3, if_true, if_false]
              exact ih _
            · by_cases h5 : start.Name.Local = "retryAfterSeconds"
              · simp only [RateExceededError.field, h1, h2, h3, h4, h5, if_true, if_false]
                rcases hc : copyValueUint e.RetryAfterSeconds (Node.text gcs) with ⟨x, v⟩
                cases x with
                | some err => intro h; simp at h
                | none => exact ih _
              · simp only [RateExceededError.field, h1, h2, h3, h4, h5, if_false]
                exact ih _
    | charData c => exact ih e
    | comment c => exact ih e
    | procInst a b => exact ih e
    | directive c => exact ih e

/-- Without a `reason` child element the `Reason` of a `RateExceededError` keeps its value,
whether the decoding succeeds or not. -/
theorem decodeStruct_RateExceededError_Reason (cs : List Node) :
    ∀ e : RateExceededError, cs.any (Node.isNamed "reason") = false →
      (Node.decodeStruct RateExceededError.field e cs).2.1.Reason = e.Reason := by
  induction cs with
  | nil => intro e _; rfl
  | cons c cs ih =>
    intro e h
    simp only [List.any_cons, Bool.or_eq_false_iff] at h
    cases c with
    | element start gcs =>
      have hn : ¬ (start.Name.Local = "reason") := by simpa [Node.isNamed] using h.1
      simp only [Node.decodeStruct]
      have hf : (RateExceededError.field e start gcs).2.Reason = e.Reason := by
        unfold RateExceededError.field
        split_ifs <;> rfl
      rcases hfe : RateExceededError.field e start gcs with ⟨x, sv1⟩
      rw [hfe] at hf
      cases x with
      | some err => exact hf
      | none => exact (ih sv1 h.2).trans hf
    | charData c => exact ih e h.2
    | comment c => exact ih e h.2
    | procInst a b => exact ih e h.2
    | directive c => exact ih e h.2

/-! ## Degenerate bodies -/

/-- The record of an `errors` element whose discriminator is not `RateExceededError`. -/
theorem recordOf_entity (start : StartElement) (cs : List Node)
    (hd : discriminator start ≠ "RateExceededError") :
    recordOf (start, cs)
      = Record.EntityError ⟨Node.fieldText "fieldPath" "" cs, Node.fieldText "trigger" "" cs,
          Node.fieldText "errorString" "" cs, Node.fieldText "reason" "" cs⟩ := by
  rw [recordOf_eq]
  simp only [hd, if_false, decodeStruct_EntityError_fields]

/-- C13: a well-formed fault body whose nodes are read as units (names that are accepted, no
`reason` element with a child element, no `RateExceededError` element that fails to decode)
decodes into a fresh aggregate with the result `nil` and with the records of its `errors`
elements in `Errors`. A body without `errors` element leaves `Errors` and `Reason` empty; an
`errors` element without discriminator attribute gives an `EntityError` record; and the
record of an `errors` element without `reason` child has an empty `Reason`, its other fields
being the texts of the child elements that are present. -/
theorem degenerate_bodies_decode (body : List Node) (outer : StartElement)
    (hbody : ∀ n ∈ body,
      n.reasonWithChild = false ∧ n.rateFails = false ∧ n.unrecognised = false) :
    (ApiExceptionFault.UnmarshalXML ⟨"", "", "", "", []⟩ (bodyDecoder outer body) outer).1
      = none
    ∧ (ApiExceptionFault.UnmarshalXML ⟨"", "", "", "", []⟩ (bodyDecoder outer body)
        outer).2.1.Errors = (topErrors body).map recordOf
    ∧ (topErrors body = [] →
        (ApiExceptionFault.UnmarshalXML ⟨"", "", "", "", []⟩ (bodyDecoder outer body)
          outer).2.1.Errors = []
        ∧ (ApiExceptionFault.UnmarshalXML ⟨"", "", "", "", []⟩ (bodyDecoder outer body)
          outer).2.1.Reason = "")
    ∧ (∀ (start : StartElement) (cs : List Node), (∀ a ∈ start.Attr, a.Name ≠ xsiType) →
        recordOf (start, cs)
          = Record.EntityError ⟨Node.fieldText "fieldPath" "" cs,
              Node.fieldText "trigger" "" cs, Node.fieldText "errorString" "" cs,
              Node.fieldText "reason" "" cs⟩)
    ∧ (∀ (start : StartElement) (cs : List Node), cs.any (Node.isNamed "reason") = false →
        (recordOf (start, cs)).Reason = ""
        ∧ (discriminator start ≠ "RateExceededError" →
            recordOf (start, cs)
              = Record.EntityError ⟨Node.fieldText "fieldPath" "" cs,
                  Node.fieldText "trigger" "" cs, Node.fieldText "errorString" "" cs, ""⟩)
        ∧ (discriminator start = "RateExceededError" →
            (Node.element start cs).rateFails = false → start.Name.Local = "errors" →
            ∃ r : RateExceededError, recordOf (start, cs) = Record.RateExceededError r
              ∧ r.RateName = Node.fieldText "rateName" "" cs
              ∧ r.RateScope = Node.fieldText "rateScope" "" cs
              ∧ r.ErrorString = Node.fieldText "errorString" "" cs
              ∧ r.Reason = "")) := by
  rw [UnmarshalXML_plain_ok body _ outer hbody]
  refine ⟨rfl, ?_, fun hnil => ⟨?_, ?_⟩, ?_, ?_⟩
  · simp only [foldl_effect_Errors, List.nil_append]
  · simp only [foldl_effect_Errors, hnil, List.map_nil, List.append_nil]
  · simp only [foldl_effect_Reason, hnil, List.filter_nil, List.getLast?_nil,
      Option.map_none', Option.getD_none]
  · intro start cs habs
    exact recordOf_entity start cs (by rw [discriminator_absent start habs]; decide)
  · intro start cs hno
    refine ⟨?_, fun hd => ?_, fun hd hrf hname => ?_⟩
    · rw [recordOf_eq]
      split_ifs
      · simp only [Record.Reason, decodeStruct_RateExceededError_Reason cs _ hno]
      · simp only [Record.Reason, decodeStruct_EntityError_fields,
          fieldText_absent "reason" cs "" hno]
    · rw [recordOf_entity start cs hd, fieldText_absent "reason" cs "" hno]
    · have hok : (Node.decodeStruct RateExceededError.field ⟨"", "", "", "", 0⟩ cs).1
          = none := by
        simp only [Node.rateFails, hname, hd, decide_True, Bool.true_and,
          (rate_decodeStruct_eq start cs).1] at hrf
        rcases hdec : (Node.decodeStruct RateExceededError.field ⟨"", "", "", "", 0⟩ cs).1
          with _ | e
        · rfl
        · rw [hdec] at hrf
          simp at hrf
      obtain ⟨h1, h2, h3, _⟩ := decodeStruct_RateExceededError_fields cs _ hok
      refine ⟨_, by rw [recordOf_eq]; simp only [hd, if_true], h1, h2, h3, ?_⟩
      exact decodeStruct_RateExceededError_Reason cs _ hno

/-- C13, an instance: a body of a `message` element and an `errors` element that has neither
discriminator nor `reason` child. -/
theorem degenerate_bodies_decode_witness :
    (∀ n ∈ [Node.element ⟨⟨"", "message"⟩, []⟩ [Node.charData "hi"],
          Node.element ⟨⟨"", "errors"⟩, []⟩
            [Node.element ⟨⟨"", "trigger"⟩, []⟩ [Node.charData "t"]]],
        n.reasonWithChild = false ∧ n.rateFails = false ∧ n.unrecognised = false)
    ∧ (ApiExceptionFault.UnmarshalXML ⟨"", "", "", "", []⟩
        (bodyDecoder ⟨⟨"", "ApiExceptionFault"⟩, []⟩
          [Node.element ⟨⟨"", "message"⟩, []⟩ [Node.charData "hi"],
            Node.element ⟨⟨"", "errors"⟩, []⟩
              [Node.element ⟨⟨"", "trigger"⟩, []⟩ [Node.charData "t"]]])
        ⟨⟨"", "ApiExceptionFault"⟩, []⟩).1 = none
    ∧ (ApiExceptionFault.UnmarshalXML ⟨"", "", "", "", []⟩
        (bodyDecoder ⟨⟨"", "ApiExceptionFault"⟩, []⟩
          [Node.element ⟨⟨"", "message"⟩, []⟩ [Node.charData "hi"],
            Node.element ⟨⟨"", "errors"⟩, []⟩
              [Node.element ⟨⟨"", "trigger"⟩, []⟩ [Node.charData "t"]]])
        ⟨⟨"", "ApiExceptionFault"⟩, []⟩).2.1.Errors
      = [Record.EntityError ⟨"", "t", "", ""⟩] := by
  have hb : ∀ n ∈ [Node.element ⟨⟨"", "message"⟩, []⟩ [Node.charData "hi"],
          Node.element ⟨⟨"", "errors"⟩, []⟩
            [Node.element ⟨⟨"", "trigger"⟩, []⟩ [Node.charData "t"]]],
        n.reasonWithChild = false ∧ n.rateFails = false ∧ n.unrecognised = false := by
    intro n hn
    simp only [List.mem_cons, List.mem_singleton, List.not_mem_nil, or_false] at hn
    rcases hn with h | h <;> subst h <;> exact ⟨by decide, by decide, by decide⟩
  have h := degenerate_bodies_decode _ ⟨⟨"", "ApiExceptionFault"⟩, []⟩ hb
  exact ⟨hb, h.1, h.2.1.trans (by decide)⟩

/-! ## The decimal text of a number -/

theorem digitChar_digit (k : Nat) (hk : k < 10) :
    ('0' ≤ Nat.digitChar k ∧ Nat.digitChar k ≤ '9')
    ∧ (Nat.digitChar k).toNat - '0'.toNat = k ∧ isSpace (Nat.digitChar k) = false := by
  interval_cases k <;> decide

/-- The digits `Nat.toDigitsCore` puts in front of `ds`: at least one, all decimal digits,
and with the value `n`. -/
theorem toDigitsCore_digits (fuel : Nat) :
    ∀ (n : Nat) (ds : List Char), n < fuel →
      ∃ l : List Char, Nat.toDigitsCore 10 fuel n ds = l ++ ds ∧ l ≠ []
        ∧ (∀ c ∈ l, ('0' ≤ c ∧ c ≤ '9') ∧ isSpace c = false)
        ∧ l.foldl (fun a c => a * 10 + (c.toNat - '0'.toNat)) 0 = n := by
  induction fuel with
  | zero => intro n ds h; exact absurd h (Nat.not_lt_zero _)
  | succ fuel ih =>
    intro n ds h
    have hd := digitChar_digit (n % 10) (Nat.mod_lt _ (by decide))
    simp only [Nat.toDigitsCore]
    by_cases h0 : n / 10 = 0
    · simp only [h0, if_true]
      refine ⟨[Nat.digitChar (n % 10)], rfl, by simp, ?_, ?_⟩
      · intro c hc
        simp only [List.mem_singleton] at hc
        subst hc
        exact ⟨hd.1, hd.2.2⟩
      · simp only [List.foldl_cons, List.foldl_nil, hd.2.1]
        omega
    · simp only [h0, if_false]
      obtain ⟨l, hl, _, hdig, hval⟩ := ih (n / 10) (Nat.digitChar (n % 10) :: ds) (by omega)
      refine ⟨l ++ [Nat.digitChar (n % 10)], by simp [hl], by simp, ?_, ?_⟩
      · intro c hc
        simp only [List.mem_append, List.mem_singleton] at hc
        rcases hc with hc | hc
        · exact hdig c hc
        · subst hc
          exact ⟨hd.1, hd.2.2⟩
      · simp only [List.foldl_append, List.foldl_cons, List.foldl_nil, hval, hd.2.1]
        omega

theorem foldl_digits_ge (l : List Char) :
    ∀ acc : Nat, acc ≤ l.foldl (fun a c => a * 10 + (c.toNat - '0'.toNat)) acc := by
  induction l with
  | nil => intro acc; exact Nat.le_refl _
  | cons c cs ih =>
    intro acc
    simp only [List.foldl_cons]
    exact Nat.le_trans (by omega) (ih _)

/-- The digit loop of `ParseUint` on decimal digits whose value fits 64 bits. -/
theorem parseUintLoop_digits (l : List Char) :
    ∀ acc : Nat, (∀ c ∈ l, ('0' ≤ c ∧ c ≤ '9') ∧ isSpace c = false) →
      l.foldl (fun a c => a * 10 + (c.toNat - '0'.toNat)) acc < 2 ^ 64 →
      parseUintLoop 64 acc l
        = some (some (l.foldl (fun a c => a * 10 + (c.toNat - '0'.toNat)) acc)) := by
  induction l with
  | nil => intro acc _ _; rfl
  | cons c cs ih =>
    intro acc hdig hval
    have hc := (hdig c (List.mem_cons_self _ _)).1
    simp only [List.foldl_cons] at hval ⊢
    have hge := foldl_digits_ge cs (acc * 10 + (c.toNat - '0'.toNat))
    have h64 : (2 : Nat) ^ 64 = 18446744073709551616 := by norm_num
    have hcut : ((2 : Nat) ^ 64 - 1) / 10 + 1 = 1844674407370955162 := by norm_num
    have h1 : ¬ (acc ≥ (2 ^ 64 - 1) / 10 + 1) := by
      rw [hcut]
      rw [h64] at hval
      omega
    have h2 : ¬ (acc * 10 + (c.toNat - '0'.toNat) ≥ 2 ^ 64
        ∨ acc * 10 + (c.toNat - '0'.toNat) > 2 ^ 64 - 1) := by
      rw [h64] at hval ⊢
      omega
    rw [parseUintLoop]
    simp only [hc, and_self, if_true, h1, h2, if_false]
    exact ih _ (fun c1 hc1 => hdig c1 (List.mem_cons_of_mem _ hc1)) hval

theorem dropWhile_head_false {α : Type} (p : α → Bool) (l : List α)
    (h : ∀ c ∈ l, p c = false) : l.dropWhile p = l := by
  cases l with
  | nil => rfl
  | cons c cs => simp [List.dropWhile, h c (List.mem_cons_self _ _)]

/-- The function `copyValue` stores the number `n` when the text is the decimal text of `n`
and `n` fits 64 bits. -/
theorem copyValueUint_toString (dst n : Nat) (hn : n < 2 ^ 64) :
    copyValueUint dst (toString n) = (none, n) := by
  obtain ⟨l, hl, hne, hdig, hval⟩ := toDigitsCore_digits (n + 1) n [] (Nat.lt_succ_self _)
  have hs : toString n = String.mk l := by
    show Nat.repr n = String.mk l
    simp only [Nat.repr, Nat.toDigits, hl, List.append_nil, List.asString]
  have hsp : ∀ c ∈ l, isSpace c = false := fun c hc => (hdig c hc).2
  have htrim : TrimSpace (String.mk l) = String.mk l := by
    simp only [TrimSpace]
    rw [dropWhile_head_false isSpace l hsp,
      dropWhile_head_false isSpace l.reverse (fun c hc => hsp c (List.mem_reverse.mp hc)),
      List.reverse_reverse]
  have hlen : ¬ ((String.mk l).length = 0) := by
    simp only [String.length]
    exact fun h => hne (List.length_eq_zero.mp h)
  have hempty : ¬ (String.mk l = "") := by
    intro h
    apply hne
    have := congrArg String.data h
    simpa using this
  rw [hs, copyValueUint]
  simp only [hlen, if_false, htrim, ParseUint, hempty, uintBits]
  rw [parseUintLoop_digits l 0 hdig (by rw [hval]; exact hn), hval]

/-! ## `retryAfterSeconds` -/

theorem RateExceededError_field_other (sv : RateExceededError) (start : StartElement)
    (gcs : List Node) (h : ¬ (start.Name.Local = "retryAfterSeconds")) :
    (RateExceededError.field sv start gcs).1 = none
    ∧ (RateExceededError.field sv start gcs).2.RetryAfterSeconds = sv.RetryAfterSeconds := by
  simp only [RateExceededError.field, h, if_false]
  split_ifs <;> exact ⟨rfl, rfl⟩

/-- Without a `retryAfterSeconds` child element a `RateExceededError` decodes and keeps its
`RetryAfterSeconds`. -/
theorem decodeStruct_RateExceededError_no_retry (cs : List Node) :
    ∀ sv : RateExceededError, cs.any (Node.isNamed "retryAfterSeconds") = false →
      (Node.decodeStruct RateExceededError.field sv cs).1 = none
      ∧ (Node.decodeStruct RateExceededError.field sv cs).2.1.RetryAfterSeconds
          = sv.RetryAfterSeconds := by
  induction cs with
  | nil => intro sv _; exact ⟨rfl, rfl⟩
  | cons c cs ih =>
    intro sv h
    simp only [List.any_cons, Bool.or_eq_false_iff] at h
    cases c with
    | element start gcs =>
      have hn : ¬ (start.Name.Local = "retryAfterSeconds") := by
        simpa [Node.isNamed] using h.1
      have hf := RateExceededError_field_other sv start gcs hn
      simp only [Node.decodeStruct]
      rcases hfe : RateExceededError.field sv start gcs with ⟨x, sv1⟩
      rw [hfe] at hf
      simp only at hf
      obtain ⟨hx, hv⟩ := hf
      subst hx
      simp only
      rw [← hv]
      exact ih sv1 h.2
    | charData c => exact ih sv h.2
    | comment c => exact ih sv h.2
    | procInst a b => exact ih sv h.2
    | directive c => exact ih sv h.2

/-- A `RateExceededError` whose only `retryAfterSeconds` child holds the decimal text of a
number that fits 64 bits decodes, with that number in `RetryAfterSeconds`. -/
theorem decodeStruct_RateExceededError_retry (n : Nat) (hn : n < 2 ^ 64)
    (rstart : StartElement) (gcs post : List Node)
    (hr : rstart.Name.Local = "retryAfterSeconds") (htext : Node.text gcs = toString n)
    (hpost : post.any (Node.isNamed "retryAfterSeconds") = false) (pre : List Node) :
    ∀ sv : RateExceededError, pre.any (Node.isNamed "retryAfterSeconds") = false →
      (Node.decodeStruct RateExceededError.field sv
          (pre ++ Node.element rstart gcs :: post)).1 = none
      ∧ (Node.decodeStruct RateExceededError.field sv
          (pre ++ Node.element rstart gcs :: post)).2.1.RetryAfterSeconds = n := by
  induction pre with
  | nil =>
    intro sv _
    have a1 : ¬ ("retryAfterSeconds" = "rateName") := by decide
    have a2 : ¬ ("retryAfterSeconds" = "rateScope") := by decide
    have a3 : ¬ ("retryAfterSeconds" = "errorString") := by decide
    have a4 : ¬ ("retryAfterSeconds" = "reason") := by decide
    have hf : RateExceededError.field sv rstart gcs
        = (none, { sv with RetryAfterSeconds := n }) := by
      simp only [RateExceededError.field, hr, a1, a2, a3, a4, if_true, if_false, htext,
        copyValueUint_toString _ n hn]
    simp only [List.nil_append, Node.decodeStruct, hf]
    exact decodeStruct_RateExceededError_no_retry post _ hpost
  | cons c pre ih =>
    intro sv h
    simp only [List.any_cons, Bool.or_eq_false_iff] at h
    cases c with
    | element start gcs1 =>
      have hn1 : ¬ (start.Name.Local = "retryAfterSeconds") := by
        simpa [Node.isNamed] using h.1
      have hf := RateExceededError_field_other sv start gcs1 hn1
      simp only [List.cons_append, Node.decodeStruct]
      rcases hfe : RateExceededError.field sv start gcs1 with ⟨x, sv1⟩
      rw [hfe] at hf
      simp only at hf
      obtain ⟨hx, _⟩ := hf
      subst hx
      exact ih sv1 h.2
    | charData c => exact ih sv h.2
    | comment c => exact ih sv h.2
    | procInst a b => exact ih sv h.2
    | directive c => exact ih sv h.2

/-- C12, as written, fails: for `n = 2 ^ 64` the decimal text of `n` in `retryAfterSeconds`
makes the decoding fail, and `RetryAfterSeconds` stays 0. -/
theorem retryAfterSeconds_out_of_range :
    Node.text [Node.charData "18446744073709551616"] = toString (2 ^ 64 : Nat)
    ∧ Decoder.DecodeElementRateExceededError
        (bodyDecoder ⟨⟨"", "errors"⟩, [⟨xsiType, "RateExceededError"⟩]⟩
          [Node.element ⟨⟨"", "retryAfterSeconds"⟩, []⟩
            [Node.charData "18446744073709551616"]])
        ⟨"", "", "", "", 0⟩ ⟨⟨"", "errors"⟩, [⟨xsiType, "RateExceededError"⟩]⟩
      = (some (GoError.NumError "ParseUint" "18446744073709551616" "value out of range"),
          ⟨"", "", "", "", 0⟩, ⟨[Token.EndElement ⟨"", "errors"⟩], GoError.EOF⟩)
    ∧ (ApiExceptionFault.UnmarshalXML ⟨"", "", "", "", []⟩
        (bodyDecoder ⟨⟨"", "ApiExceptionFault"⟩, []⟩
          [Node.element ⟨⟨"", "errors"⟩, [⟨xsiType, "RateExceededError"⟩]⟩
            [Node.element ⟨⟨"", "retryAfterSeconds"⟩, []⟩
              [Node.charData "18446744073709551616"]]])
        ⟨⟨"", "ApiExceptionFault"⟩, []⟩).2.1.Errors
      = [Record.RateExceededError ⟨"", "", "", "", 0⟩] := by
  refine ⟨by decide, by decide, by decide⟩

/-- C12, amended: for every number `n` below `2 ^ 64`, an `errors` element with the
discriminator `RateExceededError` whose one `retryAfterSeconds` child holds the decimal
text of `n` decodes to a `RateExceededError` record whose `RetryAfterSeconds` is `n`, and
`UnmarshalXML` appends that record. -/
theorem retryAfterSeconds_roundtrip (n : Nat) (hn : n < 2 ^ 64)
    (start rstart : StartElement) (pre post gcs : List Node)
    (hname : start.Name.Local = "errors")
    (hdisc : discriminator start = "RateExceededError")
    (hr : rstart.Name.Local = "retryAfterSeconds") (htext : Node.text gcs = toString n)
    (hpre : pre.any (Node.isNamed "retryAfterSeconds") = false)
    (hpost : post.any (Node.isNamed "retryAfterSeconds") = false) :
    ∃ r : RateExceededError,
      Decoder.DecodeElementRateExceededError
          (bodyDecoder start (pre ++ Node.element rstart gcs :: post)) ⟨"", "", "", "", 0⟩
          start
        = (none, r, ⟨[], GoError.EOF⟩)
      ∧ r.RetryAfterSeconds = n
      ∧ recordOf (start, pre ++ Node.element rstart gcs :: post)
        = Record.RateExceededError r
      ∧ ∀ (aes : ApiExceptionFault) (outer : StartElement),
        aes.UnmarshalXML
            (bodyDecoder outer [Node.element start (pre ++ Node.element rstart gcs :: post)])
            outer
          = (none,
              { Message := aes.Message, Type_ := aes.Type_, ErrorsType := "RateExceededError",
                Reason := r.Reason, Errors := aes.Errors ++ [Record.RateExceededError r] },
              ⟨[], GoError.EOF⟩) := by
  obtain ⟨hok, hval⟩ := decodeStruct_RateExceededError_retry n hn rstart gcs post hr htext
    hpost pre ⟨"", "", "", "", 0⟩ hpre
  have hdec := DecodeElementRateExceededError_children
    (pre ++ Node.element rstart gcs :: post) start.Name [] GoError.EOF ⟨"", "", "", "", 0⟩
    start
  rw [hok] at hdec
  refine ⟨(Node.decodeStruct RateExceededError.field ⟨"", "", "", "", 0⟩
    (pre ++ Node.element rstart gcs :: post)).2.1, hdec, hval, ?_, ?_⟩
  · rw [recordOf_eq]
    simp only [hdisc, if_true]
  · intro aes outer
    have hplain : ∀ m ∈ [Node.element start (pre ++ Node.element rstart gcs :: post)],
        m.reasonWithChild = false ∧ m.rateFails = false ∧ m.unrecognised = false := by
      intro m hm
      simp only [List.mem_singleton] at hm
      subst hm
      have h1 : ¬ ("errors" = "reason") := by decide
      refine ⟨?_, ?_, ?_⟩
      · simp only [Node.reasonWithChild, hname, h1, decide_False, Bool.false_and]
      · simp only [Node.rateFails, (rate_decodeStruct_eq start _).1, hok, Option.isSome_none,
          Bool.and_false]
      · simp only [Node.unrecognised, recognised, hname]
        decide
    rw [UnmarshalXML_plain_ok _ aes outer hplain]
    have h1 : ¬ ("errors" = "message") := by decide
    have h2 : ¬ ("errors" = "ApplicationException.Type") := by decide
    simp only [List.foldl_cons, List.foldl_nil, Node.effect, hname, h1, h2, hdisc, if_true,
      if_false]

/-- C12, amended, an instance: the largest value, `2 ^ 64 - 1`. -/
theorem retryAfterSeconds_roundtrip_witness :
    (18446744073709551615 < 2 ^ 64)
    ∧ ((⟨⟨"", "errors"⟩, [⟨xsiType, "RateExceededError"⟩]⟩ : StartElement).Name.Local
        = "errors")
    ∧ discriminator ⟨⟨"", "errors"⟩, [⟨xsiType, "RateExceededError"⟩]⟩ = "RateExceededError"
    ∧ Node.text [Node.charData "18446744073709551615"] = toString 18446744073709551615
    ∧ (Decoder.DecodeElementRateExceededError
        (bodyDecoder ⟨⟨"", "errors"⟩, [⟨xsiType, "RateExceededError"⟩]⟩
          ([Node.element ⟨⟨"", "rateName"⟩, []⟩ [Node.charData "RequestsPerMinute"]]
            ++ Node.element ⟨⟨"", "retryAfterSeconds"⟩, []⟩
                [Node.charData "18446744073709551615"] :: []))
        ⟨"", "", "", "", 0⟩
        ⟨⟨"", "errors"⟩, [⟨xsiType, "RateExceededError"⟩]⟩).2.1.RetryAfterSeconds
      = 18446744073709551615 := by
  obtain ⟨r, h1, h2, _⟩ := retryAfterSeconds_roundtrip 18446744073709551615 (by decide)
    ⟨⟨"", "errors"⟩, [⟨xsiType, "RateExceededError"⟩]⟩ ⟨⟨"", "retryAfterSeconds"⟩, []⟩
    [Node.element ⟨⟨"", "rateName"⟩, []⟩ [Node.charData "RequestsPerMinute"]] []
    [Node.charData "18446744073709551615"] rfl (by decide) rfl (by decide) (by decide)
    (by decide)
  refine ⟨by decide, rfl, by decide, by decide, ?_⟩
  rw [h1]
  exact h2

/-! ## The record list during a call -/

/-- C17 (the code departs from it in one case): every pass of the loop leaves the record
list as it was or appends one record to it, so the list before is a prefix of the list
after, over the whole call as well; a pass that reads a start element other than `errors`
appends nothing, and a pass that reads an `errors` element whose record decodes appends
one record. But a `RateExceededError` element that fails to decode is not passed over with
the list unchanged: its partly filled record is appended as well. -/
theorem Errors_append_only :
    (∀ (err : Option GoError) (aes : ApiExceptionFault) (d : Decoder),
      match ApiExceptionFault.iteration err aes d with
      | .ret _ a _ => a.Errors = aes.Errors
      | .next a _ =>
        aes.Errors <+: a.Errors ∧ a.Errors.length ≤ aes.Errors.length + 1)
    ∧ (∀ (aes : ApiExceptionFault) (d : Decoder) (outer : StartElement),
      aes.Errors <+: (aes.UnmarshalXML d outer).2.1.Errors)
    ∧ (∀ (err : Option GoError) (aes : ApiExceptionFault) (start : StartElement)
        (ts : List Token) (fin : GoError), start.Name.Local ≠ "errors" →
      match ApiExceptionFault.iteration err aes ⟨Token.StartElement start :: ts, fin⟩ with
      | .ret _ a _ => a.Errors = aes.Errors
      | .next a _ => a.Errors = aes.Errors)
    ∧ (∀ (err : Option GoError) (aes : ApiExceptionFault) (start : StartElement)
        (ts : List Token) (fin : GoError), start.Name.Local = "errors" →
      (discriminator start = "RateExceededError" →
        (Decoder.DecodeElementRateExceededError ⟨ts, fin⟩ ⟨"", "", "", "", 0⟩ start).1
          = none) →
      (discriminator start ≠ "RateExceededError" →
        (Decoder.DecodeElementEntityError ⟨ts, fin⟩ ⟨"", "", "", ""⟩ start).1 = none) →
      match ApiExceptionFault.iteration err aes ⟨Token.StartElement start :: ts, fin⟩ with
      | .ret _ _ _ => False
      | .next a _ => ∃ r, a.Errors = aes.Errors ++ [r])
    ∧ ((Decoder.DecodeElementRateExceededError
          ⟨[Token.StartElement ⟨⟨"", "retryAfterSeconds"⟩, []⟩, Token.CharData "soon",
            Token.EndElement ⟨"", "retryAfterSeconds"⟩, Token.EndElement ⟨"", "errors"⟩,
            Token.EndElement ⟨"", "ApiExceptionFault"⟩], GoError.EOF⟩
          ⟨"", "", "", "", 0⟩ ⟨⟨"", "errors"⟩, [⟨xsiType, "RateExceededError"⟩]⟩).1
        = some (GoError.NumError "ParseUint" "soon" "invalid syntax")
      ∧ ApiExceptionFault.iteration none ⟨"", "", "", "", []⟩
          ⟨[Token.StartElement ⟨⟨"", "errors"⟩, [⟨xsiType, "RateExceededError"⟩]⟩,
            Token.StartElement ⟨⟨"", "retryAfterSeconds"⟩, []⟩, Token.CharData "soon",
            Token.EndElement ⟨"", "retryAfterSeconds"⟩, Token.EndElement ⟨"", "errors"⟩,
            Token.EndElement ⟨"", "ApiExceptionFault"⟩], GoError.EOF⟩
        = .next ⟨"", "", "RateExceededError", "",
              [Record.RateExceededError ⟨"", "", "", "", 0⟩]⟩
            ⟨[Token.EndElement ⟨"", "errors"⟩, Token.EndElement ⟨"", "ApiExceptionFault"⟩],
              GoError.EOF⟩) := by
  refine ⟨?_, ?_, ?_, ?_, by decide, by decide⟩
  · intro err aes d
    have h := iteration_Errors err aes d
    cases hi : ApiExceptionFault.iteration err aes d with
    | ret e a d1 =>
      rw [hi] at h
      exact h
    | next a d1 =>
      rw [hi] at h
      obtain ⟨new, h1, h2, _⟩ := h
      exact ⟨⟨new, h1.symm⟩, by rw [h1, List.length_append]; omega⟩
  · intro aes d outer
    obtain ⟨new, h1, _⟩ := UnmarshalXML_Errors outer d.toks.length aes d (Nat.le_refl _)
    exact ⟨new, h1.symm⟩
  · intro err aes start ts fin hname
    simp only [ApiExceptionFault.iteration, Decoder.Token, hname, if_false]
    split_ifs
    · rcases Decoder.DecodeElementString ⟨ts, fin⟩ aes.Message start with ⟨e, v, d2⟩
      cases e <;> rfl
    · rcases Decoder.DecodeElementString ⟨ts, fin⟩ aes.Type_ start with ⟨e, v, d2⟩
      cases e <;> rfl
    · rfl
    · rfl
  · intro err aes start ts fin hname hrate hent
    rw [iteration_errors err aes start ts fin hname]
    by_cases hr : discriminator start = "RateExceededError"
    · simp only [hr, if_true]
      exact ⟨_, rfl⟩
    · simp only [hr, if_false]
      have hok := hent hr
      rcases hd : Decoder.DecodeElementEntityError ⟨ts, fin⟩ ⟨"", "", "", ""⟩ start
        with ⟨e, v, d2⟩
      rw [hd] at hok
      simp only at hok
      subst hok
      exact ⟨_, rfl⟩

/-! ## The record of an `errors` element -/

/-- C3: a pass of the loop that reads an `errors` start element appends the record its
discriminator selects. For the discriminator `RateExceededError` the pass always goes on,
with the decoded `RateExceededError` appended; for every other discriminator it goes on with
the decoded `EntityError` appended when the record decodes, and returns the error
`Unknown error type` with nothing appended when it does not. So the appended record has the
`RateExceededError` shape if and only if the discriminator is `RateExceededError`, and the
`EntityError` shape otherwise; a well-formed `errors` element always has its record appended;
and over a whole call every record added to the list has one of these two shapes. -/
theorem errors_record_shape :
    (∀ (err : Option GoError) (aes : ApiExceptionFault) (space : String)
        (attrs : List Attr) (ts : List Token) (fin : GoError),
      ApiExceptionFault.iteration err aes
          ⟨Token.StartElement ⟨⟨space, "errors"⟩, attrs⟩ :: ts, fin⟩
        = if discriminator ⟨⟨space, "errors"⟩, attrs⟩ = "RateExceededError" then
            .next
              { Message := aes.Message, Type_ := aes.Type_,
                ErrorsType := discriminator ⟨⟨space, "errors"⟩, attrs⟩,
                Reason :=
                  (Decoder.DecodeElementRateExceededError ⟨ts, fin⟩ ⟨"", "", "", "", 0⟩
                    ⟨⟨space, "errors"⟩, attrs⟩).2.1.Reason,
                Errors := aes.Errors ++ [Record.RateExceededError
                  (Decoder.DecodeElementRateExceededError ⟨ts, fin⟩ ⟨"", "", "", "", 0⟩
                    ⟨⟨space, "errors"⟩, attrs⟩).2.1] }
              (Decoder.DecodeElementRateExceededError ⟨ts, fin⟩ ⟨"", "", "", "", 0⟩
                ⟨⟨space, "errors"⟩, attrs⟩).2.2
          else
            match Decoder.DecodeElementEntityError ⟨ts, fin⟩ ⟨"", "", "", ""⟩
                ⟨⟨space, "errors"⟩, attrs⟩ with
            | (some _, _, dec) =>
              .ret (some (.Errorf ("Unknown error type -> "
                  ++ StartElement.fmtS ⟨⟨space, "errors"⟩, attrs⟩)))
                { Message := aes.Message, Type_ := aes.Type_,
                  ErrorsType := discriminator ⟨⟨space, "errors"⟩, attrs⟩,
                  Reason := aes.Reason, Errors := aes.Errors } dec
            | (none, e, dec) =>
              .next
                { Message := aes.Message, Type_ := aes.Type_,
                  ErrorsType := discriminator ⟨⟨space, "errors"⟩, attrs⟩,
                  Reason :=
                    if discriminator ⟨⟨space, "errors"⟩, attrs⟩ = "AuthenticationError"
                        ∨ discriminator ⟨⟨space, "errors"⟩, attrs⟩ = "DatabaseError"
                        ∨ discriminator ⟨⟨space, "errors"⟩, attrs⟩ = "InternalApiError"
                    then e.Reason else aes.Reason,
                  Errors := aes.Errors ++ [Record.EntityError e] } dec)
    ∧ (∀ (err : Option GoError) (aes : ApiExceptionFault) (space : String)
        (attrs : List Attr) (cs : List Node) (rest : List Token) (fin : GoError),
      ∃ aes1 dec1,
        ApiExceptionFault.iteration err aes
            ⟨(Node.element ⟨⟨space, "errors"⟩, attrs⟩ cs).tokens ++ rest, fin⟩
          = .next aes1 dec1
        ∧ aes1.Errors = aes.Errors ++ [recordOf (⟨⟨space, "errors"⟩, attrs⟩, cs)]
        ∧ ((recordOf (⟨⟨space, "errors"⟩, attrs⟩, cs)).isRateExceededError = true
            ↔ discriminator ⟨⟨space, "errors"⟩, attrs⟩ = "RateExceededError")
        ∧ ((recordOf (⟨⟨space, "errors"⟩, attrs⟩, cs)).isEntityError = true
            ↔ discriminator ⟨⟨space, "errors"⟩, attrs⟩ ≠ "RateExceededError"))
    ∧ (∀ (err : Option GoError) (aes : ApiExceptionFault) (space : String)
        (attrs : List Attr) (ts : List Token) (fin : GoError),
      match ApiExceptionFault.iteration err aes
          ⟨Token.StartElement ⟨⟨space, "errors"⟩, attrs⟩ :: ts, fin⟩ with
      | .next aes1 _ =>
        ∃ r, aes1.Errors = aes.Errors ++ [r]
          ∧ (r.isRateExceededError = true
              ↔ discriminator ⟨⟨space, "errors"⟩, attrs⟩ = "RateExceededError")
          ∧ (r.isEntityError = true
              ↔ discriminator ⟨⟨space, "errors"⟩, attrs⟩ ≠ "RateExceededError")
      | .ret _ aes1 _ => aes1.Errors = aes.Errors)
    ∧ (∀ (aes : ApiExceptionFault) (d : Decoder) (start : StartElement),
        ∃ new, (aes.UnmarshalXML d start).2.1.Errors = aes.Errors ++ new
          ∧ ∀ r ∈ new, r.isRateExceededError = true ∨ r.isEntityError = true) := by
  refine ⟨fun err aes space attrs ts fin =>
      iteration_errors err aes ⟨⟨space, "errors"⟩, attrs⟩ ts fin rfl, ?_,
    iteration_errors_shape,
    fun aes d start => UnmarshalXML_Errors start d.toks.length aes d (Nat.le_refl _)⟩
  intro err aes space attrs cs rest fin
  simp only [Node.tokens, List.cons_append, List.append_assoc, List.singleton_append,
    List.nil_append]
  rw [iteration_errors err aes ⟨⟨space, "errors"⟩, attrs⟩ _ fin rfl, recordOf_eq]
  by_cases hr : discriminator ⟨⟨space, "errors"⟩, attrs⟩ = "RateExceededError"
  · simp only [hr, if_true, DecodeElementRateExceededError_children]
    exact ⟨_, _, rfl, rfl, by simp [Record.isRateExceededError],
      by simp [Record.isEntityError]⟩
  · simp only [hr, if_false, DecodeElementEntityError_children, decodeStruct_EntityError_ok]
    exact ⟨_, _, rfl, rfl, by simp [Record.isRateExceededError],
      by simp [Record.isEntityError, hr]⟩

/-- C3, an instance: a `RateExceededError` element appends a `RateExceededError` record, and
an element with the discriminator `BudgetError` appends an `EntityError` record. -/
theorem errors_record_shape_witness :
    ApiExceptionFault.iteration none ⟨"m", "t", "", "old", []⟩
        ⟨[Token.StartElement ⟨⟨"", "errors"⟩, [⟨xsiType, "RateExceededError"⟩]⟩,
          Token.StartElement ⟨⟨"", "rateScope"⟩, []⟩, Token.CharData "ACCOUNT",
          Token.EndElement ⟨"", "rateScope"⟩, Token.EndElement ⟨"", "errors"⟩], GoError.EOF⟩
      = .next ⟨"m", "t", "RateExceededError", "",
          [Record.RateExceededError ⟨"", "ACCOUNT", "", "", 0⟩]⟩ ⟨[], GoError.EOF⟩
    ∧ ApiExceptionFault.iteration none ⟨"m", "t", "", "old", []⟩
        ⟨[Token.StartElement ⟨⟨"", "errors"⟩, [⟨xsiType, "BudgetError"⟩]⟩,
          Token.StartElement ⟨⟨"", "trigger"⟩, []⟩, Token.CharData "0",
          Token.EndElement ⟨"", "trigger"⟩, Token.EndElement ⟨"", "errors"⟩], GoError.EOF⟩
      = .next ⟨"m", "t", "BudgetError", "old",
          [Record.EntityError ⟨"", "0", "", ""⟩]⟩ ⟨[], GoError.EOF⟩ := by
  constructor
  · exact (errors_record_shape.1 none ⟨"m", "t", "", "old", []⟩ ""
      [⟨xsiType, "RateExceededError"⟩]
      [Token.StartElement ⟨⟨"", "rateScope"⟩, []⟩, Token.CharData "ACCOUNT",
        Token.EndElement ⟨"", "rateScope"⟩, Token.EndElement ⟨"", "errors"⟩]
      GoError.EOF).trans (by decide)
  · exact (errors_record_shape.1 none ⟨"m", "t", "", "old", []⟩ ""
      [⟨xsiType, "BudgetError"⟩]
      [Token.StartElement ⟨⟨"", "trigger"⟩, []⟩, Token.CharData "0",
        Token.EndElement ⟨"", "trigger"⟩, Token.EndElement ⟨"", "errors"⟩]
      GoError.EOF).trans (by decide)

end Gads
